import Mathlib

/-!
Enhanced zoom (ezoom): zoom-area engine.

A shallow embedding of `src/src/ezoom.cpp`.

Conventions of the embedding:

* C `float` values are rationals (`ℚ`). In the zoom and translation arithmetic
  they are exact: the constants `0.5f`, `1.0f`, `75.0f`, `0.002f`, `1.25f`,
  `0.1f`, `0.005f` are the rationals they denote and no operation rounds. The
  step count and the chunk of `preparePaint` are computed in single precision
  (`f32`), each operation rounded, and so is the second rendering of the zoom
  axis, `ZoomArea.adjustZoomVelocityF32`, which is used where rounding decides
  the behaviour. Infinities and NaN are outside the model; a division whose
  divisor is zero has the value `0` here.
* C `int` values are unbounded integers (`ℤ`); `int / int` is truncating
  division (`Int.tdiv`); conversion of a `float` to `int` truncates toward zero
  (`truncQ`).
* `std::vector::at` throws when the index is out of range: every operation that
  indexes `zooms` or `outputDevs` returns `Option`, `none` being the exception.
* The host compositor (output rectangles, output lookup, option values, the
  polled pointer position, the cursor image geometry, the redraw time) is a
  record `Host` passed to every operation.
* The grabbed mask is a natural number used as a bit set of the 64 bits of a
  `long` (the width the comment in the constructor gives it; the member is
  declared in `ezoom.h`); the shift `1 << output` is an `int` shift, whose value
  in the mask is `outputMask`.
* Requests to warp the pointer are appended to the list `warps` of the state.
  Timestamps, damage requests and the cursor texture are not part of the state.
-/

namespace Ezoom

/-- Conversion of a `float` to `int`: truncation toward zero. -/
def truncQ (q : ℚ) : ℤ := if 0 ≤ q then ⌊q⌋ else ⌈q⌉

/-- Rectangle of one output device (`CompOutput`). -/
structure CompOutput where
  x1 : ℤ
  y1 : ℤ
  width : ℤ
  height : ℤ

/-- Right extent of an output. -/
def CompOutput.x2 (o : CompOutput) : ℤ := o.x1 + o.width

/-- Bottom extent of an output. -/
def CompOutput.y2 (o : CompOutput) : ℤ := o.y1 + o.height

/-- The services and option values the engine reads from the compositor. -/
structure Host where
  outputDevs : List CompOutput
  outputDeviceForPoint : ℤ → ℤ → ℕ
  outputDeviceForGeometry : ℤ → ℤ → ℤ → ℤ → ℕ
  screenWidth : ℤ
  screenHeight : ℤ
  redrawTime : ℚ
  pointerX : ℤ
  pointerY : ℤ
  polledX : ℤ
  polledY : ℤ
  cursorHotX : ℤ
  cursorHotY : ℤ
  cursorWidth : ℤ
  cursorHeight : ℤ
  minimumZoom : ℚ
  panFactor : ℚ
  speed : ℚ
  timestep : ℚ
  syncMouse : Bool
  mousePan : Bool
  restrainMargin : ℤ

/-- Per-output zoom state (`ZoomScreen::ZoomArea`); the field `viewport` is
never read and is left out. -/
structure ZoomArea where
  output : ℕ
  currentZoom : ℚ
  newZoom : ℚ
  xVelocity : ℚ
  yVelocity : ℚ
  zVelocity : ℚ
  xTranslate : ℚ
  yTranslate : ℚ
  realXTranslate : ℚ
  realYTranslate : ℚ
  xtrans : ℚ
  ytrans : ℚ
  locked : Bool

/-- Engine state (`ZoomScreen`): the areas, the grabbed mask, the last known
mouse position, whether mouse polling runs, and the pointer warps requested. -/
structure ZoomScreen where
  zooms : List ZoomArea
  grabbed : ℕ
  mouseX : ℤ
  mouseY : ℤ
  pollActive : Bool
  warps : List (ℤ × ℤ)

/-- Edges of an output (`ZoomScreen::ZoomEdge`). -/
inductive ZoomEdge where
  | NORTH
  | SOUTH
  | EAST
  | WEST

/-- Body of `ZoomArea::updateActualTranslates`. -/
def ZoomArea.updateActualTranslates (za : ZoomArea) : ZoomArea :=
  { za with
    xtrans := -za.realXTranslate * (1 - za.currentZoom)
    ytrans := za.realYTranslate * (1 - za.currentZoom) }

/-- Constructor `ZoomArea::ZoomArea (int out)`. -/
def ZoomArea.init (out : ℕ) : ZoomArea :=
  ZoomArea.updateActualTranslates
    { output := out, currentZoom := 1, newZoom := 1,
      xVelocity := 0, yVelocity := 0, zVelocity := 0,
      xTranslate := 0, yTranslate := 0,
      realXTranslate := 0, realYTranslate := 0,
      xtrans := 0, ytrans := 0, locked := false }

/-- Store `za` as the area of output `out` (a write through `zooms.at (out)`). -/
def ZoomScreen.setArea (s : ZoomScreen) (out : ℕ) (za : ZoomArea) : ZoomScreen :=
  { s with zooms := s.zooms.set out za }

/-- Source function `outputIsZoomArea`. -/
def outputIsZoomArea (s : ZoomScreen) (out : ℕ) : Bool :=
  decide (out < s.zooms.length)

/-- The value of `1 << output` in the `long` mask `grabbed`. The shift is an
`int` shift of 32 bits: for an output below 31 it is the bit `output`; for
output 31 the `int` is negative and its conversion to the mask sets the bits 31
to 63; a count of 32 or more, undefined in C++, is taken modulo 32 as the shift
instruction takes it. -/
def outputMask (output : ℕ) : ℕ :=
  if output % 32 = 31 then 2 ^ 64 - 2 ^ 31 else 2 ^ (output % 32)

/-- Source function `isActive`: `grabbed & (1 << output)` is non-zero. -/
def isActive (s : ZoomScreen) (out : ℕ) : Bool :=
  match s.zooms[out]? with
  | none => false
  | some za => s.grabbed &&& outputMask za.output != 0

/-- Source function `isZoomed`. -/
def isZoomed (s : ZoomScreen) (out : ℕ) : Bool :=
  match s.zooms[out]? with
  | none => false
  | some za =>
    if za.currentZoom ≠ 1 ∨ za.newZoom ≠ 1 then true
    else if za.zVelocity ≠ 0 then true
    else false

/-- Source function `ZoomScreen::convertToZoomed` (uses the real values). -/
def convertToZoomed (h : Host) (s : ZoomScreen) (out : ℕ) (x y : ℤ) :
    Option (ℤ × ℤ) :=
  match h.outputDevs[out]?, s.zooms[out]? with
  | some o, some za =>
    let x := x - o.x1
    let y := y - o.y1
    let resultX : ℤ := truncQ ((x : ℚ) -
      (za.realXTranslate * (1 - za.currentZoom) * (o.width : ℚ)) -
      ((Int.tdiv o.width 2 : ℤ) : ℚ))
    let resultX : ℤ := truncQ ((resultX : ℚ) / za.currentZoom)
    let resultX : ℤ := resultX + Int.tdiv o.width 2
    let resultX : ℤ := resultX + o.x1
    let resultY : ℤ := truncQ ((y : ℚ) -
      (za.realYTranslate * (1 - za.currentZoom) * (o.height : ℚ)) -
      ((Int.tdiv o.height 2 : ℤ) : ℚ))
    let resultY : ℤ := truncQ ((resultY : ℚ) / za.currentZoom)
    let resultY : ℤ := resultY + Int.tdiv o.height 2
    let resultY : ℤ := resultY + o.y1
    some (resultX, resultY)
  | _, _ => none

/-- Source function `ZoomScreen::convertToZoomedTarget` (uses the targets). -/
def convertToZoomedTarget (h : Host) (s : ZoomScreen) (out : ℕ) (x y : ℤ) :
    Option (ℤ × ℤ) :=
  match h.outputDevs[out]?, s.zooms[out]? with
  | some o, some za =>
    let x := x - o.x1
    let y := y - o.y1
    let resultX : ℤ := truncQ ((x : ℚ) -
      (za.xTranslate * (1 - za.newZoom) * (o.width : ℚ)) -
      ((Int.tdiv o.width 2 : ℤ) : ℚ))
    let resultX : ℤ := truncQ ((resultX : ℚ) / za.newZoom)
    let resultX : ℤ := resultX + Int.tdiv o.width 2
    let resultX : ℤ := resultX + o.x1
    let resultY : ℤ := truncQ ((y : ℚ) -
      (za.yTranslate * (1 - za.newZoom) * (o.height : ℚ)) -
      ((Int.tdiv o.height 2 : ℤ) : ℚ))
    let resultY : ℤ := truncQ ((resultY : ℚ) / za.newZoom)
    let resultY : ℤ := resultY + Int.tdiv o.height 2
    let resultY : ℤ := resultY + o.y1
    some (resultX, resultY)
  | _, _ => none

/-- Source function `ZoomScreen::distanceToEdge`. -/
def distanceToEdge (h : Host) (s : ZoomScreen) (out : ℕ) (edge : ZoomEdge) :
    Option ℤ :=
  match h.outputDevs[out]? with
  | none => none
  | some o =>
    if !isActive s out then some 0
    else
      match convertToZoomedTarget h s out o.x2 o.y2,
            convertToZoomedTarget h s out o.x1 o.y1 with
      | some (x2, y2), some (x1, y1) =>
        match edge with
        | .NORTH => some (o.y1 - y1)
        | .SOUTH => some (y2 - o.y2)
        | .EAST => some (x2 - o.x2)
        | .WEST => some (o.x1 - x1)
      | _, _ => none

/-- First `if`/`else if` of the loop body of `constrainZoomTranslate`. -/
def ZoomArea.constrainX (za : ZoomArea) : ZoomArea :=
  if za.xTranslate > 1 / 2 then { za with xTranslate := 1 / 2 }
  else if za.xTranslate < -(1 / 2) then { za with xTranslate := -(1 / 2) }
  else za

/-- Second `if`/`else if` of the loop body of `constrainZoomTranslate`. -/
def ZoomArea.constrainY (za : ZoomArea) : ZoomArea :=
  if za.yTranslate > 1 / 2 then { za with yTranslate := 1 / 2 }
  else if za.yTranslate < -(1 / 2) then { za with yTranslate := -(1 / 2) }
  else za

/-- One area of the loop of `constrainZoomTranslate`. -/
def constrainArea (za : ZoomArea) : ZoomArea :=
  za.constrainX.constrainY

/-- Source function `constrainZoomTranslate`: clamps the targets of every area. -/
def constrainZoomTranslate (s : ZoomScreen) : ZoomScreen :=
  { s with zooms := s.zooms.map constrainArea }

/-- Source function `ZoomScreen::restrainCursor`. -/
def restrainCursor (h : Host) (s : ZoomScreen) (out : ℕ) : Option ZoomScreen :=
  match h.outputDevs[out]?, s.zooms[out]? with
  | some o, some za =>
    let z := za.newZoom
    let margin := h.restrainMargin
    match distanceToEdge h s out .NORTH, distanceToEdge h s out .SOUTH,
          distanceToEdge h s out .EAST, distanceToEdge h s out .WEST with
    | some north, some south, some east, some west =>
      let s : ZoomScreen :=
        if za.currentZoom = 1 then { s with mouseX := h.polledX, mouseY := h.polledY }
        else s
      match convertToZoomedTarget h s out (s.mouseX - h.cursorHotX)
              (s.mouseY - h.cursorHotY),
            convertToZoomedTarget h s out
              (s.mouseX - h.cursorHotX + h.cursorWidth)
              (s.mouseY - h.cursorHotY + h.cursorHeight) with
      | some (x1, y1), some (x2, y2) =>
        if x2 - x1 > o.x2 - o.x1 ∨ y2 - y1 > o.y2 - o.y1 then some s
        else
          let diffX : ℤ :=
            if x2 > o.x2 - margin ∧ east > 0 then x2 - o.x2 + margin
            else if x1 < o.x1 + margin ∧ west > 0 then x1 - o.x1 - margin
            else 0
          let diffY : ℤ :=
            if y2 > o.y2 - margin ∧ south > 0 then y2 - o.y2 + margin
            else if y1 < o.y1 + margin ∧ north > 0 then y1 - o.y1 - margin
            else 0
          if ((|diffX| : ℤ) : ℚ) * z > 0 ∨ ((|diffY| : ℤ) : ℚ) * z > 0 then
            some { s with warps := s.warps ++
              [((s.mouseX - h.pointerX) - truncQ ((diffX : ℚ) * z),
                (s.mouseY - h.pointerY) - truncQ ((diffY : ℚ) * z))] }
          else some s
      | _, _ => none
    | _, _, _, _ => none
  | _, _ => none

/-- Source function `ZoomScreen::setCenter`. -/
def setCenter (h : Host) (s : ZoomScreen) (x y : ℤ) (instant : Bool) :
    Option ZoomScreen :=
  let out := h.outputDeviceForPoint x y
  match h.outputDevs[out]?, s.zooms[out]? with
  | some o, some za =>
    if za.locked then some s
    else
      let za : ZoomArea := { za with
        xTranslate := (((x - o.x1) - Int.tdiv o.width 2 : ℤ) : ℚ) / (o.width : ℚ) }
      let za : ZoomArea := { za with
        yTranslate := (((y - o.y1) - Int.tdiv o.height 2 : ℤ) : ℚ) / (o.height : ℚ) }
      let za : ZoomArea :=
        if instant then
          ZoomArea.updateActualTranslates
            { za with
              realXTranslate := za.xTranslate
              realYTranslate := za.yTranslate
              yVelocity := 0
              xVelocity := 0 }
        else za
      let s := s.setArea out za
      if h.mousePan then restrainCursor h s out else some s
  | _, _ => none

/-- The assignments of `setZoomArea` to the target translation of the area. -/
def ZoomArea.assignAreaTarget (o : CompOutput) (za : ZoomArea)
    (x y width height : ℤ) : ZoomArea :=
  let za : ZoomArea := { za with
    xTranslate :=
      ((-(Int.tdiv o.width 2 - (x + Int.tdiv width 2 - o.x1)) : ℤ) : ℚ)
        / (o.width : ℚ) }
  let za : ZoomArea := { za with xTranslate := za.xTranslate / (1 - za.newZoom) }
  let za : ZoomArea := { za with
    yTranslate :=
      ((-(Int.tdiv o.height 2 - (y + Int.tdiv height 2 - o.y1)) : ℤ) : ℚ)
        / (o.height : ℚ) }
  { za with yTranslate := za.yTranslate / (1 - za.newZoom) }

/-- The block `if (instant)` of `setZoomArea`: the real translation takes the
target value and the render translation is recomputed. -/
def ZoomArea.snapTranslates (za : ZoomArea) : ZoomArea :=
  ZoomArea.updateActualTranslates
    { za with
      realXTranslate := za.xTranslate
      realYTranslate := za.yTranslate }

/-- Source function `ZoomScreen::setZoomArea`. -/
def setZoomArea (h : Host) (s : ZoomScreen) (x y width height : ℤ)
    (instant : Bool) : Option ZoomScreen :=
  let out := h.outputDeviceForGeometry x y width height
  match h.outputDevs[out]?, s.zooms[out]? with
  | some o, some za =>
    if za.newZoom = 1 then some s
    else if za.locked then some s
    else
      let s := constrainZoomTranslate
        (s.setArea out (za.assignAreaTarget o x y width height))
      match s.zooms[out]? with
      | none => none
      | some za =>
        let s : ZoomScreen :=
          if instant then s.setArea out za.snapTranslates else s
        if h.mousePan then restrainCursor h s out else some s
  | _, _ => none

/-- Source function `ZoomScreen::enableMousePolling`. -/
def enableMousePolling (h : Host) (s : ZoomScreen) : ZoomScreen :=
  { s with pollActive := true, mouseX := h.polledX, mouseY := h.polledY }

/-- Source function `ZoomScreen::setScale`. -/
def setScale (h : Host) (s : ZoomScreen) (out : ℕ) (value : ℚ) :
    Option ZoomScreen :=
  match s.zooms[out]? with
  | none => none
  | some za =>
    if za.locked then some s
    else
      let value1 : ℚ := if value ≥ 1 then 1 else value
      let s : ZoomScreen :=
        if value ≥ 1 then s
        else
          let s := if !s.pollActive then enableMousePolling h s else s
          { s with grabbed := s.grabbed ||| outputMask za.output }
      match s.zooms[out]? with
      | none => none
      | some za =>
        let za : ZoomArea :=
          if value1 = 1 then { za with xTranslate := 0, yTranslate := 0 } else za
        let value2 : ℚ := if value1 < h.minimumZoom then h.minimumZoom else value1
        some (s.setArea out { za with newZoom := value2 })

/-- Body of `ZoomScreen::adjustZoomVelocity` for one area; `r` is
`cScreen->redrawTime ()`. -/
def ZoomArea.adjustZoomVelocity (r chunk : ℚ) (za : ZoomArea) : ZoomArea :=
  let d : ℚ := (za.newZoom - za.currentZoom) * 75
  let adjust : ℚ := d * (2 / 1000)
  let amount : ℚ := |d|
  let amount : ℚ := if amount < 1 then 1 else if amount > 5 then 5 else amount
  let za : ZoomArea := { za with
    zVelocity := (amount * za.zVelocity + adjust) / (amount + 1) }
  if |d| < 1 / 10 ∧ |za.zVelocity| < 5 / 1000 then
    { za with currentZoom := za.newZoom, zVelocity := 0 }
  else
    { za with currentZoom := za.currentZoom + (za.zVelocity * chunk) / r }

/-- Source function `ZoomScreen::adjustZoomVelocity`. -/
def adjustZoomVelocity (h : Host) (s : ZoomScreen) (out : ℕ) (chunk : ℚ) :
    Option ZoomScreen :=
  match s.zooms[out]? with
  | none => none
  | some za => some (s.setArea out (za.adjustZoomVelocity h.redrawTime chunk))

/-- Repeated calls `adjustZoomVelocity (out, chunk)`, `n` times. -/
def adjustZoomVelocityN (h : Host) (out : ℕ) (chunk : ℚ) :
    ℕ → ZoomScreen → Option ZoomScreen
  | 0, s => some s
  | n + 1, s =>
    match adjustZoomVelocity h s out chunk with
    | none => none
    | some s' => adjustZoomVelocityN h out chunk n s'

/-! ## Auxiliary definitions used to state the properties -/

/-- The area of output `out` after `setScale (out, value)` on an unlocked area. -/
def setScaleArea (h : Host) (value : ℚ) (za : ZoomArea) : ZoomArea :=
  { za with
    xTranslate := if 1 ≤ value then 0 else za.xTranslate
    yTranslate := if 1 ≤ value then 0 else za.yTranslate
    newZoom :=
      if 1 ≤ value then (if 1 < h.minimumZoom then h.minimumZoom else 1)
      else if value < h.minimumZoom then h.minimumZoom else value }

/-- The engine state after `setScale (out, value)` on an unlocked area `za`. -/
def setScaleResult (h : Host) (s : ZoomScreen) (out : ℕ) (value : ℚ)
    (za : ZoomArea) : ZoomScreen :=
  { zooms := s.zooms.set out (setScaleArea h value za)
    grabbed := if 1 ≤ value then s.grabbed else s.grabbed ||| outputMask za.output
    mouseX := if 1 ≤ value ∨ s.pollActive = true then s.mouseX else h.polledX
    mouseY := if 1 ≤ value ∨ s.pollActive = true then s.mouseY else h.polledY
    pollActive := if 1 ≤ value then s.pollActive else true
    warps := s.warps }

/-- `convertToZoomed` with its conversions to `int` left out: the same
arithmetic, carried out in the rationals. -/
def convertToZoomedExact (h : Host) (s : ZoomScreen) (out : ℕ) (x y : ℤ) :
    Option (ℚ × ℚ) :=
  match h.outputDevs[out]?, s.zooms[out]? with
  | some o, some za =>
    let x := x - o.x1
    let y := y - o.y1
    let resultX : ℚ := (x : ℚ) -
      (za.realXTranslate * (1 - za.currentZoom) * (o.width : ℚ)) -
      ((Int.tdiv o.width 2 : ℤ) : ℚ)
    let resultX : ℚ := resultX / za.currentZoom
    let resultX : ℚ := resultX + ((Int.tdiv o.width 2 : ℤ) : ℚ)
    let resultX : ℚ := resultX + (o.x1 : ℚ)
    let resultY : ℚ := (y : ℚ) -
      (za.realYTranslate * (1 - za.currentZoom) * (o.height : ℚ)) -
      ((Int.tdiv o.height 2 : ℤ) : ℚ)
    let resultY : ℚ := resultY / za.currentZoom
    let resultY : ℚ := resultY + ((Int.tdiv o.height 2 : ℤ) : ℚ)
    let resultY : ℚ := resultY + (o.y1 : ℚ)
    some (resultX, resultY)
  | _, _ => none

/-- The inverse of the real transform on the x axis, as the round-trip property
writes it: `(x' - W div 2 - x1) * currentZoom + realXTranslate * (1 - currentZoom)
* W + W div 2 + x1`. -/
def inverseZoomedX (o : CompOutput) (za : ZoomArea) (x' : ℚ) : ℚ :=
  (x' - ((Int.tdiv o.width 2 : ℤ) : ℚ) - (o.x1 : ℚ)) * za.currentZoom +
    za.realXTranslate * (1 - za.currentZoom) * (o.width : ℚ) +
    ((Int.tdiv o.width 2 : ℤ) : ℚ) + (o.x1 : ℚ)

/-- The inverse of the real transform on the y axis (as `inverseZoomedX`, with
the height, `y1` and `realYTranslate`). -/
def inverseZoomedY (o : CompOutput) (za : ZoomArea) (y' : ℚ) : ℚ :=
  (y' - ((Int.tdiv o.height 2 : ℤ) : ℚ) - (o.y1 : ℚ)) * za.currentZoom +
    za.realYTranslate * (1 - za.currentZoom) * (o.height : ℚ) +
    ((Int.tdiv o.height 2 : ℤ) : ℚ) + (o.y1 : ℚ)

/-- The function `clamp (v, lo, hi)` of the postconditions. -/
def clampQ (v lo hi : ℚ) : ℚ := min (max v lo) hi

/-- The x translation that `setZoomArea` computes before it clamps, written
with rational division throughout. -/
def areaXTranslate (o : CompOutput) (za : ZoomArea) (x width : ℤ) : ℚ :=
  -(((o.width : ℚ) / 2) - ((x : ℚ) + (width : ℚ) / 2 - (o.x1 : ℚ)))
    / (o.width : ℚ) / (1 - za.newZoom)

/-- The y translation that `setZoomArea` computes before it clamps, written
with rational division throughout. -/
def areaYTranslate (o : CompOutput) (za : ZoomArea) (y height : ℤ) : ℚ :=
  -(((o.height : ℚ) / 2) - ((y : ℚ) + (height : ℚ) / 2 - (o.y1 : ℚ)))
    / (o.height : ℚ) / (1 - za.newZoom)

/-- The area of the resolved output after `setZoomArea` went past its guards. -/
def setZoomAreaArea (o : CompOutput) (za : ZoomArea) (x y width height : ℤ)
    (instant : Bool) : ZoomArea :=
  let za1 : ZoomArea := constrainArea (za.assignAreaTarget o x y width height)
  if instant then za1.snapTranslates else za1

/-- An area in which the real values are replaced by the target values. -/
def ZoomArea.realFromTarget (za : ZoomArea) : ZoomArea :=
  { za with
    currentZoom := za.newZoom
    realXTranslate := za.xTranslate
    realYTranslate := za.yTranslate }

/-- The state in which every area has its real values replaced by its targets. -/
def ZoomScreen.realFromTarget (s : ZoomScreen) : ZoomScreen :=
  { s with zooms := s.zooms.map ZoomArea.realFromTarget }

/-! ## Concrete hosts and states -/

/-- A single 1920x1080 output at the origin, with the default option values. -/
def host1080 : Host :=
  { outputDevs := [{ x1 := 0, y1 := 0, width := 1920, height := 1080 }]
    outputDeviceForPoint := fun _ _ => 0
    outputDeviceForGeometry := fun _ _ _ _ => 0
    screenWidth := 1920
    screenHeight := 1080
    redrawTime := 16
    pointerX := 0
    pointerY := 0
    polledX := 0
    polledY := 0
    cursorHotX := 0
    cursorHotY := 0
    cursorWidth := 24
    cursorHeight := 24
    minimumZoom := 1 / 8
    panFactor := 1 / 10
    speed := 25
    timestep := 6 / 5
    syncMouse := true
    mousePan := false
    restrainMargin := 5 }

/-- The output of `host1080`. -/
def output1080 : CompOutput := { x1 := 0, y1 := 0, width := 1920, height := 1080 }

/-- The engine right after construction on one output. -/
def screenFresh : ZoomScreen :=
  { zooms := [ZoomArea.init 0], grabbed := 0, mouseX := 0, mouseY := 0,
    pollActive := false, warps := [] }

/-- One output whose area is locked. -/
def screenLocked : ZoomScreen :=
  { screenFresh with zooms := [{ ZoomArea.init 0 with locked := true }] }

/-- An area whose target zoom is `0.5` while the view is still unzoomed. -/
def areaHalf : ZoomArea := { ZoomArea.init 0 with newZoom := 1 / 2 }

/-- One output with the area `areaHalf`, grabbed. -/
def screenHalf : ZoomScreen :=
  { screenFresh with zooms := [areaHalf], grabbed := 1 }

/-- One output whose area rests at zoom `0.5` (target and animated value). -/
def screenRestHalf : ZoomScreen :=
  { screenFresh with
    zooms := [{ ZoomArea.init 0 with newZoom := 1 / 2, currentZoom := 1 / 2 }]
    grabbed := 1 }

/-- Distance of the zoom axis from rest, as a quadratic form: with
`e = newZoom - currentZoom`, the squared deviation of `zVelocity` from the
velocity `0.15 * e` plus the square of `0.15 * e`. -/
def zoomEnergy (za : ZoomArea) : ℚ :=
  (za.zVelocity - 3 / 20 * (za.newZoom - za.currentZoom)) ^ 2 +
    (3 / 20 * (za.newZoom - za.currentZoom)) ^ 2

/-- The area after `n` calls of `adjustZoomVelocity`. -/
def ZoomArea.adjustZoomVelocityN (r chunk : ℚ) : ℕ → ZoomArea → ZoomArea
  | 0, za => za
  | n + 1, za => ZoomArea.adjustZoomVelocityN r chunk n (za.adjustZoomVelocity r chunk)

/-- The host `host1080` with a redraw time of one millisecond. -/
def hostFast : Host := { host1080 with redrawTime := 1 }

/-- Zoom axis slightly below its target `0.5`, moving away from it. -/
def areaLow : ZoomArea :=
  { ZoomArea.init 0 with currentZoom := 49 / 100, newZoom := 1 / 2, zVelocity := -(1 / 2000) }

/-- Zoom axis slightly above its target `0.5`, moving away from it. -/
def areaHigh : ZoomArea :=
  { ZoomArea.init 0 with currentZoom := 51 / 100, newZoom := 1 / 2, zVelocity := 1 / 2000 }

/-- One output with the area `areaLow`, grabbed. -/
def screenLow : ZoomScreen :=
  { screenFresh with zooms := [areaLow], grabbed := 1 }

/-! ## Integration of the translation axes, painting, panning, visibility -/

/-- Source function `ZoomScreen::isInMovement`. -/
def isInMovement (s : ZoomScreen) (out : ℕ) : Option Bool :=
  match s.zooms[out]? with
  | none => none
  | some za =>
    if za.currentZoom = 1 ∧ za.newZoom = 1 ∧ za.zVelocity = 0 then some false
    else if za.currentZoom ≠ za.newZoom ∨ za.xVelocity ≠ 0 ∨ za.yVelocity ≠ 0 ∨
        za.zVelocity ≠ 0 then some true
    else if za.xTranslate ≠ za.realXTranslate ∨ za.yTranslate ≠ za.realYTranslate then
      some true
    else some false

/-- Body of `ZoomScreen::adjustXYVelocity` for one area; `r` is
`cScreen->redrawTime ()`. -/
def ZoomArea.adjustXYVelocity (r chunk : ℚ) (za : ZoomArea) : ZoomArea :=
  let xv0 : ℚ := za.xVelocity / (5 / 4)
  let yv0 : ℚ := za.yVelocity / (5 / 4)
  let xdiff : ℚ := (za.xTranslate - za.realXTranslate) * 75
  let ydiff : ℚ := (za.yTranslate - za.realYTranslate) * 75
  let xadjust : ℚ := xdiff * (2 / 1000)
  let yadjust : ℚ := ydiff * (2 / 1000)
  let xamount : ℚ := |xdiff|
  let yamount : ℚ := |ydiff|
  let xamount : ℚ := if xamount < 1 then 1 else if xamount > 5 then 5 else xamount
  let yamount : ℚ := if yamount < 1 then 1 else if yamount > 5 then 5 else yamount
  let xv : ℚ := (xamount * xv0 + xadjust) / (xamount + 1)
  let yv : ℚ := (yamount * yv0 + yadjust) / (yamount + 1)
  if (|xdiff| < 1 / 10 ∧ |xv| < 5 / 1000) ∧ (|ydiff| < 1 / 10 ∧ |yv| < 5 / 1000) then
    { za with
      realXTranslate := za.xTranslate
      realYTranslate := za.yTranslate
      xVelocity := 0
      yVelocity := 0 }
  else
    { za with
      xVelocity := xv
      yVelocity := yv
      realXTranslate := za.realXTranslate + (xv * chunk) / r
      realYTranslate := za.realYTranslate + (yv * chunk) / r }

/-- Source function `ZoomScreen::adjustXYVelocity`. -/
def adjustXYVelocity (h : Host) (s : ZoomScreen) (out : ℕ) (chunk : ℚ) :
    Option ZoomScreen :=
  match s.zooms[out]? with
  | none => none
  | some za => some (s.setArea out (za.adjustXYVelocity h.redrawTime chunk))

/-- The statement `mask &= ~(1 << bit)` on a mask kept as a natural number:
the bits of `outputMask bit` are cleared. -/
def clearBit (mask bit : ℕ) : ℕ := mask ^^^ (mask &&& outputMask bit)

/-- The block `if (!isZoomed (out))` of `preparePaint`: the x and y velocities
are zeroed. -/
def ZoomArea.stopXY (za : ZoomArea) : ZoomArea :=
  { za with xVelocity := 0, yVelocity := 0 }

/-- Body of the loop over the outputs in `preparePaint`, for the output `out`. -/
def paintArea (h : Host) (chunk : ℚ) (s : ZoomScreen) (out : ℕ) :
    Option ZoomScreen :=
  match isInMovement s out with
  | none => none
  | some moving =>
    if !moving || !isActive s out then some s
    else
      match adjustXYVelocity h s out chunk with
      | none => none
      | some s1 =>
        match adjustZoomVelocity h s1 out chunk with
        | none => none
        | some s2 =>
          match s2.zooms[out]? with
          | none => none
          | some za =>
            let s3 := s2.setArea out za.updateActualTranslates
            if !isZoomed s3 out then
              match s3.zooms[out]? with
              | none => none
              | some za3 =>
                some { s3.setArea out za3.stopXY with
                  grabbed := clearBit s3.grabbed za3.output }
            else some s3

/-- The loop `for (out = 0; out < zooms.size (); out++)` of `preparePaint`, over
the listed outputs. -/
def paintOutputsFrom (h : Host) (chunk : ℚ) : List ℕ → ZoomScreen → Option ZoomScreen
  | [], s => some s
  | out :: rest, s =>
    match paintArea h chunk s out with
    | none => none
    | some s' => paintOutputsFrom h chunk rest s'

/-- One iteration of `while (steps--)` in `preparePaint`. -/
def paintOutputs (h : Host) (chunk : ℚ) (s : ZoomScreen) : Option ZoomScreen :=
  paintOutputsFrom h chunk (List.range s.zooms.length) s

/-- The loop `while (steps--)` of `preparePaint`, for a non-negative count. -/
def paintSteps (h : Host) (chunk : ℚ) : ℕ → ZoomScreen → Option ZoomScreen
  | 0, s => some s
  | n + 1, s =>
    match paintOutputs h chunk s with
    | none => none
    | some s' => paintSteps h chunk n s'

/-- Source function `ZoomScreen::syncCenterToMouse`. -/
def syncCenterToMouse (h : Host) (s : ZoomScreen) : Option ZoomScreen :=
  let out := h.outputDeviceForPoint s.mouseX s.mouseY
  match h.outputDevs[out]? with
  | none => none
  | some o =>
    match isInMovement s out, s.zooms[out]? with
    | some moving, some za =>
      if !moving then some s
      else
        let x : ℤ := truncQ ((za.realXTranslate * (h.screenWidth : ℚ)) +
          ((Int.tdiv o.width 2 : ℤ) : ℚ) + (o.x1 : ℚ))
        let y : ℤ := truncQ ((za.realYTranslate * (h.screenHeight : ℚ)) +
          ((Int.tdiv o.height 2 : ℤ) : ℚ) + (o.y1 : ℚ))
        if (x ≠ s.mouseX ∨ y ≠ s.mouseY) ∧ s.grabbed ≠ 0 ∧ za.newZoom ≠ 1 then
          some { s with
            warps := s.warps ++ [(x - h.pointerX, y - h.pointerY)]
            mouseX := x
            mouseY := y }
        else some s
    | _, _ => none

/-! ## Single-precision values and the sub-stepping of `preparePaint` -/

/-- Rounding to the nearest integer, ties to the even one. -/
def roundEven (q : ℚ) : ℤ :=
  let f : ℤ := ⌊q⌋
  let r : ℚ := q - (f : ℚ)
  if r < 1 / 2 then f else if 1 / 2 < r then f + 1 else if f % 2 = 0 then f else f + 1

/-- The `float` (IEEE binary32) nearest to a number: 24 significant bits, the
exponent not below -126, ties to even. Infinities are not represented, so a
number beyond the largest `float` keeps its rounded value. -/
def f32 (q : ℚ) : ℚ :=
  if q = 0 then 0
  else
    let e : ℤ := max (Int.log 2 |q|) (-126)
    let u : ℚ := (2 : ℚ) ^ (e - 23)
    (roundEven (q / u) : ℚ) * u

/-- The value `amount` of `preparePaint`,
`msSinceLastPaint * 0.05f * optionGetSpeed ()`, computed in `float`: the `int` is
converted, each product is rounded, the option is read as a `float`. -/
def paintAmount (h : Host) (msSinceLastPaint : ℤ) : ℚ :=
  f32 (f32 (f32 (msSinceLastPaint : ℚ) * f32 (5 / 100)) * f32 h.speed)

/-- The value of `steps` in `preparePaint` when the loop `while (steps--)`
starts: the `float` quotient `amount / (0.5f * optionGetTimestep ())` converted
to `int`, and 1 when that is 0. -/
def paintStepCount (h : Host) (msSinceLastPaint : ℤ) : ℤ :=
  let steps : ℤ :=
    truncQ (f32 (paintAmount h msSinceLastPaint / f32 (1 / 2 * f32 h.timestep)))
  if steps = 0 then 1 else steps

/-- The value `chunk` of `preparePaint`, `amount / (float) steps`. -/
def paintChunk (h : Host) (msSinceLastPaint : ℤ) : ℚ :=
  f32 (paintAmount h msSinceLastPaint / f32 (paintStepCount h msSinceLastPaint : ℚ))

/-- Source function `ZoomScreen::preparePaint`. A negative step count makes
`while (steps--)` run into signed overflow; that case is `none`. The call of
`cScreen->preparePaint` at the end belongs to the host. -/
def preparePaint (h : Host) (s : ZoomScreen) (msSinceLastPaint : ℤ) :
    Option ZoomScreen :=
  if s.grabbed ≠ 0 then
    let steps : ℤ := paintStepCount h msSinceLastPaint
    let chunk : ℚ := paintChunk h msSinceLastPaint
    if steps < 0 then none
    else
      match paintSteps h chunk steps.toNat s with
      | none => none
      | some s' => if h.syncMouse then syncCenterToMouse h s' else some s'
  else some s

/-- Body of `ZoomScreen::adjustZoomVelocity` for one area, computed in `float`
as the source computes it: the difference, each product, the sum, the quotient
and the update of `currentZoom` are rounded (`f32`), the constants `0.002f`,
`0.1f`, `0.005f` are the `float` values nearest to them; `r` is
`cScreen->redrawTime ()`, converted to `float`. -/
def ZoomArea.adjustZoomVelocityF32 (r chunk : ℚ) (za : ZoomArea) : ZoomArea :=
  let d : ℚ := f32 (f32 (za.newZoom - za.currentZoom) * 75)
  let adjust : ℚ := f32 (d * f32 (2 / 1000))
  let amount : ℚ := |d|
  let amount : ℚ := if amount < 1 then 1 else if amount > 5 then 5 else amount
  let za : ZoomArea := { za with
    zVelocity := f32 (f32 (f32 (amount * za.zVelocity) + adjust) / f32 (amount + 1)) }
  if |d| < f32 (1 / 10) ∧ |za.zVelocity| < f32 (5 / 1000) then
    { za with currentZoom := za.newZoom, zVelocity := 0 }
  else
    { za with
      currentZoom := f32 (za.currentZoom + f32 (f32 (za.zVelocity * chunk) / f32 r)) }

/-- Source function `ZoomScreen::adjustZoomVelocity`, computed in `float`. -/
def adjustZoomVelocityF32 (h : Host) (s : ZoomScreen) (out : ℕ) (chunk : ℚ) :
    Option ZoomScreen :=
  match s.zooms[out]? with
  | none => none
  | some za => some (s.setArea out (za.adjustZoomVelocityF32 h.redrawTime chunk))

/-- Repeated calls `adjustZoomVelocity (out, chunk)`, `n` times, computed in
`float`. -/
def adjustZoomVelocityF32N (h : Host) (out : ℕ) (chunk : ℚ) :
    ℕ → ZoomScreen → Option ZoomScreen
  | 0, s => some s
  | n + 1, s =>
    match adjustZoomVelocityF32 h s out chunk with
    | none => none
    | some s' => adjustZoomVelocityF32N h out chunk n s'

/-- The area of output 0 at zoom `0.5` with the target `1`: the state after
`setScale (0, 1)` on an area resting at `0.5`. -/
def areaHalfway : ZoomArea := { ZoomArea.init 0 with currentZoom := 1 / 2 }

/-- One output with the area `areaHalfway`, grabbed. -/
def screenHalfway : ZoomScreen :=
  { screenFresh with zooms := [areaHalfway], grabbed := 1, pollActive := true }

/-- One area of the loop of `panZoom`. -/
def ZoomArea.pan (panFactor : ℚ) (xvalue yvalue : ℤ) (za : ZoomArea) : ZoomArea :=
  { za with
    xTranslate := za.xTranslate + panFactor * (xvalue : ℚ) * za.currentZoom
    yTranslate := za.yTranslate + panFactor * (yvalue : ℚ) * za.currentZoom }

/-- Source function `ZoomScreen::panZoom`. -/
def panZoom (h : Host) (s : ZoomScreen) (xvalue yvalue : ℤ) : ZoomScreen :=
  constrainZoomTranslate
    { s with zooms := s.zooms.map (ZoomArea.pan h.panFactor xvalue yvalue) }

/-- First `if`/`else if` of `ensureVisibility`; `FACTOR` is
`newZoom / (1 - newZoom)`. -/
def ZoomArea.nudgeX (o : CompOutput) (zoomX margin : ℤ) (za : ZoomArea) : ZoomArea :=
  if zoomX + margin > o.x2 then
    { za with xTranslate := za.xTranslate +
        (za.newZoom / (1 - za.newZoom) * ((zoomX + margin - o.x2 : ℤ) : ℚ)) /
          (o.width : ℚ) }
  else if zoomX - margin < o.x1 then
    { za with xTranslate := za.xTranslate +
        (za.newZoom / (1 - za.newZoom) * ((zoomX - margin - o.x1 : ℤ) : ℚ)) /
          (o.width : ℚ) }
  else za

/-- Second `if`/`else if` of `ensureVisibility`. -/
def ZoomArea.nudgeY (o : CompOutput) (zoomY margin : ℤ) (za : ZoomArea) : ZoomArea :=
  if zoomY + margin > o.y2 then
    { za with yTranslate := za.yTranslate +
        (za.newZoom / (1 - za.newZoom) * ((zoomY + margin - o.y2 : ℤ) : ℚ)) /
          (o.height : ℚ) }
  else if zoomY - margin < o.y1 then
    { za with yTranslate := za.yTranslate +
        (za.newZoom / (1 - za.newZoom) * ((zoomY - margin - o.y1 : ℤ) : ℚ)) /
          (o.height : ℚ) }
  else za

/-- Source function `ZoomScreen::ensureVisibility`; the result pairs the
returned flag with the state. -/
def ensureVisibility (h : Host) (s : ZoomScreen) (x y margin : ℤ) :
    Option (Bool × ZoomScreen) :=
  let out := h.outputDeviceForPoint x y
  if !isActive s out then some (false, s)
  else
    match h.outputDevs[out]?, convertToZoomedTarget h s out x y, s.zooms[out]? with
    | some o, some (zoomX, zoomY), some za =>
      if za.locked then some (false, s)
      else
        some (true, constrainZoomTranslate
          (s.setArea out ((za.nudgeX o zoomX margin).nudgeY o zoomY margin)))
    | _, _, _ => none

/-- Source function `ZoomScreen::lockZoomAction`. -/
def lockZoomAction (h : Host) (s : ZoomScreen) : Option (Bool × ZoomScreen) :=
  let out := h.outputDeviceForPoint h.pointerX h.pointerY
  match s.zooms[out]? with
  | none => none
  | some za => some (true, s.setArea out { za with locked := !za.locked })

/-- Source function `ZoomScreen::terminate`; the result pairs the returned
flag with the state. -/
def terminate (h : Host) (s : ZoomScreen) : Option (Bool × ZoomScreen) :=
  let out := h.outputDeviceForPoint h.pointerX h.pointerY
  if s.grabbed ≠ 0 then
    match s.zooms[out]? with
    | none => none
    | some za => some (false, s.setArea out { za with newZoom := 1 })
  else some (false, s)

/-- The zoom state set up by the constructor `ZoomScreen::ZoomScreen`: one area
per output until the loop breaks at `i > sizeof (long int) * 8`. -/
def ZoomScreen.construct (h : Host) : ZoomScreen :=
  { zooms := ((List.range h.outputDevs.length).takeWhile
      (fun i => !decide (i > 64))).map ZoomArea.init
    grabbed := 0
    mouseX := 0
    mouseY := 0
    pollActive := false
    warps := [] }

/-- The operations that change the zoom state. -/
inductive Op where
  | setCenter (x y : ℤ) (instant : Bool)
  | setZoomArea (x y width height : ℤ) (instant : Bool)
  | panZoom (xvalue yvalue : ℤ)
  | setScale (out : ℕ) (value : ℚ)
  | ensureVisibility (x y margin : ℤ)
  | lockZoomAction
  | terminate
  | preparePaint (msSinceLastPaint : ℤ)

/-- The state after one operation. -/
def Op.apply (h : Host) (s : ZoomScreen) : Op → Option ZoomScreen
  | .setCenter x y instant => Ezoom.setCenter h s x y instant
  | .setZoomArea x y width height instant => Ezoom.setZoomArea h s x y width height instant
  | .panZoom xvalue yvalue => some (Ezoom.panZoom h s xvalue yvalue)
  | .setScale out value => Ezoom.setScale h s out value
  | .ensureVisibility x y margin => (Ezoom.ensureVisibility h s x y margin).map Prod.snd
  | .lockZoomAction => (Ezoom.lockZoomAction h s).map Prod.snd
  | .terminate => (Ezoom.terminate h s).map Prod.snd
  | .preparePaint ms => Ezoom.preparePaint h s ms

/-- The state after a sequence of operations. -/
def runOps (h : Host) : List Op → ZoomScreen → Option ZoomScreen
  | [], s => some s
  | op :: rest, s =>
    match op.apply h s with
    | none => none
    | some s' => runOps h rest s'

/-- The integration of the zoom axis as the specification words it: `d`,
`amount = clamp (|d|, 1, 5)`, the new velocity, then the snap test. -/
def specIntegrateZoom (r chunk : ℚ) (za : ZoomArea) : ZoomArea :=
  let d : ℚ := (za.newZoom - za.currentZoom) * 75
  let amount : ℚ := clampQ |d| 1 5
  let v : ℚ := (amount * za.zVelocity + 2 / 1000 * d) / (amount + 1)
  if |d| < 1 / 10 ∧ |v| < 5 / 1000 then
    { za with currentZoom := za.newZoom, zVelocity := 0 }
  else
    { za with currentZoom := za.currentZoom + v * chunk / r, zVelocity := v }

/-- The velocity update of one translation axis as the specification words it:
the velocity is divided by `1.25`, then updated from `diff`. -/
def specAxisVelocity (v diff : ℚ) : ℚ :=
  (clampQ |diff| 1 5 * (v / (5 / 4)) + 2 / 1000 * diff) / (clampQ |diff| 1 5 + 1)

/-- The integration of the translation axes as the specification words it. -/
def specIntegrateXY (r chunk : ℚ) (za : ZoomArea) : ZoomArea :=
  let xdiff : ℚ := (za.xTranslate - za.realXTranslate) * 75
  let ydiff : ℚ := (za.yTranslate - za.realYTranslate) * 75
  let xv : ℚ := specAxisVelocity za.xVelocity xdiff
  let yv : ℚ := specAxisVelocity za.yVelocity ydiff
  if (|xdiff| < 1 / 10 ∧ |xv| < 5 / 1000) ∧ (|ydiff| < 1 / 10 ∧ |yv| < 5 / 1000) then
    { za with
      realXTranslate := za.xTranslate
      realYTranslate := za.yTranslate
      xVelocity := 0
      yVelocity := 0 }
  else
    { za with
      realXTranslate := za.realXTranslate + xv * chunk / r
      realYTranslate := za.realYTranslate + yv * chunk / r
      xVelocity := xv
      yVelocity := yv }

/-- The specification's `integrate (chunk)` for one area: zoom axis, translation
axes, then `xtrans`/`ytrans` recomputed. -/
def specIntegrate (r chunk : ℚ) (za : ZoomArea) : ZoomArea :=
  ZoomArea.updateActualTranslates (specIntegrateXY r chunk (specIntegrateZoom r chunk za))

/-- The area after the three calls `adjustXYVelocity`, `adjustZoomVelocity`,
`updateActualTranslates` of one sub-step of `preparePaint`. -/
def ZoomArea.integrate (r chunk : ℚ) (za : ZoomArea) : ZoomArea :=
  ZoomArea.updateActualTranslates
    ((za.adjustXYVelocity r chunk).adjustZoomVelocity r chunk)

/-- The area of the resolved output after `setCenter` went past its guard. -/
def setCenterArea (o : CompOutput) (za : ZoomArea) (x y : ℤ) (instant : Bool) :
    ZoomArea :=
  let za1 : ZoomArea := { za with
    xTranslate := (((x - o.x1) - Int.tdiv o.width 2 : ℤ) : ℚ) / (o.width : ℚ)
    yTranslate := (((y - o.y1) - Int.tdiv o.height 2 : ℤ) : ℚ) / (o.height : ℚ) }
  if instant then
    ZoomArea.updateActualTranslates
      { za1 with
        realXTranslate := za1.xTranslate
        realYTranslate := za1.yTranslate
        yVelocity := 0
        xVelocity := 0 }
  else za1

/-- A locked area resting at zoom `0.5`. -/
def areaLockedHalf : ZoomArea :=
  { ZoomArea.init 0 with newZoom := 1 / 2, currentZoom := 1 / 2, locked := true }

/-- One output with the area `areaLockedHalf`, grabbed. -/
def screenLockedHalf : ZoomScreen :=
  { screenFresh with zooms := [areaLockedHalf], grabbed := 1 }

/-- The engine after a zoom to `0.5` is taken back to `1` before any frame is
painted: the area rests unzoomed, the bit of its output is still set. -/
def screenStale : ZoomScreen :=
  { zooms := [ZoomArea.init 0], grabbed := 1, mouseX := 0, mouseY := 0,
    pollActive := true, warps := [] }

/-- The output id and the target zoom of every area, in order. -/
def zoomKeys (s : ZoomScreen) : List (ℕ × ℚ) :=
  s.zooms.map (fun a => (a.output, a.newZoom))

/-- What painting may do to the bookkeeping of the engine: output ids, target
zooms and the stored mouse position stay; bits of the mask are only cleared,
and the bit `j` is kept when every area whose `outputMask` holds the bit `j`
has `newZoom ≠ 1`. -/
def PaintRel (s s' : ZoomScreen) : Prop :=
  zoomKeys s' = zoomKeys s ∧ s'.mouseX = s.mouseX ∧ s'.mouseY = s.mouseY ∧
  (∀ j : ℕ, s'.grabbed.testBit j = true → s.grabbed.testBit j = true) ∧
  (∀ j : ℕ, s.grabbed.testBit j = true →
    (∀ p ∈ zoomKeys s, (outputMask p.1).testBit j = true → p.2 ≠ 1) →
    s'.grabbed.testBit j = true)

/-! ## Sub-stepping of `preparePaint`: the specification's count -/

/-- The step count as the specification words it:
`max (1, round (msSinceLastFrame * 0.05 * speed / (0.5 * timestep)))`. -/
def specStepsCount (h : Host) (msSinceLastFrame : ℤ) : ℤ :=
  max 1 (round ((msSinceLastFrame : ℚ) * (5 / 100) * h.speed / (1 / 2 * h.timestep)))

/-- A host whose speed is 2 and whose timestep is 2. -/
def hostSlow : Host := { host1080 with speed := 2, timestep := 2 }

/-! ## `ensureVisibilityArea` -/

/-- Gravities of `ensureVisibilityArea` (`ZoomGravity`), as named by the cases
of its `switch`. -/
inductive ZoomGravity where
  | NORTHWEST
  | NORTHEAST
  | SOUTHWEST
  | SOUTHEAST
  | CENTER

/-- The macro `WIDTHOK` of `ensureVisibilityArea`. -/
def widthOK (o : CompOutput) (za : ZoomArea) (x1 x2 : ℤ) : Bool :=
  decide (((x2 - x1 : ℤ) : ℚ) / (o.width : ℚ) < za.newZoom)

/-- The macro `HEIGHTOK` of `ensureVisibilityArea`. -/
def heightOK (o : CompOutput) (za : ZoomArea) (y1 y2 : ℤ) : Bool :=
  decide (((y2 - y1 : ℤ) : ℚ) / (o.height : ℚ) < za.newZoom)

/-- The `switch (gravity)` of `ensureVisibilityArea`: the values
`(targetX, targetY, targetW, targetH)` with which `setZoomArea` is called;
`none` for `CENTER`, which returns before that call. -/
def areaTarget (o : CompOutput) (za : ZoomArea) (x1 y1 x2 y2 : ℤ) :
    ZoomGravity → Option (ℤ × ℤ × ℤ × ℤ)
  | .NORTHWEST =>
    let targetX : ℤ := x1
    let targetY : ℤ := y1
    let targetW : ℤ :=
      if widthOK o za x1 x2 then x2 - x1 else truncQ ((o.width : ℚ) * za.newZoom)
    let targetH : ℤ :=
      if heightOK o za y1 y2 then y2 - y1 else truncQ ((o.height : ℚ) * za.newZoom)
    some (targetX, targetY, targetW, targetH)
  | .NORTHEAST =>
    let targetY : ℤ := y1
    let targetX : ℤ :=
      if widthOK o za x1 x2 then x1 else truncQ ((x2 : ℚ) - (o.width : ℚ) * za.newZoom)
    let targetW : ℤ :=
      if widthOK o za x1 x2 then x2 - x1 else truncQ ((o.width : ℚ) * za.newZoom)
    let targetH : ℤ :=
      if heightOK o za y1 y2 then y2 - y1 else truncQ ((o.height : ℚ) * za.newZoom)
    some (targetX, targetY, targetW, targetH)
  | .SOUTHWEST =>
    let targetX : ℤ := x1
    let targetW : ℤ :=
      if widthOK o za x1 x2 then x2 - x1 else truncQ ((o.width : ℚ) * za.newZoom)
    let targetY : ℤ :=
      if heightOK o za y1 y2 then y1 else truncQ ((y2 : ℚ) - (o.width : ℚ) * za.newZoom)
    let targetH : ℤ :=
      if heightOK o za y1 y2 then y2 - y1 else truncQ ((o.width : ℚ) * za.newZoom)
    some (targetX, targetY, targetW, targetH)
  | .SOUTHEAST =>
    let targetW : ℤ :=
      if widthOK o za x1 x2 then x2 - x1 else truncQ ((o.width : ℚ) * za.newZoom)
    let targetX : ℤ := if widthOK o za x1 x2 then x1 else x2 - targetW
    let targetH : ℤ :=
      if heightOK o za y1 y2 then y2 - y1 else truncQ ((o.height : ℚ) * za.newZoom)
    let targetY : ℤ := if heightOK o za y1 y2 then y1 else y2 - targetH
    some (targetX, targetY, targetW, targetH)
  | .CENTER => none

/-- Source function `ZoomScreen::ensureVisibilityArea`. In the source text
`x1 + (x2-x1/2)` the division binds first. -/
def ensureVisibilityArea (h : Host) (s : ZoomScreen) (x1 y1 x2 y2 margin : ℤ)
    (gravity : ZoomGravity) : Option ZoomScreen :=
  let out := h.outputDeviceForPoint (x1 + (x2 - Int.tdiv x1 2)) (y1 + (y2 - Int.tdiv y1 2))
  match h.outputDevs[out]?, s.zooms[out]? with
  | some o, some za =>
    if widthOK o za x1 x2 && heightOK o za y1 y2 then
      match ensureVisibility h s x1 y1 margin with
      | none => none
      | some (_, s1) => (ensureVisibility h s1 x2 y2 margin).map Prod.snd
    else
      match areaTarget o za x1 y1 x2 y2 gravity with
      | some (targetX, targetY, targetW, targetH) =>
        setZoomArea h s targetX targetY targetW targetH false
      | none =>
        setCenter h s (x1 + (x2 - Int.tdiv x1 2)) (y1 + (y2 - Int.tdiv y1 2)) false
  | _, _ => none

/-- The divisor `1.0f - za->newZoom` of the macro `FACTOR` where
`ensureVisibility` expands it: `some (some d)` when one of the four branches
that use `FACTOR` is taken, `some none` when the function returns without
using it. -/
def ensureVisibilityDivisor (h : Host) (s : ZoomScreen) (x y margin : ℤ) :
    Option (Option ℚ) :=
  let out := h.outputDeviceForPoint x y
  if !isActive s out then some none
  else
    match h.outputDevs[out]?, convertToZoomedTarget h s out x y, s.zooms[out]? with
    | some o, some (zoomX, zoomY), some za =>
      if za.locked then some none
      else if zoomX + margin > o.x2 ∨ zoomX - margin < o.x1 ∨
          zoomY + margin > o.y2 ∨ zoomY - margin < o.y1 then
        some (some (1 - za.newZoom))
      else some none
    | _, _, _ => none

/-- The x part of the target transform without its conversions to `int`:
`((x - x1) - t * (1 - newZoom) * W - W div 2) / newZoom + W div 2 + x1` with
`t` the target translation of the area. -/
def ZoomArea.targetX (o : CompOutput) (za : ZoomArea) (x : ℤ) : ℚ :=
  (((x - o.x1 : ℤ) : ℚ) - za.xTranslate * (1 - za.newZoom) * (o.width : ℚ) -
    ((Int.tdiv o.width 2 : ℤ) : ℚ)) / za.newZoom +
    ((Int.tdiv o.width 2 : ℤ) : ℚ) + (o.x1 : ℚ)

/-- The y part of the target transform without its conversions to `int`. -/
def ZoomArea.targetY (o : CompOutput) (za : ZoomArea) (y : ℤ) : ℚ :=
  (((y - o.y1 : ℤ) : ℚ) - za.yTranslate * (1 - za.newZoom) * (o.height : ℚ) -
    ((Int.tdiv o.height 2 : ℤ) : ℚ)) / za.newZoom +
    ((Int.tdiv o.height 2 : ℤ) : ℚ) + (o.y1 : ℚ)

/-- The pointer position computed by `syncCenterToMouse` for the output `o` and
the area `za`. -/
def syncPoint (h : Host) (o : CompOutput) (za : ZoomArea) : ℤ × ℤ :=
  (truncQ ((za.realXTranslate * (h.screenWidth : ℚ)) +
      ((Int.tdiv o.width 2 : ℤ) : ℚ) + (o.x1 : ℚ)),
   truncQ ((za.realYTranslate * (h.screenHeight : ℚ)) +
      ((Int.tdiv o.height 2 : ℤ) : ℚ) + (o.y1 : ℚ)))

/-- The second of two 1920x1080 outputs placed side by side. -/
def output1080b : CompOutput := { x1 := 1920, y1 := 0, width := 1920, height := 1080 }

/-- A screen of 3840x1080 made of two 1920x1080 outputs side by side. -/
def hostDual : Host :=
  { host1080 with
    outputDevs := [output1080, output1080b]
    outputDeviceForPoint := fun x _ => if x < 1920 then 0 else 1
    screenWidth := 3840 }

/-- The engine of `hostDual` after `setScale (0, 0.5)`: output 0 zooms to 0.5. -/
def screenDualHalf : ZoomScreen :=
  { zooms := [areaHalf, ZoomArea.init 1], grabbed := 1, mouseX := 0, mouseY := 0,
    pollActive := true, warps := [] }

/-- An area in the middle of an animation: real values and targets differ. -/
def areaMoving : ZoomArea :=
  { ZoomArea.init 0 with
    currentZoom := 3 / 4, newZoom := 1 / 2, zVelocity := -(1 / 100),
    xTranslate := 1 / 4, yTranslate := -(1 / 4),
    realXTranslate := 1 / 7, realYTranslate := -(1 / 5),
    xVelocity := 1 / 50, yVelocity := -(1 / 50) }

/-- One output with the area `areaMoving`, grabbed. -/
def screenMoving : ZoomScreen :=
  { screenFresh with zooms := [areaMoving], grabbed := 1, pollActive := true }

/-- An area resting at zoom `0.5` away from the centre of its output. -/
def areaRestPanned : ZoomArea :=
  { ZoomArea.init 0 with
    currentZoom := 1 / 2, newZoom := 1 / 2,
    xTranslate := 1 / 4, yTranslate := -(1 / 8),
    realXTranslate := 1 / 4, realYTranslate := -(1 / 8) }

/-- One output with the area `areaRestPanned`, grabbed. -/
def screenRestPanned : ZoomScreen :=
  { screenFresh with zooms := [areaRestPanned], grabbed := 1, pollActive := true }

/-- A host with 32 outputs. -/
def host32 : Host := { host1080 with outputDevs := List.replicate 32 output1080 }

/-- A host with 33 outputs. -/
def host33 : Host := { host1080 with outputDevs := List.replicate 33 output1080 }

/-- The areas of an engine of 33 outputs in which only the areas of the outputs
0 and 32 may have left their initial state. -/
def zooms33 (a0 a32 : ZoomArea) : List ZoomArea :=
  a0 :: ((List.range' 1 31).map ZoomArea.init ++ [a32])

/-- An engine of 33 outputs with mouse polling on. -/
def screen33 (a0 a32 : ZoomArea) (grabbed : ℕ) : ZoomScreen :=
  { zooms := zooms33 a0 a32, grabbed := grabbed, mouseX := 0, mouseY := 0,
    pollActive := true, warps := [] }

/-- The area of output 0 after `setScale (0, 0.999)`. -/
def areaNear : ZoomArea := { ZoomArea.init 0 with newZoom := 999 / 1000 }

/-- The area of output 0 resting at zoom `0.999`. -/
def areaNearRest : ZoomArea :=
  { ZoomArea.init 0 with newZoom := 999 / 1000, currentZoom := 999 / 1000 }

/-- The area of output 0 at zoom `0.999` on its way back to `1`. -/
def areaLeaving : ZoomArea := { ZoomArea.init 0 with currentZoom := 999 / 1000 }

/-- The area of output 32 after `setScale (32, 0.5)`. -/
def areaFar : ZoomArea := { ZoomArea.init 32 with newZoom := 1 / 2 }

/-- A host with 65 outputs. -/
def hostWide : Host := { host1080 with outputDevs := List.replicate 65 output1080 }

/-- An area is grabbed when zoomed, on an engine of at most 31 areas: every
area carries its index, below 31, as output id, and an area that fails the test
of `isZoomed` to be at rest has its bit set. -/
def GrabInv (s : ZoomScreen) : Prop :=
  ∀ (i : ℕ) (za : ZoomArea), s.zooms[i]? = some za →
    za.output = i ∧ i < 31 ∧
    (za.currentZoom ≠ 1 ∨ za.newZoom ≠ 1 ∨ za.zVelocity ≠ 0 →
      s.grabbed.testBit i = true)

/-- The area `za'` has the output id and the zoom values of `za`. -/
def AreaKeep (za za' : ZoomArea) : Prop :=
  za'.output = za.output ∧ za'.currentZoom = za.currentZoom ∧
  za'.newZoom = za.newZoom ∧ za'.zVelocity = za.zVelocity

end Ezoom

/-! ## The single-output implementation (`src/zoom.c`) -/

namespace Zoom

/-- The zoom fields of `ZoomScreen` in `zoom.c` (one zoom area per screen). -/
structure ZoomScreen where
  currentZoom : ℚ
  newZoom : ℚ
  xVelocity : ℚ
  yVelocity : ℚ
  zVelocity : ℚ
  xTranslate : ℚ
  yTranslate : ℚ
  realXTranslate : ℚ
  realYTranslate : ℚ
  xtrans : ℚ
  ytrans : ℚ
  ztrans : ℚ
  moving : Bool
  mouseX : ℤ
  mouseY : ℤ
  grabbed : Bool
  maxTranslate : ℚ
  zoomOutput : ℤ

/-- First `if`/`else if` of `constrainZoomTranslate`: `xTranslate` to `±0.5`. -/
def ZoomScreen.halfX (zs : ZoomScreen) : ZoomScreen :=
  if zs.xTranslate > 1 / 2 then { zs with xTranslate := 1 / 2 }
  else if zs.xTranslate < -(1 / 2) then { zs with xTranslate := -(1 / 2) }
  else zs

/-- Second `if`/`else if` of `constrainZoomTranslate`: `yTranslate` to `±0.5`. -/
def ZoomScreen.halfY (zs : ZoomScreen) : ZoomScreen :=
  if zs.yTranslate > 1 / 2 then { zs with yTranslate := 1 / 2 }
  else if zs.yTranslate < -(1 / 2) then { zs with yTranslate := -(1 / 2) }
  else zs

/-- Third `if`/`else if` of `constrainZoomTranslate`: `xTranslate` to
`±maxTranslate`. -/
def ZoomScreen.maxX (zs : ZoomScreen) : ZoomScreen :=
  if zs.xTranslate < -zs.maxTranslate then { zs with xTranslate := -zs.maxTranslate }
  else if zs.xTranslate > zs.maxTranslate then { zs with xTranslate := zs.maxTranslate }
  else zs

/-- Fourth `if`/`else if` of `constrainZoomTranslate`: `yTranslate` to
`±maxTranslate`. -/
def ZoomScreen.maxY (zs : ZoomScreen) : ZoomScreen :=
  if zs.yTranslate < -zs.maxTranslate then { zs with yTranslate := -zs.maxTranslate }
  else if zs.yTranslate > zs.maxTranslate then { zs with yTranslate := zs.maxTranslate }
  else zs

/-- Source function `constrainZoomTranslate` of `zoom.c`. -/
def constrainZoomTranslate (zs : ZoomScreen) : ZoomScreen :=
  zs.halfX.halfY.maxX.maxY

/-- A state of `zoom.c` whose target translation is out of range on both axes,
with the `maxTranslate` that `zoomInitScreen` sets. -/
def screenPanned : ZoomScreen :=
  { currentZoom := 1 / 2, newZoom := 1 / 2, xVelocity := 0, yVelocity := 0,
    zVelocity := 0, xTranslate := 3, yTranslate := -2, realXTranslate := 0,
    realYTranslate := 0, xtrans := 0, ytrans := 0, ztrans := 0, moving := true,
    mouseX := -1, mouseY := -1, grabbed := true, maxTranslate := 85 / 100,
    zoomOutput := 0 }

end Zoom

namespace Ezoom


/-! ## Lemmas on lists and truncation -/

theorem getElem?_lt {α : Type} {l : List α} {i : ℕ} {a : α} (h : l[i]? = some a) :
    i < l.length := by
  rcases List.getElem?_eq_some_iff.1 h with ⟨hlt, -⟩
  exact hlt

theorem getElem?_set_self_of {α : Type} {l : List α} {i : ℕ} {a b : α}
    (h : l[i]? = some a) : (l.set i b)[i]? = some b := by
  simp only [List.getElem?_set, getElem?_lt h, if_true]

theorem getElem?_set_other {α : Type} {l : List α} {i j : ℕ} {b : α}
    (h : i ≠ j) : (l.set i b)[j]? = l[j]? := by
  simp only [List.getElem?_set, h, if_false]

theorem truncQ_intCast (z : ℤ) : truncQ (z : ℚ) = z := by
  unfold truncQ
  split_ifs
  · exact Int.floor_intCast z
  · exact Int.ceil_intCast z

theorem truncQ_zero : truncQ 0 = 0 := by
  have := truncQ_intCast 0
  simpa using this

/-- Evaluation of `truncQ` at a rational that is an integer. -/
theorem truncQ_eq_int {q : ℚ} (z : ℤ) (h : q = (z : ℚ)) : truncQ q = z := by
  rw [h, truncQ_intCast]

/-- Truncation moves a value by less than one. -/
theorem truncQ_abs_sub_lt (q : ℚ) : |q - (truncQ q : ℚ)| < 1 := by
  unfold truncQ
  split_ifs
  · have h1 := Int.floor_le q
    have h2 := Int.lt_floor_add_one q
    rw [abs_lt]
    constructor <;> linarith
  · have h1 := Int.le_ceil q
    have h2 := Int.ceil_lt_add_one q
    rw [abs_lt]
    constructor <;> linarith

/-- Value of `truncQ` on a non-negative rational lying in `[z, z + 1)`. -/
theorem truncQ_eq_of_nonneg {q : ℚ} {z : ℤ} (h0 : 0 ≤ q) (h1 : (z : ℚ) ≤ q)
    (h2 : q < (z : ℚ) + 1) : truncQ q = z := by
  unfold truncQ
  rw [if_pos h0]
  exact Int.floor_eq_iff.2 ⟨h1, h2⟩

/-- Value of `truncQ` on a negative rational lying in `(z - 1, z]`. -/
theorem truncQ_eq_of_neg {q : ℚ} {z : ℤ} (h0 : q < 0) (h1 : (z : ℚ) - 1 < q)
    (h2 : q ≤ (z : ℚ)) : truncQ q = z := by
  unfold truncQ
  rw [if_neg (not_le.2 h0)]
  exact Int.ceil_eq_iff.2 ⟨h1, h2⟩

/-! ## Lemmas on the mask of an output -/

theorem outputMask_low (k : ℕ) (hk : k < 31) : outputMask k = 2 ^ k := by
  unfold outputMask
  have h1 : k % 32 = k := Nat.mod_eq_of_lt (by omega)
  rw [h1, if_neg (by omega)]

theorem testBit_outputMask_low (k j : ℕ) (hk : k < 31) :
    (outputMask k).testBit j = decide (k = j) := by
  rw [outputMask_low k hk, Nat.testBit_two_pow]

theorem outputMask_ne_zero (k : ℕ) : outputMask k ≠ 0 := by
  unfold outputMask
  split_ifs
  · norm_num
  · exact pow_ne_zero _ (by norm_num)

/-- The statement `mask &= ~(1 << bit)` clears the bits of `outputMask bit` and
no other. -/
theorem testBit_clearBit_mask (g k j : ℕ) :
    (clearBit g k).testBit j = (g.testBit j && !(outputMask k).testBit j) := by
  simp only [clearBit, Nat.testBit_xor, Nat.testBit_and]
  cases g.testBit j <;> cases (outputMask k).testBit j <;> rfl

theorem testBit_clearBit (g k j : ℕ) (hk : k < 31) :
    (clearBit g k).testBit j = (g.testBit j && !decide (j = k)) := by
  rw [testBit_clearBit_mask, testBit_outputMask_low k j hk]
  by_cases hjk : j = k
  · subst hjk
    simp
  · have hkj : ¬ k = j := fun e => hjk e.symm
    simp [hjk, hkj]

theorem and_mask_eq_zero_iff (g k : ℕ) (hk : k < 31) :
    g &&& outputMask k = 0 ↔ g.testBit k = false := by
  rw [outputMask_low k hk]
  constructor
  · intro h0
    have := congrArg (fun n => Nat.testBit n k) h0
    simpa [Nat.testBit_and, Nat.testBit_two_pow] using this
  · intro hb
    apply Nat.eq_of_testBit_eq
    intro j
    simp only [Nat.testBit_and, Nat.testBit_two_pow, Nat.zero_testBit]
    by_cases hkj : k = j
    · subst hkj
      simp [hb]
    · simp [hkj]

/-! ## Lemmas on single-precision rounding -/

theorem roundEven_abs_sub_le (q : ℚ) : |(roundEven q : ℚ) - q| ≤ 1 / 2 := by
  have h1 := Int.floor_le q
  have h2 := Int.lt_floor_add_one q
  unfold roundEven
  simp only []
  split_ifs with a b c
  · rw [abs_le]
    constructor <;> linarith
  · rw [abs_le]
    push_cast
    constructor <;> linarith
  · rw [abs_le]
    constructor <;> linarith
  · rw [abs_le]
    push_cast
    constructor <;> linarith

theorem roundEven_eq (q : ℚ) (n : ℤ) (h : |q - (n : ℚ)| < 1 / 2) : roundEven q = n := by
  rw [abs_lt] at h
  have e := roundEven_abs_sub_le q
  rw [abs_le] at e
  have h1 : ((roundEven q - n : ℤ) : ℚ) < 1 := by push_cast; linarith
  have h2 : (-1 : ℚ) < ((roundEven q - n : ℤ) : ℚ) := by push_cast; linarith
  have h1' : roundEven q - n < 1 := by exact_mod_cast h1
  have h2' : -1 < roundEven q - n := by exact_mod_cast h2
  omega

theorem roundEven_nonneg (q : ℚ) (hq : 0 ≤ q) : 0 ≤ roundEven q := by
  have hf : 0 ≤ ⌊q⌋ := Int.floor_nonneg.2 hq
  unfold roundEven
  simp only []
  split_ifs <;> omega

theorem f32_zero : f32 0 = 0 := by
  unfold f32
  rw [if_pos rfl]

theorem f32_nonneg (q : ℚ) (hq : 0 ≤ q) : 0 ≤ f32 q := by
  unfold f32
  split_ifs with h0
  · exact le_refl _
  · simp only []
    have hu : (0 : ℚ) < (2 : ℚ) ^ (max (Int.log 2 |q|) (-126) - 23) := by positivity
    have hr : (0 : ℚ) ≤ (roundEven (q / (2 : ℚ) ^ (max (Int.log 2 |q|) (-126) - 23)) : ℚ) := by
      exact_mod_cast roundEven_nonneg _ (div_nonneg hq (le_of_lt hu))
    exact mul_nonneg hr (le_of_lt hu)

/-- Evaluation of `f32` at a positive number in the binade `[2^e, 2^(e+1))`. -/
theorem f32_eval (q : ℚ) (e n : ℤ) (he1 : (2 : ℚ) ^ e ≤ q) (he2 : q < (2 : ℚ) ^ (e + 1))
    (hE : -126 ≤ e) (hn : |q / (2 : ℚ) ^ (e - 23) - (n : ℚ)| < 1 / 2) :
    f32 q = (n : ℚ) * (2 : ℚ) ^ (e - 23) := by
  have hpos : (0 : ℚ) < q := lt_of_lt_of_le (by positivity) he1
  have habs : |q| = q := abs_of_pos hpos
  have hlog : Int.log 2 q = e := by
    apply le_antisymm
    · have := (Int.lt_zpow_iff_log_lt (R := ℚ) (b := 2) (by norm_num) hpos).1
        (by exact_mod_cast he2)
      omega
    · exact (Int.zpow_le_iff_le_log (R := ℚ) (b := 2) (by norm_num) hpos).1
        (by exact_mod_cast he1)
  unfold f32
  rw [if_neg (ne_of_gt hpos)]
  simp only [habs, hlog, max_eq_left hE]
  rw [roundEven_eq _ n hn]

/-- A number whose quotient by the unit of its binade is an integer is a
`float`. -/
theorem f32_exact (q : ℚ) (e n : ℤ) (he1 : (2 : ℚ) ^ e ≤ q) (he2 : q < (2 : ℚ) ^ (e + 1))
    (hE : -126 ≤ e) (hn : q = (n : ℚ) * (2 : ℚ) ^ (e - 23)) : f32 q = q := by
  have hu : (2 : ℚ) ^ (e - 23) ≠ 0 := by positivity
  rw [f32_eval q e n he1 he2 hE (by rw [hn, mul_div_assoc, div_self hu]; norm_num), hn]

/-- The rounding error of `f32`: half a unit in the last place, which is at most
`2^-24` of the number in the normal range and `2^-150` below it. -/
theorem f32_error (q : ℚ) : |f32 q - q| ≤ (2 : ℚ) ^ (-24 : ℤ) * |q| + (2 : ℚ) ^ (-150 : ℤ) := by
  unfold f32
  split_ifs with h0
  · rw [h0]
    norm_num
  · simp only []
    have hpos : (0 : ℚ) < |q| := abs_pos.2 h0
    generalize he : max (Int.log 2 |q|) (-126) = e
    have hu : (0 : ℚ) < (2 : ℚ) ^ (e - 23) := by positivity
    have hr := roundEven_abs_sub_le (q / (2 : ℚ) ^ (e - 23))
    have key : |(roundEven (q / (2 : ℚ) ^ (e - 23)) : ℚ) * (2 : ℚ) ^ (e - 23) - q| ≤
        1 / 2 * (2 : ℚ) ^ (e - 23) := by
      have : (roundEven (q / (2 : ℚ) ^ (e - 23)) : ℚ) * (2 : ℚ) ^ (e - 23) - q =
          ((roundEven (q / (2 : ℚ) ^ (e - 23)) : ℚ) - q / (2 : ℚ) ^ (e - 23)) *
            (2 : ℚ) ^ (e - 23) := by
        field_simp
      rw [this, abs_mul, abs_of_pos hu]
      exact mul_le_mul_of_nonneg_right hr (le_of_lt hu)
    have hhalf : 1 / 2 * (2 : ℚ) ^ (e - 23) = (2 : ℚ) ^ (e - 24) := by
      have : e - 23 = (e - 24) + 1 := by ring
      rw [this, zpow_add₀ (by norm_num : (2 : ℚ) ≠ 0), zpow_one]
      ring
    rw [hhalf] at key
    refine le_trans key ?_
    rcases le_total (Int.log 2 |q|) (-126) with hc | hc
    · have : e = -126 := by rw [← he, max_eq_right hc]
      rw [this]
      have h1 : (0 : ℚ) ≤ (2 : ℚ) ^ (-24 : ℤ) * |q| := by positivity
      have h2 : (2 : ℚ) ^ ((-126 : ℤ) - 24) = (2 : ℚ) ^ (-150 : ℤ) := by norm_num
      linarith
    · have : e = Int.log 2 |q| := by rw [← he, max_eq_left hc]
      have hl := Int.zpow_log_le_self (R := ℚ) (b := 2) (by norm_num) hpos
      have h3 : (2 : ℚ) ^ (e - 24) = (2 : ℚ) ^ (-24 : ℤ) * (2 : ℚ) ^ e := by
        rw [← zpow_add₀ (by norm_num : (2 : ℚ) ≠ 0)]
        congr 1
        ring
      rw [h3, this]
      have h4 : (2 : ℚ) ^ (-24 : ℤ) * (2 : ℚ) ^ Int.log 2 |q| ≤ (2 : ℚ) ^ (-24 : ℤ) * |q| :=
        mul_le_mul_of_nonneg_left (by exact_mod_cast hl) (by positivity)
      have h5 : (0 : ℚ) ≤ (2 : ℚ) ^ (-150 : ℤ) := by positivity
      linarith

theorem roundEven_intCast (n : ℤ) : roundEven (n : ℚ) = n :=
  roundEven_eq _ n (by norm_num)

/-- An integer below `2^24` in absolute value is a `float`. -/
theorem f32_intCast (n : ℤ) (h1 : 1 ≤ n) (h2 : n < 2 ^ 24) : f32 (n : ℚ) = (n : ℚ) := by
  have hpos : (0 : ℚ) < (n : ℚ) := by exact_mod_cast (by omega : 0 < n)
  have habs : |(n : ℚ)| = (n : ℚ) := abs_of_pos hpos
  have hlo : 0 ≤ Int.log 2 (n : ℚ) :=
    (Int.zpow_le_iff_le_log (R := ℚ) (b := 2) (by norm_num) hpos).1
      (by simpa using (by exact_mod_cast h1 : (1 : ℚ) ≤ (n : ℚ)))
  have hhi : Int.log 2 (n : ℚ) < 24 :=
    (Int.lt_zpow_iff_log_lt (R := ℚ) (b := 2) (by norm_num) hpos).1
      (by
        have : (n : ℚ) < (2 : ℚ) ^ (24 : ℕ) := by exact_mod_cast h2
        have e : ((2 : ℕ) : ℚ) ^ (24 : ℤ) = (2 : ℚ) ^ (24 : ℕ) := by norm_num
        rw [e]
        exact this)
  unfold f32
  rw [if_neg (ne_of_gt hpos)]
  simp only [habs, max_eq_left (by omega : (-126 : ℤ) ≤ Int.log 2 (n : ℚ))]
  generalize Int.log 2 (n : ℚ) = e at hlo hhi
  obtain ⟨k, hk⟩ : ∃ k : ℕ, e = 23 - (k : ℤ) := ⟨(23 - e).toNat, by omega⟩
  have hu : (2 : ℚ) ^ (e - 23) = ((2 : ℚ) ^ k)⁻¹ := by
    rw [hk]
    have : (23 : ℤ) - (k : ℤ) - 23 = -(k : ℤ) := by ring
    rw [this, zpow_neg, zpow_natCast]
  have hq : (n : ℚ) / (2 : ℚ) ^ (e - 23) = ((n * 2 ^ k : ℤ) : ℚ) := by
    rw [hu]
    push_cast
    field_simp
  rw [hq, roundEven_intCast, hu]
  push_cast
  field_simp

theorem outputMask_zero : outputMask 0 = 1 := rfl

theorem outputMask_32 : outputMask 32 = 1 := rfl

/-! ## `setScale` -/

/-- The result of `setScale` on an unlocked area, written out. -/
theorem setScale_unlocked (h : Host) (s : ZoomScreen) (out : ℕ) (value : ℚ)
    (za : ZoomArea) (hza : s.zooms[out]? = some za) (hl : za.locked = false) :
    setScale h s out value = some (setScaleResult h s out value za) := by
  by_cases hv : 1 ≤ value
  · simp [setScale, setScaleResult, setScaleArea, hza, hl, hv, ZoomScreen.setArea]
  · have hne : ¬ value = 1 := fun h1 => hv (le_of_eq h1.symm)
    cases hp : s.pollActive <;>
      simp [setScale, setScaleResult, setScaleArea, hza, hl, hv, hne, hp,
        ZoomScreen.setArea, enableMousePolling]

/-! ## The coordinate transforms and `restrainCursor` -/

theorem convertToZoomedTarget_isSome (h : Host) (s : ZoomScreen) (out : ℕ)
    (o : CompOutput) (za : ZoomArea) (ho : h.outputDevs[out]? = some o)
    (hza : s.zooms[out]? = some za) (x y : ℤ) :
    ∃ p : ℤ × ℤ, convertToZoomedTarget h s out x y = some p := by
  simp only [convertToZoomedTarget, ho, hza]
  exact ⟨_, rfl⟩

theorem distanceToEdge_isSome (h : Host) (s : ZoomScreen) (out : ℕ)
    (o : CompOutput) (za : ZoomArea) (ho : h.outputDevs[out]? = some o)
    (hza : s.zooms[out]? = some za) (edge : ZoomEdge) :
    ∃ d : ℤ, distanceToEdge h s out edge = some d := by
  obtain ⟨⟨a2, b2⟩, h2⟩ := convertToZoomedTarget_isSome h s out o za ho hza o.x2 o.y2
  obtain ⟨⟨a1, b1⟩, h1⟩ := convertToZoomedTarget_isSome h s out o za ho hza o.x1 o.y1
  simp only [distanceToEdge, ho, h1, h2]
  split_ifs
  · exact ⟨_, rfl⟩
  · cases edge <;> exact ⟨_, rfl⟩

/-- `restrainCursor` returns, and touches neither the areas nor the mask. -/
theorem restrainCursor_frame (h : Host) (s : ZoomScreen) (out : ℕ)
    (o : CompOutput) (za : ZoomArea) (ho : h.outputDevs[out]? = some o)
    (hza : s.zooms[out]? = some za) :
    ∃ s', restrainCursor h s out = some s' ∧ s'.zooms = s.zooms ∧
      s'.grabbed = s.grabbed := by
  obtain ⟨n, hn⟩ := distanceToEdge_isSome h s out o za ho hza .NORTH
  obtain ⟨so, hso⟩ := distanceToEdge_isSome h s out o za ho hza .SOUTH
  obtain ⟨e, he⟩ := distanceToEdge_isSome h s out o za ho hza .EAST
  obtain ⟨w, hw⟩ := distanceToEdge_isSome h s out o za ho hza .WEST
  simp only [restrainCursor, ho, hza, hn, hso, he, hw]
  by_cases hc : za.currentZoom = 1
  · simp only [hc, if_true, convertToZoomedTarget, ho, hza]
    split_ifs <;> exact ⟨_, rfl, rfl, rfl⟩
  · simp only [hc, if_false, convertToZoomedTarget, ho, hza]
    split_ifs <;> exact ⟨_, rfl, rfl, rfl⟩
theorem setZoomArea_unlocked (h : Host) (s : ZoomScreen) (x y width height : ℤ)
    (instant : Bool) (o : CompOutput) (za : ZoomArea)
    (ho : h.outputDevs[h.outputDeviceForGeometry x y width height]? = some o)
    (hza : s.zooms[h.outputDeviceForGeometry x y width height]? = some za)
    (hnz : za.newZoom ≠ 1) (hl : za.locked = false) :
    ∃ s', setZoomArea h s x y width height instant = some s' ∧
      s'.zooms[h.outputDeviceForGeometry x y width height]? =
        some (setZoomAreaArea o za x y width height instant) ∧
      s'.grabbed = s.grabbed ∧
      ∀ j, j ≠ h.outputDeviceForGeometry x y width height →
        s'.zooms[j]? = (s.zooms[j]?).map constrainArea := by
  generalize hout : h.outputDeviceForGeometry x y width height = out at ho hza ⊢
  have hlen : out < s.zooms.length := getElem?_lt hza
  have hlook : (constrainZoomTranslate
      (s.setArea out (za.assignAreaTarget o x y width height))).zooms[out]? =
      some (constrainArea (za.assignAreaTarget o x y width height)) := by
    simp only [constrainZoomTranslate, ZoomScreen.setArea, List.getElem?_map,
      getElem?_set_self_of hza, Option.map_some']
  have hother : ∀ j, j ≠ out → (constrainZoomTranslate
      (s.setArea out (za.assignAreaTarget o x y width height))).zooms[j]? =
      (s.zooms[j]?).map constrainArea := by
    intro j hj
    simp only [constrainZoomTranslate, ZoomScreen.setArea, List.getElem?_map,
      getElem?_set_other (Ne.symm hj)]
  have hl' : ¬ za.locked = true := by simp [hl]
  simp only [setZoomArea, hout, ho, hza, hnz, hl', if_false, hlook]
  cases instant
  · simp only [Bool.false_eq_true, if_false, setZoomAreaArea]
    by_cases hp : h.mousePan = true
    · obtain ⟨s', hs', hz, hg⟩ := restrainCursor_frame h _ out o _ ho hlook
      simp only [hp, if_true]
      exact ⟨s', hs', by rw [hz]; exact hlook, by rw [hg]; rfl,
        fun j hj => by rw [hz]; exact hother j hj⟩
    · simp only [hp, if_false]
      exact ⟨_, rfl, hlook, rfl, hother⟩
  · have hlook2 : ((constrainZoomTranslate
        (s.setArea out (za.assignAreaTarget o x y width height))).setArea out
        (constrainArea (za.assignAreaTarget o x y width height)).snapTranslates).zooms[out]? =
        some (constrainArea (za.assignAreaTarget o x y width height)).snapTranslates := by
      simp only [ZoomScreen.setArea]
      exact getElem?_set_self_of hlook
    have hother2 : ∀ j, j ≠ out → ((constrainZoomTranslate
        (s.setArea out (za.assignAreaTarget o x y width height))).setArea out
        (constrainArea (za.assignAreaTarget o x y width height)).snapTranslates).zooms[j]? =
        (s.zooms[j]?).map constrainArea := by
      intro j hj
      have := hother j hj
      simp only [ZoomScreen.setArea] at this ⊢
      rw [getElem?_set_other (Ne.symm hj)]
      exact this
    simp only [if_true, setZoomAreaArea]
    by_cases hp : h.mousePan = true
    · obtain ⟨s', hs', hz, hg⟩ := restrainCursor_frame h _ out o _ ho hlook2
      simp only [hp, if_true]
      exact ⟨s', hs', by rw [hz]; exact hlook2, by rw [hg]; rfl,
        fun j hj => by rw [hz]; exact hother2 j hj⟩
    · simp only [hp, if_false]
      exact ⟨_, rfl, hlook2, rfl, hother2⟩

theorem clampQ_half_of_mem {v : ℚ} (h1 : -(1 / 2) ≤ v) (h2 : v ≤ 1 / 2) :
    clampQ v (-(1 / 2)) (1 / 2) = v := by
  unfold clampQ
  rw [max_eq_left h1, min_eq_left h2]

theorem constrainX_xTranslate (za : ZoomArea) :
    za.constrainX.xTranslate = clampQ za.xTranslate (-(1 / 2)) (1 / 2) := by
  unfold ZoomArea.constrainX clampQ
  by_cases h1 : za.xTranslate > 1 / 2
  · have h3 : (-(1 / 2) : ℚ) ≤ za.xTranslate := by linarith
    rw [max_eq_left h3, min_eq_right (le_of_lt h1)]
    simp only [h1, if_true]
  · by_cases h2 : za.xTranslate < -(1 / 2)
    · rw [max_eq_right (le_of_lt h2), min_eq_left (by norm_num)]
      simp only [h1, h2, if_true, if_false]
    · rw [max_eq_left (not_lt.1 h2), min_eq_left (not_lt.1 h1)]
      simp only [h1, h2, if_false]

theorem constrainY_yTranslate (za : ZoomArea) :
    za.constrainY.yTranslate = clampQ za.yTranslate (-(1 / 2)) (1 / 2) := by
  unfold ZoomArea.constrainY clampQ
  by_cases h1 : za.yTranslate > 1 / 2
  · have h3 : (-(1 / 2) : ℚ) ≤ za.yTranslate := by linarith
    rw [max_eq_left h3, min_eq_right (le_of_lt h1)]
    simp only [h1, if_true]
  · by_cases h2 : za.yTranslate < -(1 / 2)
    · rw [max_eq_right (le_of_lt h2), min_eq_left (by norm_num)]
      simp only [h1, h2, if_true, if_false]
    · rw [max_eq_left (not_lt.1 h2), min_eq_left (not_lt.1 h1)]
      simp only [h1, h2, if_false]

/-- `constrainX` changes nothing but `xTranslate`. -/
theorem constrainX_other (za : ZoomArea) :
    za.constrainX.yTranslate = za.yTranslate ∧
    za.constrainX.newZoom = za.newZoom ∧
    za.constrainX.currentZoom = za.currentZoom ∧
    za.constrainX.realXTranslate = za.realXTranslate ∧
    za.constrainX.realYTranslate = za.realYTranslate ∧
    za.constrainX.locked = za.locked ∧
    za.constrainX.output = za.output := by
  unfold ZoomArea.constrainX
  split_ifs <;> exact ⟨rfl, rfl, rfl, rfl, rfl, rfl, rfl⟩

/-- `constrainY` changes nothing but `yTranslate`. -/
theorem constrainY_other (za : ZoomArea) :
    za.constrainY.xTranslate = za.xTranslate ∧
    za.constrainY.newZoom = za.newZoom ∧
    za.constrainY.currentZoom = za.currentZoom ∧
    za.constrainY.realXTranslate = za.realXTranslate ∧
    za.constrainY.realYTranslate = za.realYTranslate ∧
    za.constrainY.locked = za.locked ∧
    za.constrainY.output = za.output := by
  unfold ZoomArea.constrainY
  split_ifs <;> exact ⟨rfl, rfl, rfl, rfl, rfl, rfl, rfl⟩

theorem constrainArea_xTranslate (za : ZoomArea) :
    (constrainArea za).xTranslate = clampQ za.xTranslate (-(1 / 2)) (1 / 2) := by
  unfold constrainArea
  rw [(constrainY_other za.constrainX).1, constrainX_xTranslate]

theorem constrainArea_yTranslate (za : ZoomArea) :
    (constrainArea za).yTranslate = clampQ za.yTranslate (-(1 / 2)) (1 / 2) := by
  unfold constrainArea
  rw [constrainY_yTranslate, (constrainX_other za).1]

/-- `constrainArea` changes nothing but the two target translations. -/
theorem constrainArea_other (za : ZoomArea) :
    (constrainArea za).newZoom = za.newZoom ∧
    (constrainArea za).currentZoom = za.currentZoom ∧
    (constrainArea za).realXTranslate = za.realXTranslate ∧
    (constrainArea za).realYTranslate = za.realYTranslate ∧
    (constrainArea za).locked = za.locked ∧
    (constrainArea za).output = za.output := by
  unfold constrainArea
  obtain ⟨-, a1, a2, a3, a4, a5, a6⟩ := constrainX_other za
  obtain ⟨-, b1, b2, b3, b4, b5, b6⟩ := constrainY_other za.constrainX
  exact ⟨b1.trans a1, b2.trans a2, b3.trans a3, b4.trans a4, b5.trans a5, b6.trans a6⟩

theorem setZoomAreaArea_newZoom (o : CompOutput) (za : ZoomArea)
    (x y width height : ℤ) (instant : Bool) :
    (setZoomAreaArea o za x y width height instant).newZoom = za.newZoom := by
  have h := (constrainArea_other (za.assignAreaTarget o x y width height)).1
  cases instant
  · exact h
  · exact h

theorem setZoomAreaArea_currentZoom (o : CompOutput) (za : ZoomArea)
    (x y width height : ℤ) (instant : Bool) :
    (setZoomAreaArea o za x y width height instant).currentZoom = za.currentZoom := by
  have h := (constrainArea_other (za.assignAreaTarget o x y width height)).2.1
  cases instant
  · exact h
  · exact h

theorem setZoomAreaArea_xTranslate (o : CompOutput) (za : ZoomArea)
    (x y width height : ℤ) (instant : Bool) :
    (setZoomAreaArea o za x y width height instant).xTranslate =
      clampQ (za.assignAreaTarget o x y width height).xTranslate (-(1 / 2)) (1 / 2) := by
  have h := constrainArea_xTranslate (za.assignAreaTarget o x y width height)
  cases instant
  · exact h
  · exact h

theorem setZoomAreaArea_yTranslate (o : CompOutput) (za : ZoomArea)
    (x y width height : ℤ) (instant : Bool) :
    (setZoomAreaArea o za x y width height instant).yTranslate =
      clampQ (za.assignAreaTarget o x y width height).yTranslate (-(1 / 2)) (1 / 2) := by
  have h := constrainArea_yTranslate (za.assignAreaTarget o x y width height)
  cases instant
  · exact h
  · exact h

theorem setZoomAreaArea_real (o : CompOutput) (za : ZoomArea)
    (x y width height : ℤ) :
    (setZoomAreaArea o za x y width height true).realXTranslate =
      (setZoomAreaArea o za x y width height true).xTranslate ∧
    (setZoomAreaArea o za x y width height true).realYTranslate =
      (setZoomAreaArea o za x y width height true).yTranslate :=
  ⟨rfl, rfl⟩

theorem tdiv_two_of_even {n : ℤ} (hn : Even n) : ((Int.tdiv n 2 : ℤ) : ℚ) = (n : ℚ) / 2 := by
  obtain ⟨k, hk⟩ := hn
  have h2 : Int.tdiv n 2 = k := by
    rw [hk, ← two_mul, mul_comm]
    exact Int.mul_tdiv_cancel k (by norm_num)
  rw [h2, hk]
  push_cast
  ring

theorem assignAreaTarget_xTranslate (o : CompOutput) (za : ZoomArea)
    (x y width height : ℤ) :
    (za.assignAreaTarget o x y width height).xTranslate =
      ((-(Int.tdiv o.width 2 - (x + Int.tdiv width 2 - o.x1)) : ℤ) : ℚ)
        / (o.width : ℚ) / (1 - za.newZoom) := rfl

theorem assignAreaTarget_yTranslate (o : CompOutput) (za : ZoomArea)
    (x y width height : ℤ) :
    (za.assignAreaTarget o x y width height).yTranslate =
      ((-(Int.tdiv o.height 2 - (y + Int.tdiv height 2 - o.y1)) : ℤ) : ℚ)
        / (o.height : ℚ) / (1 - za.newZoom) := rfl

theorem assignAreaTarget_xTranslate_even (o : CompOutput) (za : ZoomArea)
    (x y width height : ℤ) (hW : Even o.width) (hw : Even width) :
    (za.assignAreaTarget o x y width height).xTranslate =
      areaXTranslate o za x width := by
  rw [assignAreaTarget_xTranslate, areaXTranslate]
  push_cast
  rw [tdiv_two_of_even hW, tdiv_two_of_even hw]

theorem assignAreaTarget_yTranslate_even (o : CompOutput) (za : ZoomArea)
    (x y width height : ℤ) (hH : Even o.height) (hh : Even height) :
    (za.assignAreaTarget o x y width height).yTranslate =
      areaYTranslate o za y height := by
  rw [assignAreaTarget_yTranslate, areaYTranslate]
  push_cast
  rw [tdiv_two_of_even hH, tdiv_two_of_even hh]

/-- The target transform agrees with the real transform as soon as the real
values of the area equal its targets. -/
theorem convertToZoomedTarget_eq_of_real_eq (h : Host) (s : ZoomScreen) (out : ℕ)
    (za : ZoomArea) (x y : ℤ) (hza : s.zooms[out]? = some za)
    (hz : za.currentZoom = za.newZoom) (hx : za.realXTranslate = za.xTranslate)
    (hy : za.realYTranslate = za.yTranslate) :
    convertToZoomedTarget h s out x y = convertToZoomed h s out x y := by
  cases ho : h.outputDevs[out]? with
  | none => simp only [convertToZoomedTarget, convertToZoomed, ho]
  | some o => simp only [convertToZoomedTarget, convertToZoomed, ho, hza, hz, hx, hy]

/-- One axis of the target transform at the centre that `setZoomArea` aims at:
the first conversion yields `0`, so the result is the centre of the output. -/
theorem target_axis_centre (p x1 W W2 : ℤ) (nz t : ℚ) (hW : 0 < W) (hnz : nz < 1)
    (ht : t = ((-(W2 - (p - x1)) : ℤ) : ℚ) / (W : ℚ) / (1 - nz)) :
    truncQ ((truncQ (((p - x1 : ℤ) : ℚ) - t * (1 - nz) * (W : ℚ) - (W2 : ℚ)) : ℚ) / nz)
      + W2 + x1 = x1 + W2 := by
  have hW' : (W : ℚ) ≠ 0 := by
    have : (0 : ℚ) < (W : ℚ) := by exact_mod_cast hW
    exact ne_of_gt this
  have hn' : (1 - nz) ≠ 0 := by
    have : 0 < 1 - nz := by linarith
    exact ne_of_gt this
  have h0 : ((p - x1 : ℤ) : ℚ) - t * (1 - nz) * (W : ℚ) - (W2 : ℚ) = 0 := by
    rw [ht]
    field_simp
    ring
  rw [h0, truncQ_zero]
  simp only [Int.cast_zero, zero_div, truncQ_zero]
  ring

/-- One axis of the round trip: the inverse recovers the coordinate up to the
two truncations, which together move it by less than `1 + currentZoom`. -/
theorem roundtrip_axis (X x1 W2 : ℤ) (T cz : ℚ) (hc0 : 0 < cz) (hc1 : cz ≤ 1) :
    |((((truncQ ((truncQ ((X : ℚ) - T - (W2 : ℚ)) : ℚ) / cz) + W2 + x1 : ℤ) : ℚ)
        - (W2 : ℚ) - (x1 : ℚ)) * cz + T + (W2 : ℚ) + (x1 : ℚ)) - ((X : ℚ) + (x1 : ℚ))| < 2 := by
  have h1 := truncQ_abs_sub_lt ((X : ℚ) - T - (W2 : ℚ))
  have h2 := truncQ_abs_sub_lt ((truncQ ((X : ℚ) - T - (W2 : ℚ)) : ℚ) / cz)
  set r1 : ℤ := truncQ ((X : ℚ) - T - (W2 : ℚ)) with hr1
  set r2 : ℤ := truncQ ((r1 : ℚ) / cz) with hr2
  have hcz : cz ≠ 0 := ne_of_gt hc0
  rw [abs_lt] at h1 h2 ⊢
  have e : (r1 : ℚ) / cz * cz = r1 := by field_simp
  have a1 : ((r1 : ℚ) / cz - r2) * cz < 1 := by nlinarith [h2.1, h2.2]
  have a2 : -1 < ((r1 : ℚ) / cz - r2) * cz := by nlinarith [h2.1, h2.2]
  push_cast
  constructor <;> nlinarith [h1.1, h1.2]

/-! ## The properties -/

/-- C1 (lock invariance). If the area of the resolved output is locked, then
`setCenter`, `setZoomArea` and `setScale` return with the whole engine state
unchanged: every field of every area, the grabbed mask, the stored mouse
position and the list of pointer warps. -/
theorem lock_invariance (h : Host) (s : ZoomScreen) :
    (∀ (x y : ℤ) (instant : Bool) (o : CompOutput) (za : ZoomArea),
        h.outputDevs[h.outputDeviceForPoint x y]? = some o →
        s.zooms[h.outputDeviceForPoint x y]? = some za → za.locked = true →
        setCenter h s x y instant = some s) ∧
    (∀ (x y width height : ℤ) (instant : Bool) (o : CompOutput) (za : ZoomArea),
        h.outputDevs[h.outputDeviceForGeometry x y width height]? = some o →
        s.zooms[h.outputDeviceForGeometry x y width height]? = some za →
        za.locked = true →
        setZoomArea h s x y width height instant = some s) ∧
    (∀ (out : ℕ) (value : ℚ) (za : ZoomArea),
        s.zooms[out]? = some za → za.locked = true →
        setScale h s out value = some s) := by
  refine ⟨?_, ?_, ?_⟩
  · intro x y instant o za ho hza hl
    simp [setCenter, ho, hza, hl]
  · intro x y width height instant o za ho hza hl
    simp [setZoomArea, ho, hza, hl]
  · intro out value za hza hl
    simp [setScale, hza, hl]

/-- Witness of C1: the three operations on a locked single-output engine. -/
theorem lock_invariance_witness :
    setCenter host1080 screenLocked 300 200 true = some screenLocked ∧
    setZoomArea host1080 screenLocked 100 100 200 200 true = some screenLocked ∧
    setScale host1080 screenLocked 0 (1 / 2) = some screenLocked :=
  ⟨(lock_invariance host1080 screenLocked).1 300 200 true output1080
      { ZoomArea.init 0 with locked := true } rfl rfl rfl,
   (lock_invariance host1080 screenLocked).2.1 100 100 200 200 true output1080
      { ZoomArea.init 0 with locked := true } rfl rfl rfl,
   (lock_invariance host1080 screenLocked).2.2 0 (1 / 2)
      { ZoomArea.init 0 with locked := true } rfl rfl⟩

/-- C2. On an unlocked area, with `minimumZoom ≤ 1`, `setScale (out, value)`
returns and sets `newZoom = min (max value minimumZoom) 1` for every `value`; it
resets both target translations to `0` when `value ≥ 1` and leaves them as they
were when `value < 1`. -/
theorem setScale_clamps (h : Host) (s : ZoomScreen) (out : ℕ) (value : ℚ)
    (za : ZoomArea) (hza : s.zooms[out]? = some za) (hl : za.locked = false)
    (hmin1 : h.minimumZoom ≤ 1) :
    ∃ s' za', setScale h s out value = some s' ∧ s'.zooms[out]? = some za' ∧
      za'.newZoom = min (max value h.minimumZoom) 1 ∧
      (1 ≤ value → za'.xTranslate = 0 ∧ za'.yTranslate = 0) ∧
      (value < 1 → za'.xTranslate = za.xTranslate ∧
        za'.yTranslate = za.yTranslate) := by
  refine ⟨setScaleResult h s out value za, setScaleArea h value za,
    setScale_unlocked h s out value za hza hl, getElem?_set_self_of hza, ?_, ?_, ?_⟩
  · by_cases hv : 1 ≤ value
    · have hnot : ¬ (1 : ℚ) < h.minimumZoom := not_lt.2 hmin1
      simp only [setScaleArea, hv, hnot, if_true, if_false]
      rw [max_eq_left (le_trans hmin1 hv), min_eq_right hv]
    · have hv' : value < 1 := not_le.1 hv
      simp only [setScaleArea, hv, if_false]
      by_cases hm : value < h.minimumZoom
      · simp only [hm, if_true]
        rw [max_eq_right (le_of_lt hm), min_eq_left hmin1]
      · simp only [hm, if_false]
        rw [max_eq_left (not_lt.1 hm), min_eq_left (le_of_lt hv')]
  · intro hv
    simp only [setScaleArea, hv, if_true, and_self]
  · intro hv
    have : ¬ 1 ≤ value := not_le.2 hv
    simp only [setScaleArea, this, if_false, and_self]

/-- Witness of C2: `setScale (0, 1/2)` on the fresh engine. -/
theorem setScale_clamps_witness :
    ∃ s' za', setScale host1080 screenFresh 0 (1 / 2) = some s' ∧
      s'.zooms[0]? = some za' ∧
      za'.newZoom = min (max (1 / 2) host1080.minimumZoom) 1 ∧
      ((1 : ℚ) ≤ 1 / 2 → za'.xTranslate = 0 ∧ za'.yTranslate = 0) ∧
      ((1 / 2 : ℚ) < 1 → za'.xTranslate = (ZoomArea.init 0).xTranslate ∧
        za'.yTranslate = (ZoomArea.init 0).yTranslate) :=
  setScale_clamps host1080 screenFresh 0 (1 / 2) (ZoomArea.init 0) rfl rfl
    (by norm_num [host1080])

/-- For an area whose output id is below 31: `setScale (out, value)` with
`value < 1` sets the bit of the area's output in the grabbed mask and leaves
every other bit as it was; with `value ≥ 1` it leaves the mask unchanged. For
every output id the number of areas is unchanged and `currentZoom`, the real
translations and the three velocities of every area keep their values. -/
theorem setScale_frame_low (h : Host) (s : ZoomScreen) (out : ℕ) (value : ℚ)
    (za : ZoomArea) (hza : s.zooms[out]? = some za) (hl : za.locked = false) :
    ∃ s', setScale h s out value = some s' ∧
      (value < 1 → za.output < 31 → ∀ j : ℕ,
        s'.grabbed.testBit j = (decide (j = za.output) || s.grabbed.testBit j)) ∧
      (value < 1 → s'.grabbed = s.grabbed ||| outputMask za.output) ∧
      (1 ≤ value → s'.grabbed = s.grabbed) ∧
      s'.zooms.length = s.zooms.length ∧
      (∀ (i : ℕ) (a : ZoomArea), s.zooms[i]? = some a →
        ∃ a', s'.zooms[i]? = some a' ∧
          a'.currentZoom = a.currentZoom ∧
          a'.realXTranslate = a.realXTranslate ∧
          a'.realYTranslate = a.realYTranslate ∧
          a'.xVelocity = a.xVelocity ∧ a'.yVelocity = a.yVelocity ∧
          a'.zVelocity = a.zVelocity) := by
  refine ⟨setScaleResult h s out value za,
    setScale_unlocked h s out value za hza hl, ?_, ?_, ?_, ?_, ?_⟩
  · intro hv hk j
    have hnv : ¬ 1 ≤ value := not_le.2 hv
    simp only [setScaleResult, hnv, if_false, Nat.testBit_or,
      testBit_outputMask_low za.output j hk]
    rw [Bool.or_comm]
    congr 1
    simp only [eq_comm]
  · intro hv
    have hnv : ¬ 1 ≤ value := not_le.2 hv
    simp only [setScaleResult, hnv, if_false]
  · intro hv
    simp only [setScaleResult, hv, if_true]
  · simp only [setScaleResult, List.length_set]
  · intro i a hia
    by_cases hi : out = i
    · subst hi
      have : a = za := by
        rw [hza] at hia
        exact (Option.some.inj hia).symm
      subst this
      exact ⟨setScaleArea h value a, getElem?_set_self_of hza,
        rfl, rfl, rfl, rfl, rfl, rfl⟩
    · refine ⟨a, ?_, rfl, rfl, rfl, rfl, rfl, rfl⟩
      simp only [setScaleResult]
      rw [getElem?_set_other hi]
      exact hia

/-- C3 at its failing input. On the freshly constructed engine of 32 outputs the
area of output 31 is unlocked and the mask is 0. `setScale (31, 0.5)` executes
`grabbed |= (1 << 31)`: the shift is an `int` shift, its value is negative, and
in the `long` mask it sets the bits 31 to 63, not the bit 31 alone: the bits 32
to 63 were clear before and are set after. -/
theorem setScale_output31_sets_bits_31_to_63 :
    ∃ s : ZoomScreen,
      runOps host32 [Op.setScale 31 (1 / 2)] (ZoomScreen.construct host32) = some s ∧
      (ZoomScreen.construct host32).zooms[31]? = some (ZoomArea.init 31) ∧
      (ZoomArea.init 31).locked = false ∧ (ZoomArea.init 31).output = 31 ∧
      (ZoomScreen.construct host32).grabbed = 0 ∧
      s.grabbed = 2 ^ 64 - 2 ^ 31 ∧
      s.grabbed.testBit 31 = true ∧ s.grabbed.testBit 32 = true ∧
      s.grabbed.testBit 63 = true ∧
      (∀ j : ℕ, 31 ≤ j → j < 64 → s.grabbed.testBit j = true) := by
  have hz : (ZoomScreen.construct host32).zooms[31]? = some (ZoomArea.init 31) := rfl
  have hs := setScale_unlocked host32 (ZoomScreen.construct host32) 31 (1 / 2)
    (ZoomArea.init 31) hz rfl
  have hg : (setScaleResult host32 (ZoomScreen.construct host32) 31 (1 / 2)
      (ZoomArea.init 31)).grabbed = 2 ^ 64 - 2 ^ 31 := by
    simp only [setScaleResult]
    rw [if_neg (by norm_num)]
    rfl
  refine ⟨_, ?_, hz, rfl, rfl, rfl, hg, ?_, ?_, ?_, ?_⟩
  · simp only [runOps, Op.apply, hs]
  · rw [hg]; decide
  · rw [hg]; decide
  · rw [hg]; decide
  · intro j h1 h2
    rw [hg]
    interval_cases j <;> decide

/-- C5 (round trip of `convertToZoomed`). For `0 < currentZoom ≤ 1`,
`convertToZoomed` returns a point `(x', y')` from which the inverse transform
recovers the coordinate to within less than 2 on each axis; and with the
conversions to `int` left out the inverse recovers `(x, y)` exactly. -/
theorem convertToZoomed_roundtrip (h : Host) (s : ZoomScreen) (out : ℕ)
    (o : CompOutput) (za : ZoomArea) (x y : ℤ)
    (ho : h.outputDevs[out]? = some o) (hza : s.zooms[out]? = some za)
    (hc0 : 0 < za.currentZoom) (hc1 : za.currentZoom ≤ 1) :
    (∃ x' y' : ℤ, convertToZoomed h s out x y = some (x', y') ∧
      |inverseZoomedX o za (x' : ℚ) - (x : ℚ)| < 2 ∧
      |inverseZoomedY o za (y' : ℚ) - (y : ℚ)| < 2) ∧
    (∃ ex ey : ℚ, convertToZoomedExact h s out x y = some (ex, ey) ∧
      inverseZoomedX o za ex = (x : ℚ) ∧ inverseZoomedY o za ey = (y : ℚ)) := by
  have hcz : za.currentZoom ≠ 0 := ne_of_gt hc0
  constructor
  · simp only [convertToZoomed, ho, hza]
    refine ⟨_, _, rfl, ?_, ?_⟩
    · have := roundtrip_axis (x - o.x1) o.x1 (Int.tdiv o.width 2)
        (za.realXTranslate * (1 - za.currentZoom) * (o.width : ℚ)) za.currentZoom hc0 hc1
      simp only [inverseZoomedX]
      have e : ((x - o.x1 : ℤ) : ℚ) + (o.x1 : ℚ) = (x : ℚ) := by push_cast; ring
      rw [e] at this
      exact this
    · have := roundtrip_axis (y - o.y1) o.y1 (Int.tdiv o.height 2)
        (za.realYTranslate * (1 - za.currentZoom) * (o.height : ℚ)) za.currentZoom hc0 hc1
      simp only [inverseZoomedY]
      have e : ((y - o.y1 : ℤ) : ℚ) + (o.y1 : ℚ) = (y : ℚ) := by push_cast; ring
      rw [e] at this
      exact this
  · simp only [convertToZoomedExact, ho, hza]
    refine ⟨_, _, rfl, ?_, ?_⟩
    · simp only [inverseZoomedX]
      push_cast
      field_simp
      ring
    · simp only [inverseZoomedY]
      push_cast
      field_simp
      ring

/-- Witness of C5: the point `(200, 200)` on an engine in the middle of an
animation (`currentZoom = 3/4`, real translation `(1/7, -1/5)`), where both
conversions to `int` truncate. -/
theorem convertToZoomed_roundtrip_witness :
    (∃ x' y' : ℤ, convertToZoomed host1080 screenMoving 0 200 200 = some (x', y') ∧
      |inverseZoomedX output1080 areaMoving (x' : ℚ) - ((200 : ℤ) : ℚ)| < 2 ∧
      |inverseZoomedY output1080 areaMoving (y' : ℚ) - ((200 : ℤ) : ℚ)| < 2) ∧
    (∃ ex ey : ℚ, convertToZoomedExact host1080 screenMoving 0 200 200 = some (ex, ey) ∧
      inverseZoomedX output1080 areaMoving ex = ((200 : ℤ) : ℚ) ∧
      inverseZoomedY output1080 areaMoving ey = ((200 : ℤ) : ℚ)) :=
  convertToZoomed_roundtrip host1080 screenMoving 0 output1080 areaMoving
    200 200 rfl rfl (by norm_num [areaMoving])
    (by norm_num [areaMoving])

/-- On the engine in the middle of an animation the real transform maps
`(200, 200)` to `(-144, 159)`: the first conversion truncates `-828.57` on the x
axis, the second truncates `-381.33` on the y axis. -/
theorem convertToZoomed_moving :
    convertToZoomed host1080 screenMoving 0 200 200 = some (-144, 159) := by
  have ho : host1080.outputDevs[0]? = some output1080 := rfl
  have hz : screenMoving.zooms[0]? = some areaMoving := rfl
  have e1 : Int.tdiv output1080.width 2 = 960 := rfl
  have e2 : Int.tdiv output1080.height 2 = 540 := rfl
  have t1 : truncQ ((((200 : ℤ) - output1080.x1 : ℤ) : ℚ) -
      areaMoving.realXTranslate * (1 - areaMoving.currentZoom) * (output1080.width : ℚ) -
      ((960 : ℤ) : ℚ)) = -828 :=
    truncQ_eq_of_neg (by norm_num [areaMoving, output1080])
      (by norm_num [areaMoving, output1080]) (by norm_num [areaMoving, output1080])
  have t2 : truncQ (((-828 : ℤ) : ℚ) / areaMoving.currentZoom) = -1104 :=
    truncQ_eq_int (-1104) (by norm_num [areaMoving])
  have t3 : truncQ ((((200 : ℤ) - output1080.y1 : ℤ) : ℚ) -
      areaMoving.realYTranslate * (1 - areaMoving.currentZoom) * (output1080.height : ℚ) -
      ((540 : ℤ) : ℚ)) = -286 :=
    truncQ_eq_int (-286) (by norm_num [areaMoving, output1080])
  have t4 : truncQ (((-286 : ℤ) : ℚ) / areaMoving.currentZoom) = -381 :=
    truncQ_eq_of_neg (by norm_num [areaMoving])
      (by norm_num [areaMoving]) (by norm_num [areaMoving])
  simp only [convertToZoomed, ho, hz, e1, e2, t1, t2, t3, t4]
  rfl

/-- C6 (postcondition of `setZoomArea`). On an unlocked area and an output whose
width and height are even, with `width` and `height` even: when `newZoom = 1`
the call returns the state unchanged (it returns before the divisions by
`1 - newZoom`); otherwise it returns a state in which the area has
`xTranslate = clamp (-((W/2) - (x + w/2 - x1)) / W / (1 - newZoom), -0.5, 0.5)`
and the same for `yTranslate` with `H`, `y`, `h`, `y1`, and, if `instant`, the
real translations equal to the target translations. -/
theorem setZoomArea_postcondition (h : Host) (s : ZoomScreen)
    (x y width height : ℤ) (instant : Bool) (o : CompOutput) (za : ZoomArea)
    (ho : h.outputDevs[h.outputDeviceForGeometry x y width height]? = some o)
    (hza : s.zooms[h.outputDeviceForGeometry x y width height]? = some za)
    (hl : za.locked = false) (hW : Even o.width) (hH : Even o.height)
    (hw : Even width) (hh : Even height) :
    (za.newZoom = 1 → setZoomArea h s x y width height instant = some s) ∧
    (za.newZoom ≠ 1 → ∃ s' za',
      setZoomArea h s x y width height instant = some s' ∧
      s'.zooms[h.outputDeviceForGeometry x y width height]? = some za' ∧
      za'.xTranslate = clampQ (areaXTranslate o za x width) (-(1 / 2)) (1 / 2) ∧
      za'.yTranslate = clampQ (areaYTranslate o za y height) (-(1 / 2)) (1 / 2) ∧
      (instant = true → za'.realXTranslate = za'.xTranslate ∧
        za'.realYTranslate = za'.yTranslate)) := by
  constructor
  · intro h1
    simp only [setZoomArea, ho, hza, h1, if_true]
  · intro hnz
    obtain ⟨s', hs', hlook, -, -⟩ :=
      setZoomArea_unlocked h s x y width height instant o za ho hza hnz hl
    refine ⟨s', _, hs', hlook, ?_, ?_, ?_⟩
    · rw [setZoomAreaArea_xTranslate, assignAreaTarget_xTranslate_even o za x y width height hW hw]
    · rw [setZoomAreaArea_yTranslate, assignAreaTarget_yTranslate_even o za x y width height hH hh]
    · intro hi
      subst hi
      exact setZoomAreaArea_real o za x y width height

/-- Witness of C6: the scenario rectangle on a 1920x1080 output at zoom 0.5. -/
theorem setZoomArea_postcondition_witness :
    (areaHalf.newZoom = 1 →
      setZoomArea host1080 screenHalf 100 100 200 200 true = some screenHalf) ∧
    (areaHalf.newZoom ≠ 1 → ∃ s' za',
      setZoomArea host1080 screenHalf 100 100 200 200 true = some s' ∧
      s'.zooms[host1080.outputDeviceForGeometry 100 100 200 200]? = some za' ∧
      za'.xTranslate = clampQ (areaXTranslate output1080 areaHalf 100 200) (-(1 / 2)) (1 / 2) ∧
      za'.yTranslate = clampQ (areaYTranslate output1080 areaHalf 100 200) (-(1 / 2)) (1 / 2) ∧
      (true = true → za'.realXTranslate = za'.xTranslate ∧
        za'.realYTranslate = za'.yTranslate)) :=
  setZoomArea_postcondition host1080 screenHalf 100 100 200 200 true output1080
    areaHalf rfl rfl rfl ⟨960, rfl⟩ ⟨540, rfl⟩ ⟨100, rfl⟩ ⟨100, rfl⟩

/-- C7 (`setZoomArea` frames the requested rectangle). For an unlocked area with
`0 < newZoom < 1` on an output of positive width and height, if the translation
that `setZoomArea (x, y, w, h, instant)` computes lies within `[-0.5, 0.5]` on
both axes before clamping, then the call returns a state in which
`convertToZoomedTarget` maps the centre `(x + w div 2, y + h div 2)` of the
rectangle exactly to the centre `(x1 + W div 2, y1 + H div 2)` of the output. -/
theorem setZoomArea_frames_centre (h : Host) (s : ZoomScreen)
    (x y width height : ℤ) (instant : Bool) (o : CompOutput) (za : ZoomArea)
    (ho : h.outputDevs[h.outputDeviceForGeometry x y width height]? = some o)
    (hza : s.zooms[h.outputDeviceForGeometry x y width height]? = some za)
    (hl : za.locked = false) (_hz0 : 0 < za.newZoom) (hz1 : za.newZoom < 1)
    (hW : 0 < o.width) (hH : 0 < o.height)
    (hx1 : -(1 / 2) ≤ (za.assignAreaTarget o x y width height).xTranslate)
    (hx2 : (za.assignAreaTarget o x y width height).xTranslate ≤ 1 / 2)
    (hy1 : -(1 / 2) ≤ (za.assignAreaTarget o x y width height).yTranslate)
    (hy2 : (za.assignAreaTarget o x y width height).yTranslate ≤ 1 / 2) :
    ∃ s', setZoomArea h s x y width height instant = some s' ∧
      convertToZoomedTarget h s' (h.outputDeviceForGeometry x y width height)
        (x + Int.tdiv width 2) (y + Int.tdiv height 2) =
        some (o.x1 + Int.tdiv o.width 2, o.y1 + Int.tdiv o.height 2) := by
  obtain ⟨s', hs', hlook, -, -⟩ :=
    setZoomArea_unlocked h s x y width height instant o za ho hza (ne_of_lt hz1) hl
  refine ⟨s', hs', ?_⟩
  simp only [convertToZoomedTarget, ho, hlook]
  have hxt : (setZoomAreaArea o za x y width height instant).xTranslate =
      ((-(Int.tdiv o.width 2 - (x + Int.tdiv width 2 - o.x1)) : ℤ) : ℚ)
        / (o.width : ℚ) / (1 - za.newZoom) := by
    rw [setZoomAreaArea_xTranslate, clampQ_half_of_mem hx1 hx2,
      assignAreaTarget_xTranslate]
  have hyt : (setZoomAreaArea o za x y width height instant).yTranslate =
      ((-(Int.tdiv o.height 2 - (y + Int.tdiv height 2 - o.y1)) : ℤ) : ℚ)
        / (o.height : ℚ) / (1 - za.newZoom) := by
    rw [setZoomAreaArea_yTranslate, clampQ_half_of_mem hy1 hy2,
      assignAreaTarget_yTranslate]
  rw [setZoomAreaArea_newZoom]
  rw [target_axis_centre (x + Int.tdiv width 2) o.x1 o.width (Int.tdiv o.width 2)
      za.newZoom _ hW hz1 hxt,
    target_axis_centre (y + Int.tdiv height 2) o.y1 o.height (Int.tdiv o.height 2)
      za.newZoom _ hH hz1 hyt]

/-- Witness of C7: a rectangle around the centre of a 1920x1080 output. -/
theorem setZoomArea_frames_centre_witness :
    ∃ s', setZoomArea host1080 screenHalf 800 400 200 200 false = some s' ∧
      convertToZoomedTarget host1080 s'
        (host1080.outputDeviceForGeometry 800 400 200 200)
        (800 + Int.tdiv 200 2) (400 + Int.tdiv 200 2) =
        some (output1080.x1 + Int.tdiv output1080.width 2,
          output1080.y1 + Int.tdiv output1080.height 2) :=
  setZoomArea_frames_centre host1080 screenHalf 800 400 200 200 false output1080
    areaHalf rfl rfl rfl
    (by norm_num [areaHalf, ZoomArea.init, ZoomArea.updateActualTranslates])
    (by norm_num [areaHalf, ZoomArea.init, ZoomArea.updateActualTranslates])
    (by norm_num [output1080]) (by norm_num [output1080])
    (by
      rw [assignAreaTarget_xTranslate]
      have e1 : Int.tdiv output1080.width 2 = 960 := rfl
      have e2 : Int.tdiv 200 2 = 100 := rfl
      rw [e1, e2]
      norm_num [output1080, areaHalf, ZoomArea.init, ZoomArea.updateActualTranslates])
    (by
      rw [assignAreaTarget_xTranslate]
      have e1 : Int.tdiv output1080.width 2 = 960 := rfl
      have e2 : Int.tdiv 200 2 = 100 := rfl
      rw [e1, e2]
      norm_num [output1080, areaHalf, ZoomArea.init, ZoomArea.updateActualTranslates])
    (by
      rw [assignAreaTarget_yTranslate]
      have e1 : Int.tdiv output1080.height 2 = 540 := rfl
      have e2 : Int.tdiv 200 2 = 100 := rfl
      rw [e1, e2]
      norm_num [output1080, areaHalf, ZoomArea.init, ZoomArea.updateActualTranslates])
    (by
      rw [assignAreaTarget_yTranslate]
      have e1 : Int.tdiv output1080.height 2 = 540 := rfl
      have e2 : Int.tdiv 200 2 = 100 := rfl
      rw [e1, e2]
      norm_num [output1080, areaHalf, ZoomArea.init, ZoomArea.updateActualTranslates])

/-- C10 (`convertToZoomedTarget` is `convertToZoomed` reading the targets). For
every state, output and point, `convertToZoomedTarget` equals `convertToZoomed`
on the state whose real values are replaced by the target values; and the two
agree on the same state whenever the area has `currentZoom = newZoom`,
`realXTranslate = xTranslate` and `realYTranslate = yTranslate`. -/
theorem convertToZoomedTarget_refines (h : Host) (s : ZoomScreen) (out : ℕ)
    (x y : ℤ) :
    convertToZoomedTarget h s out x y =
      convertToZoomed h s.realFromTarget out x y ∧
    (∀ za : ZoomArea, s.zooms[out]? = some za →
      za.currentZoom = za.newZoom → za.realXTranslate = za.xTranslate →
      za.realYTranslate = za.yTranslate →
      convertToZoomedTarget h s out x y = convertToZoomed h s out x y) := by
  constructor
  · cases ho : h.outputDevs[out]? with
    | none => simp only [convertToZoomedTarget, convertToZoomed, ho]
    | some o =>
      cases hza : s.zooms[out]? with
      | none =>
        simp only [convertToZoomedTarget, convertToZoomed, ho, hza,
          ZoomScreen.realFromTarget, List.getElem?_map, Option.map_none']
      | some za =>
        simp only [convertToZoomedTarget, convertToZoomed, ho, hza,
          ZoomScreen.realFromTarget, List.getElem?_map, Option.map_some',
          ZoomArea.realFromTarget]
  · intro za hza hz hx hy
    exact convertToZoomedTarget_eq_of_real_eq h s out za x y hza hz hx hy

/-- Witness of C10: on an engine in the middle of an animation, whose real
values differ from its targets, the target transform is the real transform of
the state with the targets copied; on an engine resting at zoom 0.5 with the
translation `(1/4, -1/8)` the two transforms agree. -/
theorem convertToZoomedTarget_refines_witness :
    convertToZoomedTarget host1080 screenMoving 0 200 200 =
      convertToZoomed host1080 screenMoving.realFromTarget 0 200 200 ∧
    convertToZoomedTarget host1080 screenRestPanned 0 200 200 =
      convertToZoomed host1080 screenRestPanned 0 200 200 :=
  ⟨(convertToZoomedTarget_refines host1080 screenMoving 0 200 200).1,
   (convertToZoomedTarget_refines host1080 screenRestPanned 0 200 200).2
    areaRestPanned rfl rfl rfl rfl⟩

/-- The target translation of the scenario `setZoomArea (100, 100, 200, 200)`
at `newZoom = 0.5` on a 1920x1080 output at the origin: both axes are clamped
to `-0.5`. -/
theorem scenario_area (za : ZoomArea) (hnz : za.newZoom = 1 / 2) (instant : Bool) :
    (setZoomAreaArea output1080 za 100 100 200 200 instant).xTranslate = -(1 / 2) ∧
    (setZoomAreaArea output1080 za 100 100 200 200 instant).yTranslate = -(1 / 2) ∧
    (setZoomAreaArea output1080 za 100 100 200 200 instant).newZoom = 1 / 2 := by
  have e1 : Int.tdiv output1080.width 2 = 960 := rfl
  have e2 : Int.tdiv output1080.height 2 = 540 := rfl
  have e3 : Int.tdiv 200 2 = 100 := rfl
  refine ⟨?_, ?_, ?_⟩
  · rw [setZoomAreaArea_xTranslate, assignAreaTarget_xTranslate, e1, e3, hnz]
    norm_num [output1080, clampQ]
  · rw [setZoomAreaArea_yTranslate, assignAreaTarget_yTranslate, e2, e3, hnz]
    norm_num [output1080, clampQ]
  · rw [setZoomAreaArea_newZoom, hnz]

/-- Where the scenario of the specification lands: after
`setZoomArea (100, 100, 200, 200, instant)` at `newZoom = 0.5` on a 1920x1080
output at the origin, `convertToZoomedTarget` maps `(200, 200)` to `(400, 400)`
and `(100, 100)` to `(200, 200)`. -/
theorem scenario_points (h : Host) (s : ZoomScreen) (za : ZoomArea) (instant : Bool)
    (ho : h.outputDevs[h.outputDeviceForGeometry 100 100 200 200]? = some output1080)
    (hza : s.zooms[h.outputDeviceForGeometry 100 100 200 200]? = some za)
    (hnz : za.newZoom = 1 / 2) (hl : za.locked = false) :
    ∃ s', setZoomArea h s 100 100 200 200 instant = some s' ∧
      s'.zooms[h.outputDeviceForGeometry 100 100 200 200]? =
        some (setZoomAreaArea output1080 za 100 100 200 200 instant) ∧
      convertToZoomedTarget h s' (h.outputDeviceForGeometry 100 100 200 200) 200 200 =
        some (400, 400) ∧
      convertToZoomedTarget h s' (h.outputDeviceForGeometry 100 100 200 200) 100 100 =
        some (200, 200) := by
  have hne : za.newZoom ≠ 1 := by rw [hnz]; norm_num
  obtain ⟨s', hs', hlook, -, -⟩ :=
    setZoomArea_unlocked h s 100 100 200 200 instant output1080 za ho hza hne hl
  obtain ⟨hx, hy, hn⟩ := scenario_area za hnz instant
  have e1 : Int.tdiv output1080.width 2 = 960 := rfl
  have e2 : Int.tdiv output1080.height 2 = 540 := rfl
  refine ⟨s', hs', hlook, ?_, ?_⟩
  · simp only [convertToZoomedTarget, ho, hlook, hx, hy, hn, e1, e2]
    norm_num [output1080]
    have t1 : truncQ (-280 : ℚ) = -280 := truncQ_eq_int (-280) (by norm_num)
    have t2 : truncQ (((-280 : ℤ) : ℚ) / (1 / 2)) = -560 :=
      truncQ_eq_int (-560) (by norm_num)
    have t3 : truncQ (-70 : ℚ) = -70 := truncQ_eq_int (-70) (by norm_num)
    have t4 : truncQ (((-70 : ℤ) : ℚ) / (1 / 2)) = -140 :=
      truncQ_eq_int (-140) (by norm_num)
    rw [t1, t2, t3, t4]
    norm_num
  · simp only [convertToZoomedTarget, ho, hlook, hx, hy, hn, e1, e2]
    norm_num [output1080]
    have t1 : truncQ (-380 : ℚ) = -380 := truncQ_eq_int (-380) (by norm_num)
    have t2 : truncQ (((-380 : ℤ) : ℚ) / (1 / 2)) = -760 :=
      truncQ_eq_int (-760) (by norm_num)
    have t3 : truncQ (-170 : ℚ) = -170 := truncQ_eq_int (-170) (by norm_num)
    have t4 : truncQ (((-170 : ℤ) : ℚ) / (1 / 2)) = -340 :=
      truncQ_eq_int (-340) (by norm_num)
    rw [t1, t2, t3, t4]
    norm_num

/-- C8, as the code behaves. On a single 1920x1080 output at the origin and an
unlocked area with `newZoom = 0.5`, `setZoomArea (100, 100, 200, 200, true)`
returns a state in which `convertToZoomedTarget (out, 200, 200)` is
`(400, 400)`: both computed translations lie below `-0.5` and are clamped to
`-0.5`, so the view shows the top-left quadrant `[0, 960] x [0, 540]` and the
point lands 560 pixels left of and 140 pixels above the output centre. -/
theorem scenario_setZoomArea_clamped (h : Host) (s : ZoomScreen) (za : ZoomArea)
    (ho : h.outputDevs[h.outputDeviceForGeometry 100 100 200 200]? = some output1080)
    (hza : s.zooms[h.outputDeviceForGeometry 100 100 200 200]? = some za)
    (hnz : za.newZoom = 1 / 2) (hl : za.locked = false) :
    ∃ s' za', setZoomArea h s 100 100 200 200 true = some s' ∧
      s'.zooms[h.outputDeviceForGeometry 100 100 200 200]? = some za' ∧
      za'.xTranslate = -(1 / 2) ∧ za'.yTranslate = -(1 / 2) ∧
      convertToZoomedTarget h s' (h.outputDeviceForGeometry 100 100 200 200) 200 200 =
        some (400, 400) := by
  obtain ⟨s', hs', hlook, hp, -⟩ := scenario_points h s za true ho hza hnz hl
  obtain ⟨hx, hy, -⟩ := scenario_area za hnz true
  exact ⟨s', _, hs', hlook, hx, hy, hp⟩

/-- Witness of C8 (as the code behaves) on `host1080` and `screenHalf`. -/
theorem scenario_setZoomArea_clamped_witness :
    ∃ s' za', setZoomArea host1080 screenHalf 100 100 200 200 true = some s' ∧
      s'.zooms[host1080.outputDeviceForGeometry 100 100 200 200]? = some za' ∧
      za'.xTranslate = -(1 / 2) ∧ za'.yTranslate = -(1 / 2) ∧
      convertToZoomedTarget host1080 s'
        (host1080.outputDeviceForGeometry 100 100 200 200) 200 200 = some (400, 400) :=
  scenario_setZoomArea_clamped host1080 screenHalf areaHalf rfl rfl rfl rfl

/-- Counterexample to C8 as stated: in the scenario the point returned by
`convertToZoomedTarget (out, 200, 200)` is not within 5 pixels of `(960, 540)`. -/
theorem scenario_not_near_centre :
    ¬ ∃ (s' : ZoomScreen) (p : ℤ × ℤ),
      setZoomArea host1080 screenHalf 100 100 200 200 true = some s' ∧
      convertToZoomedTarget host1080 s' 0 200 200 = some p ∧
      |p.1 - 960| ≤ 5 ∧ |p.2 - 540| ≤ 5 := by
  rintro ⟨s', p, hs, hp, h1, -⟩
  obtain ⟨t, ht, -, hq, -⟩ :=
    scenario_points host1080 screenHalf areaHalf true rfl rfl rfl rfl
  rw [hs] at ht
  have hst : s' = t := Option.some.inj ht
  subst hst
  have hq' : convertToZoomedTarget host1080 s' 0 200 200 = some (400, 400) := hq
  rw [hq'] at hp
  have hp' : p = (400, 400) := (Option.some.inj hp).symm
  subst hp'
  norm_num at h1

/-- C9, as the code behaves (translate symmetry). For an unlocked area with
`newZoom ≠ 1` whose `currentZoom` already equals `newZoom`, after
`setZoomArea (x, y, w, h, instant = true)` the calls
`convertToZoomedTarget (out, x, y)` and `convertToZoomed (out, x, y)` return the
same point. (`instant` copies the target translation into the real one; it
does not touch `currentZoom`.) -/
theorem translate_symmetry (h : Host) (s : ZoomScreen) (x y width height : ℤ)
    (o : CompOutput) (za : ZoomArea)
    (ho : h.outputDevs[h.outputDeviceForGeometry x y width height]? = some o)
    (hza : s.zooms[h.outputDeviceForGeometry x y width height]? = some za)
    (hl : za.locked = false) (hnz : za.newZoom ≠ 1)
    (hcz : za.currentZoom = za.newZoom) :
    ∃ (s' : ZoomScreen) (p : ℤ × ℤ),
      setZoomArea h s x y width height true = some s' ∧
      convertToZoomedTarget h s' (h.outputDeviceForGeometry x y width height) x y =
        some p ∧
      convertToZoomed h s' (h.outputDeviceForGeometry x y width height) x y =
        some p := by
  obtain ⟨s', hs', hlook, -, -⟩ :=
    setZoomArea_unlocked h s x y width height true o za ho hza hnz hl
  obtain ⟨p, hp⟩ := convertToZoomedTarget_isSome h s' _ o _ ho hlook x y
  refine ⟨s', p, hs', hp, ?_⟩
  rw [← hp]
  symm
  apply convertToZoomedTarget_eq_of_real_eq h s' _ _ x y hlook
  · rw [setZoomAreaArea_currentZoom, setZoomAreaArea_newZoom, hcz]
  · exact (setZoomAreaArea_real o za x y width height).1
  · exact (setZoomAreaArea_real o za x y width height).2

/-- Witness of C9 (as the code behaves): an area resting at zoom 0.5. -/
theorem translate_symmetry_witness :
    ∃ (s' : ZoomScreen) (p : ℤ × ℤ),
      setZoomArea host1080 screenRestHalf 100 100 200 200 true = some s' ∧
      convertToZoomedTarget host1080 s'
        (host1080.outputDeviceForGeometry 100 100 200 200) 100 100 = some p ∧
      convertToZoomed host1080 s'
        (host1080.outputDeviceForGeometry 100 100 200 200) 100 100 = some p :=
  translate_symmetry host1080 screenRestHalf 100 100 200 200 output1080
    { ZoomArea.init 0 with newZoom := 1 / 2, currentZoom := 1 / 2 } rfl rfl rfl
    (by norm_num) rfl

/-- Counterexample to C9 as stated: with `currentZoom = 1` and `newZoom = 0.5`,
after `setZoomArea (100, 100, 200, 200, instant = true)` the target transform
maps `(100, 100)` to `(200, 200)` while the real transform maps it to
`(100, 100)`. -/
theorem translate_symmetry_fails :
    ∃ s' : ZoomScreen,
      setZoomArea host1080 screenHalf 100 100 200 200 true = some s' ∧
      convertToZoomedTarget host1080 s' 0 100 100 = some (200, 200) ∧
      convertToZoomed host1080 s' 0 100 100 = some (100, 100) ∧
      convertToZoomedTarget host1080 s' 0 100 100 ≠
        convertToZoomed host1080 s' 0 100 100 := by
  obtain ⟨s', hs', hlook, -, hq⟩ :=
    scenario_points host1080 screenHalf areaHalf true rfl rfl rfl rfl
  have hq' : convertToZoomedTarget host1080 s' 0 100 100 = some (200, 200) := hq
  have hlook' : s'.zooms[0]? =
      some (setZoomAreaArea output1080 areaHalf 100 100 200 200 true) := hlook
  have ho : host1080.outputDevs[0]? = some output1080 := rfl
  have hc : (setZoomAreaArea output1080 areaHalf 100 100 200 200 true).currentZoom
      = 1 := by
    rw [setZoomAreaArea_currentZoom]
    rfl
  have e1 : Int.tdiv output1080.width 2 = 960 := rfl
  have e2 : Int.tdiv output1080.height 2 = 540 := rfl
  have hr : convertToZoomed host1080 s' 0 100 100 = some (100, 100) := by
    simp only [convertToZoomed, ho, hlook', hc, e1, e2]
    norm_num [output1080]
    have t1 : truncQ (-860 : ℚ) = -860 := truncQ_eq_int (-860) (by norm_num)
    have t3 : truncQ (-440 : ℚ) = -440 := truncQ_eq_int (-440) (by norm_num)
    rw [t1, t3]
    norm_num [truncQ_intCast]
    have t2 : truncQ (-860 : ℚ) = -860 := truncQ_eq_int (-860) (by norm_num)
    have t4 : truncQ (-440 : ℚ) = -440 := truncQ_eq_int (-440) (by norm_num)
    rw [t2, t4]
    norm_num
  refine ⟨s', hs', hq', hr, ?_⟩
  rw [hq', hr]
  intro he
  have := Option.some.inj he
  have h1 : (200 : ℤ) = 100 := congrArg Prod.fst this
  norm_num at h1

/-! ## The zoom axis of the integrator -/

theorem adjustZoomVelocity_low : areaLow.adjustZoomVelocity 1 40 = areaHigh := by
  simp only [ZoomArea.adjustZoomVelocity, areaLow, areaHigh, ZoomArea.init,
    ZoomArea.updateActualTranslates]
  norm_num [abs_of_pos, abs_of_neg]

theorem adjustZoomVelocity_high : areaHigh.adjustZoomVelocity 1 40 = areaLow := by
  simp only [ZoomArea.adjustZoomVelocity, areaLow, areaHigh, ZoomArea.init,
    ZoomArea.updateActualTranslates]
  norm_num [abs_of_pos, abs_of_neg]

/-- Repeated `adjustZoomVelocity` on the engine returns, and the area of `out`
is the area obtained by repeating the step on the area alone. -/
theorem adjustZoomVelocityN_area (h : Host) (out : ℕ) (chunk : ℚ) (n : ℕ) :
    ∀ (s : ZoomScreen) (za : ZoomArea), s.zooms[out]? = some za →
      ∃ s', adjustZoomVelocityN h out chunk n s = some s' ∧
        s'.zooms[out]? = some (za.adjustZoomVelocityN h.redrawTime chunk n) := by
  induction n with
  | zero =>
    intro s za hza
    exact ⟨s, rfl, hza⟩
  | succ n ih =>
    intro s za hza
    have hstep : adjustZoomVelocity h s out chunk =
        some (s.setArea out (za.adjustZoomVelocity h.redrawTime chunk)) := by
      simp only [adjustZoomVelocity, hza]
    have hlook : (s.setArea out (za.adjustZoomVelocity h.redrawTime chunk)).zooms[out]?
        = some (za.adjustZoomVelocity h.redrawTime chunk) := by
      simp only [ZoomScreen.setArea]
      exact getElem?_set_self_of hza
    obtain ⟨s', hs', hz'⟩ := ih _ _ hlook
    refine ⟨s', ?_, hz'⟩
    simp only [adjustZoomVelocityN, hstep]
    exact hs'

theorem adjustZoomVelocityN_low_high (n : ℕ) :
    ∀ za : ZoomArea, za = areaLow ∨ za = areaHigh →
      za.adjustZoomVelocityN 1 40 n = areaLow ∨
        za.adjustZoomVelocityN 1 40 n = areaHigh := by
  induction n with
  | zero =>
    intro za hza
    exact hza
  | succ n ih =>
    intro za hza
    simp only [ZoomArea.adjustZoomVelocityN]
    rcases hza with rfl | rfl
    · rw [adjustZoomVelocity_low]
      exact ih _ (Or.inr rfl)
    · rw [adjustZoomVelocity_high]
      exact ih _ (Or.inl rfl)

/-- The zoom axis in exact arithmetic at `chunk = 40` and a redraw time of `1`:
from `currentZoom = 0.49`, `newZoom = 0.5`, `zVelocity = -0.0005` it alternates
for ever between `0.49` and `0.51`; no number of calls of `adjustZoomVelocity`
reaches `currentZoom = newZoom` with `zVelocity = 0`. -/
theorem zoom_axis_oscillates :
    ¬ ∃ (n : ℕ) (s' : ZoomScreen) (za : ZoomArea),
      adjustZoomVelocityN hostFast 0 40 n screenLow = some s' ∧
      s'.zooms[0]? = some za ∧ za.currentZoom = za.newZoom ∧ za.zVelocity = 0 := by
  rintro ⟨n, s', za, hs, hza, hc, -⟩
  obtain ⟨t, ht, hz⟩ := adjustZoomVelocityN_area hostFast 0 40 n screenLow areaLow rfl
  rw [hs] at ht
  have hst : s' = t := Option.some.inj ht
  subst hst
  rw [hza] at hz
  have hzz : za = areaLow.adjustZoomVelocityN 1 40 n := Option.some.inj hz
  rcases adjustZoomVelocityN_low_high n areaLow (Or.inl rfl) with h1 | h1
  · rw [hzz, h1] at hc
    norm_num [areaLow, ZoomArea.init, ZoomArea.updateActualTranslates] at hc
  · rw [hzz, h1] at hc
    norm_num [areaHigh, ZoomArea.init, ZoomArea.updateActualTranslates] at hc

/-- The quadratic form of the zoom axis shrinks in one step: in the variables
`δ` (velocity minus `0.15 e`), `y = 0.15 e`, `α = amount / (amount + 1)` and
`κ = 0.15 * chunk / redrawTime`. -/
theorem zoomEnergy_core (δ y α κ : ℚ) (hα0 : 0 ≤ α) (hα1 : α ≤ 5 / 6)
    (hκ0 : 0 ≤ κ) (hκ1 : κ ≤ 3 / 20) :
    (α * (1 + κ) * δ + κ * y) ^ 2 + ((1 - κ) * y - κ * α * δ) ^ 2 ≤
      (1 - κ / 5) * (δ ^ 2 + y ^ 2) := by
  have hC : 0 ≤ 2 * α * κ ^ 2 := by positivity
  have hα2 : α ^ 2 ≤ 25 / 36 := by nlinarith
  have hκ2 : κ ^ 2 ≤ 9 / 400 := by nlinarith
  have hακ : α * κ ^ 2 ≤ 5 / 6 * (9 / 400) := by
    apply mul_le_mul hα1 hκ2 (by positivity) (by norm_num)
  have hB : 0 ≤ (9 / 5 * κ - 2 * κ ^ 2) - 2 * (2 * α * κ ^ 2) := by
    have h1 : α * κ ≤ 5 / 6 * (3 / 20) := mul_le_mul hα1 hκ1 hκ0 (by norm_num)
    have h2 : 0 ≤ κ * (9 / 5 - 2 * κ - 4 * (α * κ)) := by
      apply mul_nonneg hκ0
      linarith
    nlinarith
  have hq : 1 + 2 * κ + 2 * κ ^ 2 ≤ 1 + 2 * (3 / 20) + 2 * (9 / 400) := by linarith
  have hA : 0 ≤ (1 - κ / 5 - α ^ 2 * (1 + 2 * κ + 2 * κ ^ 2)) - (2 * α * κ ^ 2) / 2 := by
    have h1 : α ^ 2 * (1 + 2 * κ + 2 * κ ^ 2) ≤
        25 / 36 * (1 + 2 * (3 / 20) + 2 * (9 / 400)) :=
      mul_le_mul hα2 hq (by positivity) (by norm_num)
    linarith
  have key : (1 - κ / 5) * (δ ^ 2 + y ^ 2) -
      ((α * (1 + κ) * δ + κ * y) ^ 2 + ((1 - κ) * y - κ * α * δ) ^ 2) =
      ((1 - κ / 5 - α ^ 2 * (1 + 2 * κ + 2 * κ ^ 2)) - (2 * α * κ ^ 2) / 2) * δ ^ 2 +
      ((9 / 5 * κ - 2 * κ ^ 2) - 2 * (2 * α * κ ^ 2)) * y ^ 2 +
      (2 * α * κ ^ 2) / 2 * (δ - 2 * y) ^ 2 := by ring
  have hpos : 0 ≤ (1 - κ / 5) * (δ ^ 2 + y ^ 2) -
      ((α * (1 + κ) * δ + κ * y) ^ 2 + ((1 - κ) * y - κ * α * δ) ^ 2) := by
    rw [key]
    have t1 := mul_nonneg hA (sq_nonneg δ)
    have t2 := mul_nonneg hB (sq_nonneg y)
    have t3 : 0 ≤ (2 * α * κ ^ 2) / 2 * (δ - 2 * y) ^ 2 := by positivity
    linarith
  linarith

/-- The gain `amount` of `adjustZoomVelocity` lies in `[1, 5]`. -/
theorem amount_bounds (d : ℚ) :
    1 ≤ (if |d| < 1 then (1 : ℚ) else if |d| > 5 then 5 else |d|) ∧
      (if |d| < 1 then (1 : ℚ) else if |d| > 5 then 5 else |d|) ≤ 5 := by
  split_ifs with h1 h2
  · norm_num
  · norm_num
  · exact ⟨not_lt.1 h1, not_lt.1 h2⟩

theorem zoomEnergy_nonneg (za : ZoomArea) : 0 ≤ zoomEnergy za := by
  unfold zoomEnergy
  positivity

/-- One call of `adjustZoomVelocity` with `0 < chunk ≤ redrawTime` keeps
`newZoom` and shrinks the quadratic form `zoomEnergy` by the factor
`1 - 0.03 * chunk / redrawTime`. -/
theorem adjustZoomVelocity_energy (za : ZoomArea) (r chunk : ℚ) (hr : 0 < r)
    (hc0 : 0 < chunk) (hc1 : chunk ≤ r) :
    zoomEnergy (za.adjustZoomVelocity r chunk) ≤
      (1 - 3 / 100 * (chunk / r)) * zoomEnergy za ∧
    (za.adjustZoomVelocity r chunk).newZoom = za.newZoom := by
  have hk0 : 0 < chunk / r := div_pos hc0 hr
  have hk1 : chunk / r ≤ 1 := (div_le_one hr).2 hc1
  obtain ⟨ha1, ha5⟩ := amount_bounds ((za.newZoom - za.currentZoom) * 75)
  unfold ZoomArea.adjustZoomVelocity
  simp only []
  generalize (if |(za.newZoom - za.currentZoom) * 75| < 1 then (1 : ℚ)
    else if |(za.newZoom - za.currentZoom) * 75| > 5 then 5
    else |(za.newZoom - za.currentZoom) * 75|) = a at ha1 ha5 ⊢
  have ha : a + 1 ≠ 0 := by
    have : 0 < a + 1 := by linarith
    exact ne_of_gt this
  have hr' : r ≠ 0 := ne_of_gt hr
  split_ifs with hsnap
  · refine ⟨?_, rfl⟩
    have h0 := zoomEnergy_nonneg za
    have hρ : 0 ≤ 1 - 3 / 100 * (chunk / r) := by linarith
    have : zoomEnergy
        { za with
          zVelocity := 0
          currentZoom := za.newZoom } = 0 := by
      simp only [zoomEnergy]
      norm_num
    simp only [zoomEnergy] at this ⊢
    rw [this]
    exact mul_nonneg hρ h0
  · refine ⟨?_, rfl⟩
    have hα0 : 0 ≤ a / (a + 1) := by
      apply div_nonneg <;> linarith
    have hα1 : a / (a + 1) ≤ 5 / 6 := by
      rw [div_le_iff₀ (by linarith)]
      linarith
    have hκ0 : 0 ≤ 3 / 20 * (chunk / r) := by positivity
    have hκ1 : 3 / 20 * (chunk / r) ≤ 3 / 20 := by linarith
    have core := zoomEnergy_core
      (za.zVelocity - 3 / 20 * (za.newZoom - za.currentZoom))
      (3 / 20 * (za.newZoom - za.currentZoom)) (a / (a + 1)) (3 / 20 * (chunk / r))
      hα0 hα1 hκ0 hκ1
    simp only [zoomEnergy]
    have e1 : (a * za.zVelocity + (za.newZoom - za.currentZoom) * 75 * (2 / 1000)) / (a + 1) -
        3 / 20 * (za.newZoom - (za.currentZoom +
          (a * za.zVelocity + (za.newZoom - za.currentZoom) * 75 * (2 / 1000)) / (a + 1)
            * chunk / r)) =
        a / (a + 1) * (1 + 3 / 20 * (chunk / r)) *
          (za.zVelocity - 3 / 20 * (za.newZoom - za.currentZoom)) +
        3 / 20 * (chunk / r) * (3 / 20 * (za.newZoom - za.currentZoom)) := by
      field_simp
      ring
    have e2 : 3 / 20 * (za.newZoom - (za.currentZoom +
          (a * za.zVelocity + (za.newZoom - za.currentZoom) * 75 * (2 / 1000)) / (a + 1)
            * chunk / r)) =
        (1 - 3 / 20 * (chunk / r)) * (3 / 20 * (za.newZoom - za.currentZoom)) -
        3 / 20 * (chunk / r) * (a / (a + 1)) *
          (za.zVelocity - 3 / 20 * (za.newZoom - za.currentZoom)) := by
      field_simp
      ring
    rw [e1, e2]
    have e3 : (1 : ℚ) - 3 / 100 * (chunk / r) = 1 - 3 / 20 * (chunk / r) / 5 := by ring
    rw [e3]
    exact core

/-- Once the quadratic form is at most `10⁻⁸`, the next call snaps: it leaves
`currentZoom = newZoom` and `zVelocity = 0`. -/
theorem adjustZoomVelocity_snaps (za : ZoomArea) (r chunk : ℚ)
    (hV : zoomEnergy za ≤ 1 / 100000000) :
    (za.adjustZoomVelocity r chunk).currentZoom =
      (za.adjustZoomVelocity r chunk).newZoom ∧
    (za.adjustZoomVelocity r chunk).zVelocity = 0 := by
  unfold zoomEnergy at hV
  set y : ℚ := 3 / 20 * (za.newZoom - za.currentZoom) with hy
  set δ : ℚ := za.zVelocity - y with hδ
  have hδ2 : δ ^ 2 ≤ 1 / 100000000 := by nlinarith [sq_nonneg y]
  have hy2 : y ^ 2 ≤ 1 / 100000000 := by nlinarith [sq_nonneg δ]
  have hsq : ((1 : ℚ) / 10000) ^ 2 = 1 / 100000000 := by norm_num
  have hδa : |δ| ≤ 1 / 10000 :=
    abs_le.2 (abs_le_of_sq_le_sq' (by rw [hsq]; exact hδ2) (by norm_num))
  have hya : |y| ≤ 1 / 10000 :=
    abs_le.2 (abs_le_of_sq_le_sq' (by rw [hsq]; exact hy2) (by norm_num))
  have hd : (za.newZoom - za.currentZoom) * 75 = 500 * y := by
    rw [hy]
    ring
  have hdabs : |(za.newZoom - za.currentZoom) * 75| ≤ 1 / 20 := by
    rw [hd, abs_mul]
    norm_num
    linarith
  have hd1 : |(za.newZoom - za.currentZoom) * 75| < 1 := by linarith
  have hd2 : |(za.newZoom - za.currentZoom) * 75| < 1 / 10 := by linarith
  have hw : |(1 * za.zVelocity + (za.newZoom - za.currentZoom) * 75 * (2 / 1000)) / (1 + 1)|
      < 5 / 1000 := by
    have e : (1 * za.zVelocity + (za.newZoom - za.currentZoom) * 75 * (2 / 1000)) / (1 + 1)
        = (δ + 2 * y) / 2 := by
      rw [hδ, hy]
      ring
    rw [e, abs_lt]
    rw [abs_le] at hδa hya
    constructor <;> linarith [hδa.1, hδa.2, hya.1, hya.2]
  unfold ZoomArea.adjustZoomVelocity
  simp only [hd1, if_true, hd2, hw, and_self]

theorem adjustZoomVelocityN_succ (r chunk : ℚ) (n : ℕ) :
    ∀ za : ZoomArea, za.adjustZoomVelocityN r chunk (n + 1) =
      (za.adjustZoomVelocityN r chunk n).adjustZoomVelocity r chunk := by
  induction n with
  | zero =>
    intro za
    rfl
  | succ n ih =>
    intro za
    have h1 : za.adjustZoomVelocityN r chunk (n + 1 + 1) =
        (za.adjustZoomVelocity r chunk).adjustZoomVelocityN r chunk (n + 1) := rfl
    have h2 : za.adjustZoomVelocityN r chunk (n + 1) =
        (za.adjustZoomVelocity r chunk).adjustZoomVelocityN r chunk n := rfl
    rw [h1, ih, h2]

/-- After `n` calls with `0 < chunk ≤ redrawTime` the quadratic form has shrunk
by `(1 - 0.03 * chunk / redrawTime) ^ n`, and `newZoom` is as it was. -/
theorem adjustZoomVelocityN_energy (r chunk : ℚ) (hr : 0 < r) (hc0 : 0 < chunk)
    (hc1 : chunk ≤ r) (za : ZoomArea) (n : ℕ) :
    zoomEnergy (za.adjustZoomVelocityN r chunk n) ≤
      (1 - 3 / 100 * (chunk / r)) ^ n * zoomEnergy za ∧
    (za.adjustZoomVelocityN r chunk n).newZoom = za.newZoom := by
  have hk1 : chunk / r ≤ 1 := (div_le_one hr).2 hc1
  have hρ : 0 ≤ 1 - 3 / 100 * (chunk / r) := by linarith
  induction n with
  | zero =>
    constructor
    · simp only [ZoomArea.adjustZoomVelocityN, pow_zero, one_mul, le_refl]
    · rfl
  | succ n ih =>
    rw [adjustZoomVelocityN_succ]
    obtain ⟨h1, h2⟩ := adjustZoomVelocity_energy
      (za.adjustZoomVelocityN r chunk n) r chunk hr hc0 hc1
    constructor
    · calc zoomEnergy ((za.adjustZoomVelocityN r chunk n).adjustZoomVelocity r chunk)
          ≤ (1 - 3 / 100 * (chunk / r)) *
              zoomEnergy (za.adjustZoomVelocityN r chunk n) := h1
        _ ≤ (1 - 3 / 100 * (chunk / r)) *
              ((1 - 3 / 100 * (chunk / r)) ^ n * zoomEnergy za) :=
            mul_le_mul_of_nonneg_left ih.1 hρ
        _ = (1 - 3 / 100 * (chunk / r)) ^ (n + 1) * zoomEnergy za := by ring
    · rw [h2, ih.2]

/-- With `0 < chunk ≤ redrawTime` the area reaches rest on the zoom axis after
finitely many calls and stays there. -/
theorem adjustZoomVelocityN_converges (r chunk : ℚ) (hr : 0 < r) (hc0 : 0 < chunk)
    (hc1 : chunk ≤ r) (za : ZoomArea) :
    ∃ n : ℕ, ∀ m : ℕ, n ≤ m →
      (za.adjustZoomVelocityN r chunk m).currentZoom =
        (za.adjustZoomVelocityN r chunk m).newZoom ∧
      (za.adjustZoomVelocityN r chunk m).zVelocity = 0 := by
  have hk0 : 0 < chunk / r := div_pos hc0 hr
  have hk1 : chunk / r ≤ 1 := (div_le_one hr).2 hc1
  have hρ0 : 0 ≤ 1 - 3 / 100 * (chunk / r) := by linarith
  have hρ1 : 1 - 3 / 100 * (chunk / r) < 1 := by linarith
  have hV := zoomEnergy_nonneg za
  obtain ⟨n, hn⟩ : ∃ n : ℕ,
      (1 - 3 / 100 * (chunk / r)) ^ n * (zoomEnergy za + 1) < 1 / 100000000 := by
    have hpos : (0 : ℚ) < 1 / 100000000 / (zoomEnergy za + 1) := by positivity
    obtain ⟨n, hn⟩ := exists_pow_lt_of_lt_one hpos hρ1
    refine ⟨n, ?_⟩
    have h1 : (0 : ℚ) < zoomEnergy za + 1 := by linarith
    exact (lt_div_iff₀ h1).1 hn
  refine ⟨n + 1, ?_⟩
  intro m hm
  obtain ⟨j, rfl⟩ : ∃ j, m = j + 1 := ⟨m - 1, by omega⟩
  have hj : n ≤ j := by omega
  rw [adjustZoomVelocityN_succ]
  apply adjustZoomVelocity_snaps
  have h1 := (adjustZoomVelocityN_energy r chunk hr hc0 hc1 za j).1
  have h2 : (1 - 3 / 100 * (chunk / r)) ^ j ≤ (1 - 3 / 100 * (chunk / r)) ^ n :=
    pow_le_pow_of_le_one hρ0 (le_of_lt hρ1) hj
  have h3 : (1 - 3 / 100 * (chunk / r)) ^ j * zoomEnergy za ≤
      (1 - 3 / 100 * (chunk / r)) ^ n * (zoomEnergy za + 1) := by
    apply mul_le_mul h2 (by linarith) hV (pow_nonneg hρ0 n)
  linarith

/-- The zoom axis in exact arithmetic, where no operation rounds. For every area
state, every `zVelocity`, every redraw time `> 0` and every fixed `chunk` with
`0 < chunk ≤ redraw time`, there is a number `n` such that after any `m ≥ n`
repeated calls `adjustZoomVelocity (out, chunk)` the area has
`currentZoom = newZoom` (the target it started with) and `zVelocity = 0`. The
`float` arithmetic of the source does not share this property: the section on
the zoom axis in single precision has a state that never moves. -/
theorem zoom_axis_converges (h : Host) (s : ZoomScreen) (out : ℕ) (chunk : ℚ)
    (za : ZoomArea) (hza : s.zooms[out]? = some za) (hr : 0 < h.redrawTime)
    (hc0 : 0 < chunk) (hc1 : chunk ≤ h.redrawTime) :
    ∃ n : ℕ, ∀ m : ℕ, n ≤ m → ∃ (s' : ZoomScreen) (za' : ZoomArea),
      adjustZoomVelocityN h out chunk m s = some s' ∧
      s'.zooms[out]? = some za' ∧ za'.newZoom = za.newZoom ∧
      za'.currentZoom = za'.newZoom ∧ za'.zVelocity = 0 := by
  obtain ⟨n, hn⟩ := adjustZoomVelocityN_converges h.redrawTime chunk hr hc0 hc1 za
  refine ⟨n, ?_⟩
  intro m hm
  obtain ⟨s', hs', hz'⟩ := adjustZoomVelocityN_area h out chunk m s za hza
  exact ⟨s', _, hs', hz',
    (adjustZoomVelocityN_energy h.redrawTime chunk hr hc0 hc1 za m).2,
    (hn m hm).1, (hn m hm).2⟩

/-- The zoom axis in exact arithmetic, zooming to 0.5 with `chunk = 0.5` and a
redraw time of 16. -/
theorem zoom_axis_converges_witness :
    ∃ n : ℕ, ∀ m : ℕ, n ≤ m → ∃ (s' : ZoomScreen) (za' : ZoomArea),
      adjustZoomVelocityN host1080 0 (1 / 2) m screenHalf = some s' ∧
      s'.zooms[0]? = some za' ∧ za'.newZoom = areaHalf.newZoom ∧
      za'.currentZoom = za'.newZoom ∧ za'.zVelocity = 0 :=
  zoom_axis_converges host1080 screenHalf 0 (1 / 2) areaHalf rfl
    (by norm_num [host1080]) (by norm_num) (by norm_num [host1080])

/-! ## Clamping of the target translation -/

/-- An area whose target translation is in range is left as it is. -/
theorem constrainArea_of_mem (za : ZoomArea)
    (hx1 : -(1 / 2) ≤ za.xTranslate) (hx2 : za.xTranslate ≤ 1 / 2)
    (hy1 : -(1 / 2) ≤ za.yTranslate) (hy2 : za.yTranslate ≤ 1 / 2) :
    constrainArea za = za := by
  have a1 : ¬ za.xTranslate > 1 / 2 := not_lt.2 hx2
  have a2 : ¬ za.xTranslate < -(1 / 2) := not_lt.2 hx1
  have a3 : ¬ za.yTranslate > 1 / 2 := not_lt.2 hy2
  have a4 : ¬ za.yTranslate < -(1 / 2) := not_lt.2 hy1
  have e1 : za.constrainX = za := by
    simp only [ZoomArea.constrainX, a1, a2, if_false]
  simp only [constrainArea, e1, ZoomArea.constrainY, a3, a4, if_false]

theorem clampQ_half_mem (v : ℚ) :
    -(1 / 2) ≤ clampQ v (-(1 / 2)) (1 / 2) ∧ clampQ v (-(1 / 2)) (1 / 2) ≤ 1 / 2 := by
  unfold clampQ
  constructor
  · exact le_min (le_max_right _ _) (by norm_num)
  · exact min_le_right _ _

/-- After `constrainArea` both target translations lie in `[-0.5, 0.5]`. -/
theorem constrainArea_mem (za : ZoomArea) :
    (-(1 / 2) ≤ (constrainArea za).xTranslate ∧ (constrainArea za).xTranslate ≤ 1 / 2) ∧
    (-(1 / 2) ≤ (constrainArea za).yTranslate ∧ (constrainArea za).yTranslate ≤ 1 / 2) := by
  rw [constrainArea_xTranslate, constrainArea_yTranslate]
  exact ⟨clampQ_half_mem _, clampQ_half_mem _⟩

theorem constrainArea_idem (za : ZoomArea) :
    constrainArea (constrainArea za) = constrainArea za := by
  obtain ⟨⟨a, b⟩, c, d⟩ := constrainArea_mem za
  exact constrainArea_of_mem _ a b c d

theorem zoom_halfX_fields (zs : Zoom.ZoomScreen) :
    zs.halfX.yTranslate = zs.yTranslate ∧ zs.halfX.maxTranslate = zs.maxTranslate ∧
    zs.halfX.xTranslate =
      (if zs.xTranslate > 1 / 2 then 1 / 2
        else if zs.xTranslate < -(1 / 2) then -(1 / 2) else zs.xTranslate) := by
  unfold Zoom.ZoomScreen.halfX
  split_ifs <;> exact ⟨rfl, rfl, rfl⟩

theorem zoom_halfY_fields (zs : Zoom.ZoomScreen) :
    zs.halfY.xTranslate = zs.xTranslate ∧ zs.halfY.maxTranslate = zs.maxTranslate ∧
    zs.halfY.yTranslate =
      (if zs.yTranslate > 1 / 2 then 1 / 2
        else if zs.yTranslate < -(1 / 2) then -(1 / 2) else zs.yTranslate) := by
  unfold Zoom.ZoomScreen.halfY
  split_ifs <;> exact ⟨rfl, rfl, rfl⟩

theorem zoom_maxX_fields (zs : Zoom.ZoomScreen) :
    zs.maxX.yTranslate = zs.yTranslate ∧ zs.maxX.maxTranslate = zs.maxTranslate ∧
    zs.maxX.xTranslate =
      (if zs.xTranslate < -zs.maxTranslate then -zs.maxTranslate
        else if zs.xTranslate > zs.maxTranslate then zs.maxTranslate
        else zs.xTranslate) := by
  unfold Zoom.ZoomScreen.maxX
  split_ifs <;> exact ⟨rfl, rfl, rfl⟩

theorem zoom_maxY_fields (zs : Zoom.ZoomScreen) :
    zs.maxY.xTranslate = zs.xTranslate ∧ zs.maxY.maxTranslate = zs.maxTranslate ∧
    zs.maxY.yTranslate =
      (if zs.yTranslate < -zs.maxTranslate then -zs.maxTranslate
        else if zs.yTranslate > zs.maxTranslate then zs.maxTranslate
        else zs.yTranslate) := by
  unfold Zoom.ZoomScreen.maxY
  split_ifs <;> exact ⟨rfl, rfl, rfl⟩

/-- The two clamps of `zoom.c` applied to one value, for `0 ≤ m`: the result
lies in `[-0.5, 0.5]` and in `[-m, m]`. -/
theorem zoom_clamp_mem (v m : ℚ) (hm : 0 ≤ m) :
    ∀ w : ℚ, w = (if v > 1 / 2 then 1 / 2 else if v < -(1 / 2) then -(1 / 2) else v) →
      ∀ u : ℚ, u = (if w < -m then -m else if w > m then m else w) →
        (-(1 / 2) ≤ u ∧ u ≤ 1 / 2) ∧ (-m ≤ u ∧ u ≤ m) := by
  intro w hw u hu
  have hw' : -(1 / 2) ≤ w ∧ w ≤ 1 / 2 := by
    rw [hw]
    split_ifs with h1 h2
    · norm_num
    · norm_num
    · exact ⟨not_lt.1 h2, not_lt.1 h1⟩
  rw [hu]
  split_ifs with h1 h2
  · refine ⟨⟨?_, ?_⟩, ?_, ?_⟩ <;> linarith [hw'.1, hw'.2]
  · refine ⟨⟨?_, ?_⟩, ?_, ?_⟩ <;> linarith [hw'.1, hw'.2]
  · exact ⟨hw', not_lt.1 h1, not_lt.1 h2⟩

/-- The target translation of `zoom.c` after `constrainZoomTranslate`. -/
theorem zoom_constrain_fields (zs : Zoom.ZoomScreen) :
    (Zoom.constrainZoomTranslate zs).maxTranslate = zs.maxTranslate ∧
    (Zoom.constrainZoomTranslate zs).xTranslate =
      (if zs.halfX.xTranslate < -zs.maxTranslate then -zs.maxTranslate
        else if zs.halfX.xTranslate > zs.maxTranslate then zs.maxTranslate
        else zs.halfX.xTranslate) ∧
    (Zoom.constrainZoomTranslate zs).yTranslate =
      (if zs.halfY.yTranslate < -zs.maxTranslate then -zs.maxTranslate
        else if zs.halfY.yTranslate > zs.maxTranslate then zs.maxTranslate
        else zs.halfY.yTranslate) := by
  unfold Zoom.constrainZoomTranslate
  obtain ⟨a1, a2, -⟩ := zoom_halfX_fields zs
  obtain ⟨b1, b2, b3⟩ := zoom_halfY_fields zs.halfX
  obtain ⟨c1, c2, c3⟩ := zoom_maxX_fields zs.halfX.halfY
  obtain ⟨d1, d2, d3⟩ := zoom_maxY_fields zs.halfX.halfY.maxX
  have hy : zs.halfX.halfY.yTranslate = zs.halfY.yTranslate := by
    rw [b3, a1, (zoom_halfY_fields zs).2.2]
  refine ⟨?_, ?_, ?_⟩
  · rw [d2, c2, b2, a2]
  · rw [d1, c3, b1, b2, a2]
  · rw [d3, c1, c2, b2, a2, hy]

/-- In `zoom.c`, a state whose target translation is within `[-0.5, 0.5]` and
within `[-maxTranslate, maxTranslate]` is left as it is. -/
theorem zoom_constrain_of_mem (zs : Zoom.ZoomScreen)
    (hx1 : -(1 / 2) ≤ zs.xTranslate) (hx2 : zs.xTranslate ≤ 1 / 2)
    (hy1 : -(1 / 2) ≤ zs.yTranslate) (hy2 : zs.yTranslate ≤ 1 / 2)
    (hx3 : -zs.maxTranslate ≤ zs.xTranslate) (hx4 : zs.xTranslate ≤ zs.maxTranslate)
    (hy3 : -zs.maxTranslate ≤ zs.yTranslate) (hy4 : zs.yTranslate ≤ zs.maxTranslate) :
    Zoom.constrainZoomTranslate zs = zs := by
  have e1 : zs.halfX = zs := by
    simp only [Zoom.ZoomScreen.halfX, not_lt.2 hx2, not_lt.2 hx1, if_false]
  have e2 : zs.halfY = zs := by
    simp only [Zoom.ZoomScreen.halfY, not_lt.2 hy2, not_lt.2 hy1, if_false]
  have e3 : zs.maxX = zs := by
    simp only [Zoom.ZoomScreen.maxX, not_lt.2 hx3, not_lt.2 hx4, if_false]
  have e4 : zs.maxY = zs := by
    simp only [Zoom.ZoomScreen.maxY, not_lt.2 hy3, not_lt.2 hy4, if_false]
  simp only [Zoom.constrainZoomTranslate, e1, e2, e3, e4]

/-- In `zoom.c`, for `0 ≤ maxTranslate`, the target translation after
`constrainZoomTranslate` lies in `[-0.5, 0.5]` and in
`[-maxTranslate, maxTranslate]`. -/
theorem zoom_constrain_mem (zs : Zoom.ZoomScreen) (hm : 0 ≤ zs.maxTranslate) :
    ((-(1 / 2) ≤ (Zoom.constrainZoomTranslate zs).xTranslate ∧
        (Zoom.constrainZoomTranslate zs).xTranslate ≤ 1 / 2) ∧
      (-zs.maxTranslate ≤ (Zoom.constrainZoomTranslate zs).xTranslate ∧
        (Zoom.constrainZoomTranslate zs).xTranslate ≤ zs.maxTranslate)) ∧
    ((-(1 / 2) ≤ (Zoom.constrainZoomTranslate zs).yTranslate ∧
        (Zoom.constrainZoomTranslate zs).yTranslate ≤ 1 / 2) ∧
      (-zs.maxTranslate ≤ (Zoom.constrainZoomTranslate zs).yTranslate ∧
        (Zoom.constrainZoomTranslate zs).yTranslate ≤ zs.maxTranslate)) := by
  obtain ⟨-, hx, hy⟩ := zoom_constrain_fields zs
  exact ⟨zoom_clamp_mem zs.xTranslate zs.maxTranslate hm _ (zoom_halfX_fields zs).2.2 _ hx,
    zoom_clamp_mem zs.yTranslate zs.maxTranslate hm _ (zoom_halfY_fields zs).2.2 _ hy⟩

/-- C13 (clamp idempotence). In `ezoom.cpp`, for every state,
`constrainZoomTranslate` applied twice gives the state it gives applied once,
every area then has both target translations in `[-0.5, 0.5]`, and an area whose
translations are in range is left as it is. In `zoom.c`, for every state with
`maxTranslate ≥ 0`, the same holds with the range `[-0.5, 0.5]` intersected with
`[-maxTranslate, maxTranslate]`. -/
theorem constrainZoomTranslate_idempotent :
    (∀ s : ZoomScreen,
      constrainZoomTranslate (constrainZoomTranslate s) = constrainZoomTranslate s ∧
      (∀ za ∈ (constrainZoomTranslate s).zooms,
        (-(1 / 2) ≤ za.xTranslate ∧ za.xTranslate ≤ 1 / 2) ∧
        (-(1 / 2) ≤ za.yTranslate ∧ za.yTranslate ≤ 1 / 2)) ∧
      (∀ (i : ℕ) (za : ZoomArea), s.zooms[i]? = some za →
        -(1 / 2) ≤ za.xTranslate → za.xTranslate ≤ 1 / 2 →
        -(1 / 2) ≤ za.yTranslate → za.yTranslate ≤ 1 / 2 →
        (constrainZoomTranslate s).zooms[i]? = some za)) ∧
    (∀ zs : Zoom.ZoomScreen, 0 ≤ zs.maxTranslate →
      Zoom.constrainZoomTranslate (Zoom.constrainZoomTranslate zs) =
        Zoom.constrainZoomTranslate zs ∧
      ((-(1 / 2) ≤ (Zoom.constrainZoomTranslate zs).xTranslate ∧
          (Zoom.constrainZoomTranslate zs).xTranslate ≤ 1 / 2) ∧
        (-zs.maxTranslate ≤ (Zoom.constrainZoomTranslate zs).xTranslate ∧
          (Zoom.constrainZoomTranslate zs).xTranslate ≤ zs.maxTranslate)) ∧
      ((-(1 / 2) ≤ (Zoom.constrainZoomTranslate zs).yTranslate ∧
          (Zoom.constrainZoomTranslate zs).yTranslate ≤ 1 / 2) ∧
        (-zs.maxTranslate ≤ (Zoom.constrainZoomTranslate zs).yTranslate ∧
          (Zoom.constrainZoomTranslate zs).yTranslate ≤ zs.maxTranslate)) ∧
      (-(1 / 2) ≤ zs.xTranslate → zs.xTranslate ≤ 1 / 2 →
        -(1 / 2) ≤ zs.yTranslate → zs.yTranslate ≤ 1 / 2 →
        -zs.maxTranslate ≤ zs.xTranslate → zs.xTranslate ≤ zs.maxTranslate →
        -zs.maxTranslate ≤ zs.yTranslate → zs.yTranslate ≤ zs.maxTranslate →
        Zoom.constrainZoomTranslate zs = zs)) := by
  constructor
  · intro s
    refine ⟨?_, ?_, ?_⟩
    · simp only [constrainZoomTranslate, List.map_map]
      congr 1
      apply List.map_congr_left
      intro a _
      exact constrainArea_idem a
    · intro za hza
      simp only [constrainZoomTranslate, List.mem_map] at hza
      obtain ⟨a, -, rfl⟩ := hza
      exact constrainArea_mem a
    · intro i za hza hx1 hx2 hy1 hy2
      simp only [constrainZoomTranslate, List.getElem?_map, hza, Option.map_some',
        constrainArea_of_mem za hx1 hx2 hy1 hy2]
  · intro zs hm
    obtain ⟨hmax, -, -⟩ := zoom_constrain_fields zs
    obtain ⟨⟨hx, hxm⟩, hy, hym⟩ := zoom_constrain_mem zs hm
    refine ⟨?_, ⟨hx, hxm⟩, ⟨hy, hym⟩, ?_⟩
    · apply zoom_constrain_of_mem _ hx.1 hx.2 hy.1 hy.2
      · rw [hmax]; exact hxm.1
      · rw [hmax]; exact hxm.2
      · rw [hmax]; exact hym.1
      · rw [hmax]; exact hym.2
    · intro a1 a2 a3 a4 a5 a6 a7 a8
      exact zoom_constrain_of_mem zs a1 a2 a3 a4 a5 a6 a7 a8

/-- Witness of C13: the `zoom.c` state `screenPanned`, whose `maxTranslate` is
`0.85`. -/
theorem constrainZoomTranslate_idempotent_witness :
    Zoom.constrainZoomTranslate (Zoom.constrainZoomTranslate Zoom.screenPanned) =
      Zoom.constrainZoomTranslate Zoom.screenPanned :=
  (constrainZoomTranslate_idempotent.2 Zoom.screenPanned
    (by norm_num [Zoom.screenPanned])).1

/-! ## `setCenter` -/

/-- The result of `setCenter` on an unlocked area: it returns, the area of the
resolved output is `setCenterArea`, and nothing else of the areas or of the
mask changes. -/
theorem setCenter_unlocked (h : Host) (s : ZoomScreen) (x y : ℤ) (instant : Bool)
    (o : CompOutput) (za : ZoomArea)
    (ho : h.outputDevs[h.outputDeviceForPoint x y]? = some o)
    (hza : s.zooms[h.outputDeviceForPoint x y]? = some za)
    (hl : za.locked = false) :
    ∃ s', setCenter h s x y instant = some s' ∧
      s'.zooms = s.zooms.set (h.outputDeviceForPoint x y) (setCenterArea o za x y instant) ∧
      s'.grabbed = s.grabbed := by
  generalize hout : h.outputDeviceForPoint x y = out at ho hza ⊢
  have hl' : ¬ za.locked = true := by simp [hl]
  have hlook : (s.setArea out (setCenterArea o za x y instant)).zooms[out]? =
      some (setCenterArea o za x y instant) := by
    simp only [ZoomScreen.setArea]
    exact getElem?_set_self_of hza
  have key : setCenter h s x y instant =
      (if h.mousePan = true then
        restrainCursor h (s.setArea out (setCenterArea o za x y instant)) out
      else some (s.setArea out (setCenterArea o za x y instant))) := by
    simp only [setCenter, hout, ho, hza]
    rw [if_neg hl']
    cases instant <;> rfl
  rw [key]
  by_cases hp : h.mousePan = true
  · obtain ⟨s', hs', hz, hg⟩ := restrainCursor_frame h _ out o _ ho hlook
    simp only [hp, if_true]
    exact ⟨s', hs', hz, hg⟩
  · simp only [hp, if_false]
    exact ⟨_, rfl, rfl, rfl⟩

theorem setCenterArea_fields (o : CompOutput) (za : ZoomArea) (x y : ℤ)
    (instant : Bool) :
    (setCenterArea o za x y instant).xTranslate =
      (((x - o.x1) - Int.tdiv o.width 2 : ℤ) : ℚ) / (o.width : ℚ) ∧
    (setCenterArea o za x y instant).yTranslate =
      (((y - o.y1) - Int.tdiv o.height 2 : ℤ) : ℚ) / (o.height : ℚ) ∧
    (setCenterArea o za x y instant).newZoom = za.newZoom ∧
    (setCenterArea o za x y instant).currentZoom = za.currentZoom ∧
    (setCenterArea o za x y instant).zVelocity = za.zVelocity ∧
    (setCenterArea o za x y instant).locked = za.locked ∧
    (setCenterArea o za x y instant).output = za.output := by
  cases instant <;> exact ⟨rfl, rfl, rfl, rfl, rfl, rfl, rfl⟩

/-- C11 (postcondition of `setCenter`). For an unlocked area on an output of
even width `W` and height `H`, `setCenter (x, y, instant)` returns a state in
which the area has `xTranslate = ((x - x1) - W/2) / W` and
`yTranslate = ((y - y1) - H/2) / H`. If `instant`, the real translations equal
the targets, `xVelocity = yVelocity = 0` and `xtrans`, `ytrans` are recomputed;
otherwise the real translations and the velocities are as before. `newZoom`,
`currentZoom`, `zVelocity` and the grabbed mask are as before in both cases. -/
theorem setCenter_postcondition (h : Host) (s : ZoomScreen) (x y : ℤ)
    (instant : Bool) (o : CompOutput) (za : ZoomArea)
    (ho : h.outputDevs[h.outputDeviceForPoint x y]? = some o)
    (hza : s.zooms[h.outputDeviceForPoint x y]? = some za)
    (hl : za.locked = false) (hW : Even o.width) (hH : Even o.height) :
    ∃ s' za', setCenter h s x y instant = some s' ∧
      s'.zooms[h.outputDeviceForPoint x y]? = some za' ∧
      za'.xTranslate = (((x : ℚ) - (o.x1 : ℚ)) - (o.width : ℚ) / 2) / (o.width : ℚ) ∧
      za'.yTranslate = (((y : ℚ) - (o.y1 : ℚ)) - (o.height : ℚ) / 2) / (o.height : ℚ) ∧
      (instant = true →
        za'.realXTranslate = za'.xTranslate ∧ za'.realYTranslate = za'.yTranslate ∧
        za'.xVelocity = 0 ∧ za'.yVelocity = 0 ∧
        za'.xtrans = -za'.realXTranslate * (1 - za'.currentZoom) ∧
        za'.ytrans = za'.realYTranslate * (1 - za'.currentZoom)) ∧
      (instant = false →
        za'.realXTranslate = za.realXTranslate ∧
        za'.realYTranslate = za.realYTranslate ∧
        za'.xVelocity = za.xVelocity ∧ za'.yVelocity = za.yVelocity) ∧
      za'.newZoom = za.newZoom ∧ za'.currentZoom = za.currentZoom ∧
      za'.zVelocity = za.zVelocity ∧ s'.grabbed = s.grabbed := by
  obtain ⟨s', hs', hz, hg⟩ := setCenter_unlocked h s x y instant o za ho hza hl
  obtain ⟨fx, fy, fn, fc, fz, -, -⟩ := setCenterArea_fields o za x y instant
  refine ⟨s', setCenterArea o za x y instant, hs', ?_, ?_, ?_, ?_, ?_, fn, fc, fz, hg⟩
  · rw [hz]
    exact getElem?_set_self_of hza
  · rw [fx]
    push_cast
    rw [tdiv_two_of_even hW]
  · rw [fy]
    push_cast
    rw [tdiv_two_of_even hH]
  · intro hi
    subst hi
    exact ⟨rfl, rfl, rfl, rfl, rfl, rfl⟩
  · intro hi
    subst hi
    exact ⟨rfl, rfl, rfl, rfl⟩

/-- Witness of C11: `setCenter (300, 200, true)` on the engine zooming to 0.5. -/
theorem setCenter_postcondition_witness :
    ∃ s' za', setCenter host1080 screenHalf 300 200 true = some s' ∧
      s'.zooms[host1080.outputDeviceForPoint 300 200]? = some za' ∧
      za'.xTranslate = ((((300 : ℤ) : ℚ) - (output1080.x1 : ℚ)) -
        (output1080.width : ℚ) / 2) / (output1080.width : ℚ) ∧
      za'.yTranslate = ((((200 : ℤ) : ℚ) - (output1080.y1 : ℚ)) -
        (output1080.height : ℚ) / 2) / (output1080.height : ℚ) ∧
      (true = true →
        za'.realXTranslate = za'.xTranslate ∧ za'.realYTranslate = za'.yTranslate ∧
        za'.xVelocity = 0 ∧ za'.yVelocity = 0 ∧
        za'.xtrans = -za'.realXTranslate * (1 - za'.currentZoom) ∧
        za'.ytrans = za'.realYTranslate * (1 - za'.currentZoom)) ∧
      (true = false →
        za'.realXTranslate = areaHalf.realXTranslate ∧
        za'.realYTranslate = areaHalf.realYTranslate ∧
        za'.xVelocity = areaHalf.xVelocity ∧ za'.yVelocity = areaHalf.yVelocity) ∧
      za'.newZoom = areaHalf.newZoom ∧ za'.currentZoom = areaHalf.currentZoom ∧
      za'.zVelocity = areaHalf.zVelocity ∧ s'.grabbed = screenHalf.grabbed :=
  setCenter_postcondition host1080 screenHalf 300 200 true output1080 areaHalf
    rfl rfl rfl ⟨960, rfl⟩ ⟨540, rfl⟩

/-- The gain of the integrator is `clamp (|d|, 1, 5)`. -/
theorem amount_eq_clampQ (d : ℚ) :
    (if |d| < 1 then (1 : ℚ) else if |d| > 5 then 5 else |d|) = clampQ |d| 1 5 := by
  unfold clampQ
  split_ifs with h1 h2
  · rw [max_eq_right (le_of_lt h1), min_eq_left (by norm_num)]
  · have h3 : (1 : ℚ) ≤ |d| := not_lt.1 h1
    rw [max_eq_left h3, min_eq_right (le_of_lt h2)]
  · have h3 : (1 : ℚ) ≤ |d| := not_lt.1 h1
    rw [max_eq_left h3, min_eq_left (not_lt.1 h2)]

theorem adjustZoomVelocity_eq_spec (r chunk : ℚ) (za : ZoomArea) :
    za.adjustZoomVelocity r chunk = specIntegrateZoom r chunk za := by
  unfold ZoomArea.adjustZoomVelocity specIntegrateZoom
  simp only [amount_eq_clampQ]
  have e : (za.newZoom - za.currentZoom) * 75 * (2 / 1000) =
      2 / 1000 * ((za.newZoom - za.currentZoom) * 75) := by ring
  rw [e]

theorem adjustXYVelocity_eq_spec (r chunk : ℚ) (za : ZoomArea) :
    za.adjustXYVelocity r chunk = specIntegrateXY r chunk za := by
  unfold ZoomArea.adjustXYVelocity specIntegrateXY specAxisVelocity
  simp only [amount_eq_clampQ]
  have ex : (za.xTranslate - za.realXTranslate) * 75 * (2 / 1000) =
      2 / 1000 * ((za.xTranslate - za.realXTranslate) * 75) := by ring
  have ey : (za.yTranslate - za.realYTranslate) * 75 * (2 / 1000) =
      2 / 1000 * ((za.yTranslate - za.realYTranslate) * 75) := by ring
  rw [ex, ey]

theorem ZoomArea_ext (a b : ZoomArea) (h1 : a.output = b.output)
    (h2 : a.currentZoom = b.currentZoom) (h3 : a.newZoom = b.newZoom)
    (h4 : a.xVelocity = b.xVelocity) (h5 : a.yVelocity = b.yVelocity)
    (h6 : a.zVelocity = b.zVelocity) (h7 : a.xTranslate = b.xTranslate)
    (h8 : a.yTranslate = b.yTranslate) (h9 : a.realXTranslate = b.realXTranslate)
    (h10 : a.realYTranslate = b.realYTranslate) (h11 : a.xtrans = b.xtrans)
    (h12 : a.ytrans = b.ytrans) (h13 : a.locked = b.locked) : a = b := by
  cases a
  cases b
  simp only [ZoomArea.mk.injEq]
  exact ⟨h1, h2, h3, h4, h5, h6, h7, h8, h9, h10, h11, h12, h13⟩

/-- `adjustZoomVelocity` writes `currentZoom` and `zVelocity` only. -/
theorem adjustZoomVelocity_frame (r chunk : ℚ) (za : ZoomArea) :
    (za.adjustZoomVelocity r chunk).output = za.output ∧
    (za.adjustZoomVelocity r chunk).newZoom = za.newZoom ∧
    (za.adjustZoomVelocity r chunk).xVelocity = za.xVelocity ∧
    (za.adjustZoomVelocity r chunk).yVelocity = za.yVelocity ∧
    (za.adjustZoomVelocity r chunk).xTranslate = za.xTranslate ∧
    (za.adjustZoomVelocity r chunk).yTranslate = za.yTranslate ∧
    (za.adjustZoomVelocity r chunk).realXTranslate = za.realXTranslate ∧
    (za.adjustZoomVelocity r chunk).realYTranslate = za.realYTranslate ∧
    (za.adjustZoomVelocity r chunk).xtrans = za.xtrans ∧
    (za.adjustZoomVelocity r chunk).ytrans = za.ytrans ∧
    (za.adjustZoomVelocity r chunk).locked = za.locked := by
  unfold ZoomArea.adjustZoomVelocity
  simp only []
  split_ifs <;> exact ⟨rfl, rfl, rfl, rfl, rfl, rfl, rfl, rfl, rfl, rfl, rfl⟩

/-- `adjustXYVelocity` writes the x and y velocities and real translations only. -/
theorem adjustXYVelocity_frame (r chunk : ℚ) (za : ZoomArea) :
    (za.adjustXYVelocity r chunk).output = za.output ∧
    (za.adjustXYVelocity r chunk).currentZoom = za.currentZoom ∧
    (za.adjustXYVelocity r chunk).newZoom = za.newZoom ∧
    (za.adjustXYVelocity r chunk).zVelocity = za.zVelocity ∧
    (za.adjustXYVelocity r chunk).xTranslate = za.xTranslate ∧
    (za.adjustXYVelocity r chunk).yTranslate = za.yTranslate ∧
    (za.adjustXYVelocity r chunk).xtrans = za.xtrans ∧
    (za.adjustXYVelocity r chunk).ytrans = za.ytrans ∧
    (za.adjustXYVelocity r chunk).locked = za.locked := by
  unfold ZoomArea.adjustXYVelocity
  simp only []
  split_ifs <;> exact ⟨rfl, rfl, rfl, rfl, rfl, rfl, rfl, rfl, rfl⟩

/-- What `adjustZoomVelocity` writes depends on the zoom fields only. -/
theorem adjustZoomVelocity_congr (r chunk : ℚ) (a b : ZoomArea)
    (h1 : a.newZoom = b.newZoom) (h2 : a.currentZoom = b.currentZoom)
    (h3 : a.zVelocity = b.zVelocity) :
    (a.adjustZoomVelocity r chunk).currentZoom =
      (b.adjustZoomVelocity r chunk).currentZoom ∧
    (a.adjustZoomVelocity r chunk).zVelocity =
      (b.adjustZoomVelocity r chunk).zVelocity := by
  unfold ZoomArea.adjustZoomVelocity
  simp only [h1, h2, h3]
  split_ifs <;> exact ⟨rfl, rfl⟩

/-- What `adjustXYVelocity` writes depends on the translation fields only. -/
theorem adjustXYVelocity_congr (r chunk : ℚ) (a b : ZoomArea)
    (h1 : a.xTranslate = b.xTranslate) (h2 : a.yTranslate = b.yTranslate)
    (h3 : a.realXTranslate = b.realXTranslate)
    (h4 : a.realYTranslate = b.realYTranslate)
    (h5 : a.xVelocity = b.xVelocity) (h6 : a.yVelocity = b.yVelocity) :
    (a.adjustXYVelocity r chunk).xVelocity = (b.adjustXYVelocity r chunk).xVelocity ∧
    (a.adjustXYVelocity r chunk).yVelocity = (b.adjustXYVelocity r chunk).yVelocity ∧
    (a.adjustXYVelocity r chunk).realXTranslate =
      (b.adjustXYVelocity r chunk).realXTranslate ∧
    (a.adjustXYVelocity r chunk).realYTranslate =
      (b.adjustXYVelocity r chunk).realYTranslate := by
  unfold ZoomArea.adjustXYVelocity
  simp only [h1, h2, h3, h4, h5, h6]
  split_ifs <;> exact ⟨rfl, rfl, rfl, rfl⟩

/-- The two halves of a sub-step act on disjoint fields and commute. -/
theorem adjust_comm (r chunk : ℚ) (za : ZoomArea) :
    (za.adjustXYVelocity r chunk).adjustZoomVelocity r chunk =
      (za.adjustZoomVelocity r chunk).adjustXYVelocity r chunk := by
  obtain ⟨z1, z2, z3, z4, z5, z6, z7, z8, z9, z10, z11⟩ :=
    adjustZoomVelocity_frame r chunk (za.adjustXYVelocity r chunk)
  obtain ⟨x1, x2, x3, x4, x5, x6, x7, x8, x9⟩ :=
    adjustXYVelocity_frame r chunk (za.adjustZoomVelocity r chunk)
  obtain ⟨y1, y2, y3, y4, y5, y6, y7, y8, y9⟩ := adjustXYVelocity_frame r chunk za
  obtain ⟨w1, w2, w3, w4, w5, w6, w7, w8, w9, w10, w11⟩ :=
    adjustZoomVelocity_frame r chunk za
  obtain ⟨c1, c2⟩ := adjustZoomVelocity_congr r chunk (za.adjustXYVelocity r chunk) za
    y3 y2 y4
  obtain ⟨d1, d2, d3, d4⟩ := adjustXYVelocity_congr r chunk
    (za.adjustZoomVelocity r chunk) za w5 w6 w7 w8 w3 w4
  apply ZoomArea_ext
  · rw [z1, x1, y1, w1]
  · rw [c1, x2]
  · rw [z2, x3, y3, w2]
  · rw [z3, d1]
  · rw [z4, d2]
  · rw [c2, x4]
  · rw [z5, x5, y5, w5]
  · rw [z6, x6, y6, w6]
  · rw [z7, d3]
  · rw [z8, d4]
  · rw [z9, x7, y7, w9]
  · rw [z10, x8, y8, w10]
  · rw [z11, x9, y9, w11]

/-! ## Range of the target translation, panning, visibility, cancellation -/

theorem construct_host1080 : ZoomScreen.construct host1080 = screenFresh := rfl

/-- For a point on the resolved output, the target translation that `setCenter`
assigns lies in `[-0.5, 0.5]` (shown for the x axis; the y axis is the same
computation with the height). -/
theorem setCenter_axis_mem (p x1 W : ℤ) (hW : 0 < W) (h1 : x1 ≤ p) (h2 : p < x1 + W) :
    -(1 / 2) ≤ (((p - x1) - Int.tdiv W 2 : ℤ) : ℚ) / (W : ℚ) ∧
      (((p - x1) - Int.tdiv W 2 : ℤ) : ℚ) / (W : ℚ) ≤ 1 / 2 := by
  have hW' : (0 : ℚ) < (W : ℚ) := by exact_mod_cast hW
  have e : Int.tdiv W 2 = W / 2 := Int.tdiv_eq_ediv (le_of_lt hW) (by norm_num)
  have a1 : 2 * (W / 2) ≤ W := by omega
  have a2 : W - 1 ≤ 2 * (W / 2) := by omega
  rw [e]
  constructor
  · rw [le_div_iff₀ hW']
    have : -(W : ℤ) ≤ 2 * ((p - x1) - W / 2) := by omega
    have hq : (-(W : ℚ)) ≤ 2 * (((p - x1) - W / 2 : ℤ) : ℚ) := by exact_mod_cast this
    linarith
  · rw [div_le_iff₀ hW']
    have : 2 * ((p - x1) - W / 2) ≤ W := by omega
    have hq : 2 * (((p - x1) - W / 2 : ℤ) : ℚ) ≤ (W : ℚ) := by exact_mod_cast this
    linarith

/-- C14 at its failing input. From the freshly constructed engine on one
1920x1080 output, `setCenter (5000, 0, false)` returns a state whose area has
`xTranslate = 101/48`, outside `[-0.5, 0.5]`: `setCenter` assigns the target
translation and never calls `constrainZoomTranslate`. -/
theorem setCenter_leaves_range :
    ∃ (s' : ZoomScreen) (za : ZoomArea),
      runOps host1080 [Op.setCenter 5000 0 false] (ZoomScreen.construct host1080) =
        some s' ∧
      s'.zooms[0]? = some za ∧ za.xTranslate = 101 / 48 ∧ ¬ za.xTranslate ≤ 1 / 2 := by
  obtain ⟨s', hs', hz, -⟩ := setCenter_unlocked host1080 screenFresh 5000 0 false
    output1080 (ZoomArea.init 0) rfl rfl rfl
  have hx : (setCenterArea output1080 (ZoomArea.init 0) 5000 0 false).xTranslate =
      101 / 48 := by
    rw [(setCenterArea_fields output1080 (ZoomArea.init 0) 5000 0 false).1]
    have e1 : Int.tdiv output1080.width 2 = 960 := rfl
    rw [e1]
    norm_num [output1080]
  refine ⟨s', setCenterArea output1080 (ZoomArea.init 0) 5000 0 false, ?_, ?_, hx, ?_⟩
  · rw [construct_host1080]
    simp only [runOps, Op.apply, hs']
  · rw [hz]
    rfl
  · rw [hx]
    norm_num

/-- The areas after `panZoom`: every area, locked or not, is panned and then
clamped. -/
theorem panZoom_zooms (h : Host) (s : ZoomScreen) (xvalue yvalue : ℤ) (i : ℕ) :
    (panZoom h s xvalue yvalue).zooms[i]? =
      (s.zooms[i]?).map (fun a => constrainArea (a.pan h.panFactor xvalue yvalue)) := by
  simp only [panZoom, constrainZoomTranslate, List.getElem?_map, Option.map_map]
  rfl

/-- C17 at its failing input. On an engine whose only area is locked and rests
at zoom 0.5 with `xTranslate = 0`, `panZoom (1, 0)` moves the target translation
of the locked area to `1/20`: `panZoom` has no test of `locked`. -/
theorem panZoom_moves_locked_area :
    screenLockedHalf.zooms[0]? = some areaLockedHalf ∧
    areaLockedHalf.locked = true ∧ areaLockedHalf.xTranslate = 0 ∧
    ∃ za : ZoomArea, (panZoom host1080 screenLockedHalf 1 0).zooms[0]? = some za ∧
      za.locked = true ∧ za.xTranslate = 1 / 20 ∧ za.xTranslate ≠ areaLockedHalf.xTranslate := by
  have hp : areaLockedHalf.pan host1080.panFactor 1 0 =
      { areaLockedHalf with xTranslate := 1 / 20 } := by
    simp only [ZoomArea.pan, areaLockedHalf, ZoomArea.init, ZoomArea.updateActualTranslates,
      host1080]
    norm_num
  have hc : constrainArea { areaLockedHalf with xTranslate := 1 / 20 } =
      { areaLockedHalf with xTranslate := 1 / 20 } := by
    apply constrainArea_of_mem <;>
      norm_num [areaLockedHalf, ZoomArea.init, ZoomArea.updateActualTranslates]
  refine ⟨rfl, rfl, rfl, { areaLockedHalf with xTranslate := 1 / 20 }, ?_, rfl, rfl, ?_⟩
  · rw [panZoom_zooms]
    have : screenLockedHalf.zooms[0]? = some areaLockedHalf := rfl
    rw [this, Option.map_some', hp, hc]
  · norm_num [areaLockedHalf, ZoomArea.init, ZoomArea.updateActualTranslates]

/-- C15. `ensureVisibility (x, y, margin)` returns false with the state
unchanged when the output of the point is not active, and when its area is
locked. When the area is active and unlocked, the point mapped by
`convertToZoomedTarget` and expanded by `margin` lies within the output
rectangle, and the target translations are within `[-0.5, 0.5]`, it returns
true and the area, so its `xTranslate` and `yTranslate`, is as before. -/
theorem ensureVisibility_guards (h : Host) (s : ZoomScreen) (x y margin : ℤ) :
    (isActive s (h.outputDeviceForPoint x y) = false →
      ensureVisibility h s x y margin = some (false, s)) ∧
    (∀ (o : CompOutput) (za : ZoomArea),
      h.outputDevs[h.outputDeviceForPoint x y]? = some o →
      s.zooms[h.outputDeviceForPoint x y]? = some za → za.locked = true →
      ensureVisibility h s x y margin = some (false, s)) ∧
    (∀ (o : CompOutput) (za : ZoomArea) (zoomX zoomY : ℤ),
      isActive s (h.outputDeviceForPoint x y) = true →
      h.outputDevs[h.outputDeviceForPoint x y]? = some o →
      s.zooms[h.outputDeviceForPoint x y]? = some za → za.locked = false →
      convertToZoomedTarget h s (h.outputDeviceForPoint x y) x y = some (zoomX, zoomY) →
      zoomX + margin ≤ o.x2 → o.x1 ≤ zoomX - margin →
      zoomY + margin ≤ o.y2 → o.y1 ≤ zoomY - margin →
      -(1 / 2) ≤ za.xTranslate → za.xTranslate ≤ 1 / 2 →
      -(1 / 2) ≤ za.yTranslate → za.yTranslate ≤ 1 / 2 →
      ∃ s', ensureVisibility h s x y margin = some (true, s') ∧
        s'.zooms[h.outputDeviceForPoint x y]? = some za ∧ s'.grabbed = s.grabbed) := by
  refine ⟨?_, ?_, ?_⟩
  · intro hact
    simp only [ensureVisibility, hact, Bool.not_false, if_true]
  · intro o za ho hza hl
    obtain ⟨⟨zx, zy⟩, hp⟩ := convertToZoomedTarget_isSome h s _ o za ho hza x y
    simp only [ensureVisibility, ho, hza, hp, hl, if_true]
    split_ifs <;> rfl
  · intro o za zoomX zoomY hact ho hza hl hp hx1 hx2 hy1 hy2 tx1 tx2 ty1 ty2
    have hl' : ¬ za.locked = true := by simp [hl]
    have n1 : za.nudgeX o zoomX margin = za := by
      simp only [ZoomArea.nudgeX, not_lt.2 hx1, not_lt.2 hx2, if_false]
    have n2 : za.nudgeY o zoomY margin = za := by
      simp only [ZoomArea.nudgeY, not_lt.2 hy1, not_lt.2 hy2, if_false]
    refine ⟨constrainZoomTranslate (s.setArea (h.outputDeviceForPoint x y) za), ?_, ?_, rfl⟩
    · simp only [ensureVisibility, hact, Bool.not_true, ho, hza, hp]
      rw [if_neg (by simp), if_neg hl', n1, n2]
    · simp only [constrainZoomTranslate, ZoomScreen.setArea, List.getElem?_map,
        getElem?_set_self_of hza, Option.map_some',
        constrainArea_of_mem za tx1 tx2 ty1 ty2]

/-- Witness of C15: on the fresh engine no output is active; on the engine
zooming to 0.5 the centre of the output, with margin 10, is already visible. -/
theorem ensureVisibility_guards_witness :
    ensureVisibility host1080 screenFresh 200 200 10 = some (false, screenFresh) ∧
    ∃ s', ensureVisibility host1080 screenHalf 960 540 10 = some (true, s') ∧
      s'.zooms[host1080.outputDeviceForPoint 960 540]? = some areaHalf ∧
      s'.grabbed = screenHalf.grabbed :=
  ⟨(ensureVisibility_guards host1080 screenFresh 200 200 10).1 rfl,
   (ensureVisibility_guards host1080 screenHalf 960 540 10).2.2 output1080 areaHalf
      960 540 rfl rfl rfl rfl
      (by
        have ho : host1080.outputDevs[host1080.outputDeviceForPoint 960 540]? =
            some output1080 := rfl
        have hz : screenHalf.zooms[host1080.outputDeviceForPoint 960 540]? =
            some areaHalf := rfl
        have e1 : Int.tdiv output1080.width 2 = 960 := rfl
        have e2 : Int.tdiv output1080.height 2 = 540 := rfl
        simp only [convertToZoomedTarget, ho, hz, e1, e2]
        norm_num [areaHalf, ZoomArea.init, ZoomArea.updateActualTranslates, output1080,
          truncQ_zero])
      (by norm_num [output1080, CompOutput.x2])
      (by norm_num [output1080])
      (by norm_num [output1080, CompOutput.y2])
      (by norm_num [output1080])
      (by norm_num [areaHalf, ZoomArea.init, ZoomArea.updateActualTranslates])
      (by norm_num [areaHalf, ZoomArea.init, ZoomArea.updateActualTranslates])
      (by norm_num [areaHalf, ZoomArea.init, ZoomArea.updateActualTranslates])
      (by norm_num [areaHalf, ZoomArea.init, ZoomArea.updateActualTranslates])⟩

/-- C16 (`terminate` does not snap). With an empty grabbed mask `terminate`
returns false and the state unchanged. With a non-empty mask it returns false
and a state in which the area of the pointer's output has `newZoom = 1` and all
its other fields as before, every other area is as before, and the mask is as
before. Whenever it returns, it returns false. -/
theorem terminate_no_snap (h : Host) (s : ZoomScreen) :
    (s.grabbed = 0 → terminate h s = some (false, s)) ∧
    (s.grabbed ≠ 0 → ∀ za : ZoomArea,
      s.zooms[h.outputDeviceForPoint h.pointerX h.pointerY]? = some za →
      ∃ s', terminate h s = some (false, s') ∧
        s'.zooms[h.outputDeviceForPoint h.pointerX h.pointerY]? =
          some { za with newZoom := 1 } ∧
        (∀ j : ℕ, j ≠ h.outputDeviceForPoint h.pointerX h.pointerY →
          s'.zooms[j]? = s.zooms[j]?) ∧
        s'.zooms.length = s.zooms.length ∧
        s'.grabbed = s.grabbed ∧ s'.mouseX = s.mouseX ∧ s'.mouseY = s.mouseY ∧
        s'.pollActive = s.pollActive ∧ s'.warps = s.warps) ∧
    (∀ (r : Bool) (s' : ZoomScreen), terminate h s = some (r, s') → r = false) := by
  refine ⟨?_, ?_, ?_⟩
  · intro hg
    simp only [terminate, hg, ne_eq, not_true_eq_false, if_false]
  · intro hg za hza
    refine ⟨s.setArea (h.outputDeviceForPoint h.pointerX h.pointerY)
      { za with newZoom := 1 }, ?_, ?_, ?_, ?_, rfl, rfl, rfl, rfl, rfl⟩
    · simp only [terminate, hg, ne_eq, not_false_eq_true, if_true, hza]
    · simp only [ZoomScreen.setArea]
      exact getElem?_set_self_of hza
    · intro j hj
      simp only [ZoomScreen.setArea]
      exact getElem?_set_other (Ne.symm hj)
    · simp only [ZoomScreen.setArea, List.length_set]
  · intro r s' hr
    unfold terminate at hr
    simp only [] at hr
    split_ifs at hr with hg
    · cases hz : s.zooms[h.outputDeviceForPoint h.pointerX h.pointerY]? with
      | none =>
        rw [hz] at hr
        cases hr
      | some za =>
        rw [hz] at hr
        simp only [Option.some.injEq, Prod.mk.injEq] at hr
        exact hr.1.symm
    · simp only [Option.some.injEq, Prod.mk.injEq] at hr
      exact hr.1.symm

/-- Witness of C16: `terminate` on the engine zooming to 0.5. -/
theorem terminate_no_snap_witness :
    ∃ s', terminate host1080 screenHalf = some (false, s') ∧
      s'.zooms[host1080.outputDeviceForPoint host1080.pointerX host1080.pointerY]? =
        some { areaHalf with newZoom := 1 } ∧
      (∀ j : ℕ, j ≠ host1080.outputDeviceForPoint host1080.pointerX host1080.pointerY →
        s'.zooms[j]? = screenHalf.zooms[j]?) ∧
      s'.zooms.length = screenHalf.zooms.length ∧
      s'.grabbed = screenHalf.grabbed ∧ s'.mouseX = screenHalf.mouseX ∧
      s'.mouseY = screenHalf.mouseY ∧
      s'.pollActive = screenHalf.pollActive ∧ s'.warps = screenHalf.warps :=
  (terminate_no_snap host1080 screenHalf).2.1 (by decide) areaHalf rfl

/-- C20 (one integration sub-step is the specification's `integrate (chunk)`).
For every area, redraw time `r` and `chunk`: `adjustZoomVelocity` is the zoom
axis of the specification (`d`, `amount = clamp (|d|, 1, 5)`, new velocity, snap
when `|d| < 0.1` and `|zVelocity'| < 0.005`, else advance by
`zVelocity' * chunk / r`); `adjustXYVelocity` is its translation part (each
velocity divided by 1.25 and updated from its `diff`; both axes snap if and only
if both pass the test, otherwise both advance); and the three calls of a
sub-step together are `specIntegrate`. The functions on the engine apply these
to the area of `out`. -/
theorem integrate_refines_spec (r chunk : ℚ) (za : ZoomArea) :
    za.adjustZoomVelocity r chunk = specIntegrateZoom r chunk za ∧
    za.adjustXYVelocity r chunk = specIntegrateXY r chunk za ∧
    za.integrate r chunk = specIntegrate r chunk za ∧
    (∀ (h : Host) (s : ZoomScreen) (out : ℕ), s.zooms[out]? = some za →
      adjustZoomVelocity h s out chunk =
        some (s.setArea out (specIntegrateZoom h.redrawTime chunk za)) ∧
      adjustXYVelocity h s out chunk =
        some (s.setArea out (specIntegrateXY h.redrawTime chunk za))) := by
  refine ⟨adjustZoomVelocity_eq_spec r chunk za, adjustXYVelocity_eq_spec r chunk za,
    ?_, ?_⟩
  · unfold ZoomArea.integrate specIntegrate
    rw [adjust_comm, adjustXYVelocity_eq_spec, adjustZoomVelocity_eq_spec]
  · intro h s out hza
    constructor
    · simp only [adjustZoomVelocity, hza, adjustZoomVelocity_eq_spec]
    · simp only [adjustXYVelocity, hza, adjustXYVelocity_eq_spec]

/-- Witness of C20: the engine functions on the engine zooming to 0.5. -/
theorem integrate_refines_spec_witness :
    adjustZoomVelocity host1080 screenHalf 0 (1 / 2) =
      some (screenHalf.setArea 0 (specIntegrateZoom host1080.redrawTime (1 / 2) areaHalf)) ∧
    adjustXYVelocity host1080 screenHalf 0 (1 / 2) =
      some (screenHalf.setArea 0 (specIntegrateXY host1080.redrawTime (1 / 2) areaHalf)) :=
  (integrate_refines_spec 16 (1 / 2) areaHalf).2.2.2 host1080 screenHalf 0 rfl

/-! ## Painting: the sub-steps of `preparePaint` -/

theorem setArea_setArea (s : ZoomScreen) (i : ℕ) (a b : ZoomArea) :
    (s.setArea i a).setArea i b = s.setArea i b := by
  simp only [ZoomScreen.setArea, List.set_set]

theorem setArea_lookup (s : ZoomScreen) (i : ℕ) (a b : ZoomArea)
    (h : s.zooms[i]? = some a) : (s.setArea i b).zooms[i]? = some b := by
  simp only [ZoomScreen.setArea]
  exact getElem?_set_self_of h

/-- `isZoomed` is false exactly at `currentZoom = 1`, `newZoom = 1`,
`zVelocity = 0`. -/
theorem isZoomed_eq_false_iff (s : ZoomScreen) (out : ℕ) (za : ZoomArea)
    (hza : s.zooms[out]? = some za) :
    isZoomed s out = false ↔
      (za.currentZoom = 1 ∧ za.newZoom = 1 ∧ za.zVelocity = 0) := by
  simp only [isZoomed, hza]
  constructor
  · intro h
    split_ifs at h with h1 h2
    · push_neg at h1
      exact ⟨h1.1, h1.2, not_not.1 h2⟩
  · rintro ⟨h1, h2, h3⟩
    have : ¬ (za.currentZoom ≠ 1 ∨ za.newZoom ≠ 1) := by
      push_neg
      exact ⟨h1, h2⟩
    rw [if_neg this, if_neg (by simpa using h3)]

/-- The fields of an area after one sub-step that the bookkeeping of the mask
reads: `newZoom`, `output` and `locked` are as before. -/
theorem integrate_frame (r chunk : ℚ) (za : ZoomArea) :
    (za.integrate r chunk).newZoom = za.newZoom ∧
    (za.integrate r chunk).output = za.output ∧
    (za.integrate r chunk).locked = za.locked := by
  obtain ⟨z1, z2, -, -, -, -, -, -, -, -, z11⟩ :=
    adjustZoomVelocity_frame r chunk (za.adjustXYVelocity r chunk)
  obtain ⟨y1, -, y3, -, -, -, -, -, y9⟩ := adjustXYVelocity_frame r chunk za
  refine ⟨?_, ?_, ?_⟩
  · show ((za.adjustXYVelocity r chunk).adjustZoomVelocity r chunk).newZoom = _
    rw [z2, y3]
  · show ((za.adjustXYVelocity r chunk).adjustZoomVelocity r chunk).output = _
    rw [z1, y1]
  · show ((za.adjustXYVelocity r chunk).adjustZoomVelocity r chunk).locked = _
    rw [z11, y9]

/-- The loop body of `preparePaint` on an area that is skipped. -/
theorem paintArea_skipped (h : Host) (chunk : ℚ) (s : ZoomScreen) (out : ℕ)
    (moving : Bool) (hmv : isInMovement s out = some moving)
    (hskip : moving = false ∨ isActive s out = false) :
    paintArea h chunk s out = some s := by
  simp only [paintArea, hmv]
  rcases hskip with h1 | h1
  · simp only [h1, Bool.not_false, Bool.true_or, if_true]
  · simp only [h1, Bool.not_false, Bool.or_true, if_true]

/-- The loop body of `preparePaint` on an area that is integrated: the area
becomes `za.integrate`; if it is then at `currentZoom = 1`, `newZoom = 1`,
`zVelocity = 0`, its x and y velocities are zeroed and its bit is cleared,
otherwise nothing else changes. -/
theorem paintArea_integrated (h : Host) (chunk : ℚ) (s : ZoomScreen) (out : ℕ)
    (za : ZoomArea) (hza : s.zooms[out]? = some za)
    (hmv : isInMovement s out = some true) (hact : isActive s out = true) :
    paintArea h chunk s out = some
      (if (za.integrate h.redrawTime chunk).currentZoom = 1 ∧
          (za.integrate h.redrawTime chunk).newZoom = 1 ∧
          (za.integrate h.redrawTime chunk).zVelocity = 0 then
        { s with
          zooms := s.zooms.set out (za.integrate h.redrawTime chunk).stopXY
          grabbed := clearBit s.grabbed za.output }
      else s.setArea out (za.integrate h.redrawTime chunk)) := by
  have h1 : adjustXYVelocity h s out chunk =
      some (s.setArea out (za.adjustXYVelocity h.redrawTime chunk)) := by
    simp only [adjustXYVelocity, hza]
  have l1 := setArea_lookup s out za (za.adjustXYVelocity h.redrawTime chunk) hza
  have h2 : adjustZoomVelocity h (s.setArea out (za.adjustXYVelocity h.redrawTime chunk))
      out chunk = some (s.setArea out
        ((za.adjustXYVelocity h.redrawTime chunk).adjustZoomVelocity h.redrawTime chunk)) := by
    simp only [adjustZoomVelocity, l1, setArea_setArea]
  have l2 := setArea_lookup s out za
    ((za.adjustXYVelocity h.redrawTime chunk).adjustZoomVelocity h.redrawTime chunk) hza
  have l3 := setArea_lookup s out za (za.integrate h.redrawTime chunk) hza
  have hz := isZoomed_eq_false_iff (s.setArea out (za.integrate h.redrawTime chunk)) out
    (za.integrate h.redrawTime chunk) l3
  have ho := (integrate_frame h.redrawTime chunk za).2.1
  simp only [paintArea, hmv, hact, Bool.not_true, Bool.or_self, h1, h2, l2,
    setArea_setArea]
  rw [if_neg (by simp)]
  have e3 : (s.setArea out ((za.adjustXYVelocity h.redrawTime chunk).adjustZoomVelocity
      h.redrawTime chunk).updateActualTranslates) =
      s.setArea out (za.integrate h.redrawTime chunk) := rfl
  rw [e3]
  by_cases hrest : (za.integrate h.redrawTime chunk).currentZoom = 1 ∧
      (za.integrate h.redrawTime chunk).newZoom = 1 ∧
      (za.integrate h.redrawTime chunk).zVelocity = 0
  · have hf := hz.2 hrest
    rw [if_pos hrest]
    simp only [hf, Bool.not_false, if_true, l3, setArea_setArea, ho]
    rfl
  · have hf : isZoomed (s.setArea out (za.integrate h.redrawTime chunk)) out = true := by
      cases hb : isZoomed (s.setArea out (za.integrate h.redrawTime chunk)) out with
      | true => rfl
      | false => exact absurd (hz.1 hb) hrest
    rw [if_neg hrest]
    simp only [hf, Bool.not_true]
    rw [if_neg (by simp)]

theorem PaintRel_refl (s : ZoomScreen) : PaintRel s s :=
  ⟨rfl, rfl, rfl, fun _ hj => hj, fun _ hj _ => hj⟩

theorem PaintRel_trans {s1 s2 s3 : ZoomScreen} (h12 : PaintRel s1 s2)
    (h23 : PaintRel s2 s3) : PaintRel s1 s3 := by
  obtain ⟨k1, x1, y1, a1, b1⟩ := h12
  obtain ⟨k2, x2, y2, a2, b2⟩ := h23
  refine ⟨k2.trans k1, x2.trans x1, y2.trans y1, fun j hj => a1 j (a2 j hj), ?_⟩
  intro j hj hk
  apply b2 j (b1 j hj hk)
  rw [k1]
  exact hk

theorem zoomKeys_length (s : ZoomScreen) : (zoomKeys s).length = s.zooms.length := by
  simp only [zoomKeys, List.length_map]

theorem PaintRel_length {s s' : ZoomScreen} (h : PaintRel s s') :
    s'.zooms.length = s.zooms.length := by
  rw [← zoomKeys_length, ← zoomKeys_length, h.1]

/-- Replacing an area by one with the same output id and target zoom keeps the
keys. -/
theorem zoomKeys_set (l : List ZoomArea) (i : ℕ) (a b : ZoomArea)
    (ha : l[i]? = some a) (ho : b.output = a.output) (hn : b.newZoom = a.newZoom) :
    (l.set i b).map (fun a => (a.output, a.newZoom)) =
      l.map (fun a => (a.output, a.newZoom)) := by
  apply List.ext_getElem?
  intro n
  simp only [List.getElem?_map, List.getElem?_set]
  by_cases hin : i = n
  · subst hin
    simp only [if_true, getElem?_lt ha, ha, Option.map_some', ho, hn]
  · simp only [hin, if_false]

/-- The loop body of `preparePaint` returns for every output that has an area,
and respects `PaintRel`. -/
theorem paintArea_rel (h : Host) (chunk : ℚ) (s : ZoomScreen) (out : ℕ)
    (hout : out < s.zooms.length) :
    ∃ s', paintArea h chunk s out = some s' ∧ PaintRel s s' := by
  obtain ⟨za, hza⟩ : ∃ za, s.zooms[out]? = some za :=
    ⟨s.zooms[out], List.getElem?_eq_getElem hout⟩
  obtain ⟨moving, hmv⟩ : ∃ b, isInMovement s out = some b := by
    simp only [isInMovement, hza]
    split_ifs <;> exact ⟨_, rfl⟩
  by_cases hskip : moving = false ∨ isActive s out = false
  · exact ⟨s, paintArea_skipped h chunk s out moving hmv hskip, PaintRel_refl s⟩
  · push_neg at hskip
    have hm : moving = true := by simpa using hskip.1
    have hact : isActive s out = true := by simpa using hskip.2
    subst hm
    obtain ⟨fn, fo, -⟩ := integrate_frame h.redrawTime chunk za
    refine ⟨_, paintArea_integrated h chunk s out za hza hmv hact, ?_⟩
    by_cases hrest : (za.integrate h.redrawTime chunk).currentZoom = 1 ∧
        (za.integrate h.redrawTime chunk).newZoom = 1 ∧
        (za.integrate h.redrawTime chunk).zVelocity = 0
    · rw [if_pos hrest]
      refine ⟨?_, rfl, rfl, ?_, ?_⟩
      · exact zoomKeys_set s.zooms out za _ hza fo fn
      · intro j hj
        have := hj
        simp only [testBit_clearBit_mask, Bool.and_eq_true] at this
        exact this.1
      · intro j hj hk
        have hm : (outputMask za.output).testBit j = false := by
          cases hb : (outputMask za.output).testBit j with
          | false => rfl
          | true =>
            exfalso
            have hmem : (za.output, za.newZoom) ∈ zoomKeys s := by
              simp only [zoomKeys, List.mem_map]
              exact ⟨za, List.mem_iff_getElem?.2 ⟨out, hza⟩, rfl⟩
            apply hk _ hmem hb
            show za.newZoom = 1
            rw [← fn]
            exact hrest.2.1
        show (clearBit s.grabbed za.output).testBit j = true
        rw [testBit_clearBit_mask, hj, hm]
        rfl
    · rw [if_neg hrest]
      refine ⟨?_, rfl, rfl, fun _ hj => hj, fun _ hj _ => hj⟩
      exact zoomKeys_set s.zooms out za _ hza fo fn

theorem paintOutputsFrom_rel (h : Host) (chunk : ℚ) (l : List ℕ) :
    ∀ s : ZoomScreen, (∀ out ∈ l, out < s.zooms.length) →
      ∃ s', paintOutputsFrom h chunk l s = some s' ∧ PaintRel s s' := by
  induction l with
  | nil =>
    intro s _
    exact ⟨s, rfl, PaintRel_refl s⟩
  | cons out rest ih =>
    intro s hl
    obtain ⟨s1, h1, r1⟩ := paintArea_rel h chunk s out (hl out (List.mem_cons_self _ _))
    have hlen := PaintRel_length r1
    obtain ⟨s2, h2, r2⟩ := ih s1 (fun o ho => by
      rw [hlen]
      exact hl o (List.mem_cons_of_mem _ ho))
    refine ⟨s2, ?_, PaintRel_trans r1 r2⟩
    simp only [paintOutputsFrom, h1]
    exact h2

theorem paintSteps_rel (h : Host) (chunk : ℚ) (n : ℕ) :
    ∀ s : ZoomScreen, ∃ s', paintSteps h chunk n s = some s' ∧ PaintRel s s' := by
  induction n with
  | zero =>
    intro s
    exact ⟨s, rfl, PaintRel_refl s⟩
  | succ n ih =>
    intro s
    obtain ⟨s1, h1, r1⟩ := paintOutputsFrom_rel h chunk (List.range s.zooms.length) s
      (fun o ho => List.mem_range.1 ho)
    obtain ⟨s2, h2, r2⟩ := ih s1
    refine ⟨s2, ?_, PaintRel_trans r1 r2⟩
    simp only [paintSteps, paintOutputs, h1]
    exact h2

/-- `syncCenterToMouse` returns when the output of the mouse position exists; it
touches neither the areas nor the mask. -/
theorem syncCenterToMouse_frame (h : Host) (s : ZoomScreen) (o : CompOutput)
    (ho : h.outputDevs[h.outputDeviceForPoint s.mouseX s.mouseY]? = some o)
    (hlen : h.outputDeviceForPoint s.mouseX s.mouseY < s.zooms.length) :
    ∃ s', syncCenterToMouse h s = some s' ∧ s'.zooms = s.zooms ∧
      s'.grabbed = s.grabbed := by
  obtain ⟨za, hza⟩ : ∃ za, s.zooms[h.outputDeviceForPoint s.mouseX s.mouseY]? = some za :=
    ⟨s.zooms[h.outputDeviceForPoint s.mouseX s.mouseY], List.getElem?_eq_getElem hlen⟩
  obtain ⟨moving, hmv⟩ : ∃ b,
      isInMovement s (h.outputDeviceForPoint s.mouseX s.mouseY) = some b := by
    simp only [isInMovement, hza]
    split_ifs <;> exact ⟨_, rfl⟩
  simp only [syncCenterToMouse, ho, hmv, hza]
  split_ifs <;> exact ⟨_, rfl, rfl, rfl⟩

theorem truncQ_nonneg {q : ℚ} (hq : 0 ≤ q) : 0 ≤ truncQ q := by
  unfold truncQ
  rw [if_pos hq]
  exact Int.floor_nonneg.2 hq

/-- For a non-negative time, speed and timestep the `float` quotient of
`preparePaint` is non-negative, so its conversion to `int` is its floor and the
step count is at least 1. -/
theorem paintStepCount_eq (h : Host) (ms : ℤ) (hms : 0 ≤ ms) (hsp : 0 ≤ h.speed)
    (hts : 0 ≤ h.timestep) :
    paintStepCount h ms =
      max 1 ⌊f32 (paintAmount h ms / f32 (1 / 2 * f32 h.timestep))⌋ ∧
    1 ≤ paintStepCount h ms ∧ 0 ≤ paintAmount h ms := by
  have hamount : (0 : ℚ) ≤ paintAmount h ms := by
    have h1 : (0 : ℚ) ≤ f32 (ms : ℚ) := f32_nonneg _ (by exact_mod_cast hms)
    have h2 : (0 : ℚ) ≤ f32 (5 / 100) := f32_nonneg _ (by norm_num)
    have h3 : (0 : ℚ) ≤ f32 h.speed := f32_nonneg _ hsp
    unfold paintAmount
    exact f32_nonneg _ (mul_nonneg (f32_nonneg _ (mul_nonneg h1 h2)) h3)
  have hdiv : (0 : ℚ) ≤ f32 (1 / 2 * f32 h.timestep) :=
    f32_nonneg _ (mul_nonneg (by norm_num) (f32_nonneg _ hts))
  have hq : (0 : ℚ) ≤ f32 (paintAmount h ms / f32 (1 / 2 * f32 h.timestep)) :=
    f32_nonneg _ (div_nonneg hamount hdiv)
  have hf : 0 ≤ ⌊f32 (paintAmount h ms / f32 (1 / 2 * f32 h.timestep))⌋ :=
    Int.floor_nonneg.2 hq
  have ht : truncQ (f32 (paintAmount h ms / f32 (1 / 2 * f32 h.timestep))) =
      ⌊f32 (paintAmount h ms / f32 (1 / 2 * f32 h.timestep))⌋ := by
    unfold truncQ
    rw [if_pos hq]
  unfold paintStepCount
  simp only [ht]
  generalize ⌊f32 (paintAmount h ms / f32 (1 / 2 * f32 h.timestep))⌋ = k at hf ⊢
  by_cases hk : k = 0
  · rw [if_pos hk, hk]
    exact ⟨rfl, le_refl _, hamount⟩
  · rw [if_neg hk]
    have h1 : 1 ≤ k := by omega
    exact ⟨(max_eq_right h1).symm, h1, hamount⟩

/-- The body of `preparePaint` when the mask is non-zero and the step count is
not negative. -/
theorem preparePaint_eq (h : Host) (s : ZoomScreen) (ms : ℤ) (hg : s.grabbed ≠ 0)
    (hst : ¬ paintStepCount h ms < 0) :
    preparePaint h s ms =
      match paintSteps h (paintChunk h ms) (paintStepCount h ms).toNat s with
      | none => none
      | some s' => if h.syncMouse then syncCenterToMouse h s' else some s' := by
  unfold preparePaint
  simp only []
  rw [if_pos hg, if_neg hst]

/-- `preparePaint` returns for a non-negative time, speed and timestep (and, in
sync-mouse mode, a mouse position on an output that has an area); output ids and
target zooms stay, bits of the mask are only cleared, and the bit `j` is kept
when every area whose `outputMask` holds the bit `j` has `newZoom ≠ 1`. -/
theorem preparePaint_rel (h : Host) (s : ZoomScreen) (ms : ℤ) (hms : 0 ≤ ms)
    (hsp : 0 ≤ h.speed) (hts : 0 < h.timestep)
    (hsync : h.syncMouse = true →
      ∃ o, h.outputDevs[h.outputDeviceForPoint s.mouseX s.mouseY]? = some o ∧
        h.outputDeviceForPoint s.mouseX s.mouseY < s.zooms.length) :
    ∃ s', preparePaint h s ms = some s' ∧ zoomKeys s' = zoomKeys s ∧
      (∀ j : ℕ, s'.grabbed.testBit j = true → s.grabbed.testBit j = true) ∧
      (∀ j : ℕ, s.grabbed.testBit j = true →
        (∀ p ∈ zoomKeys s, (outputMask p.1).testBit j = true → p.2 ≠ 1) →
        s'.grabbed.testBit j = true) := by
  by_cases hg : s.grabbed ≠ 0
  · obtain ⟨-, hpos, -⟩ := paintStepCount_eq h ms hms hsp (le_of_lt hts)
    rw [preparePaint_eq h s ms hg (by omega)]
    obtain ⟨s1, h1, r1⟩ := paintSteps_rel h (paintChunk h ms) (paintStepCount h ms).toNat s
    rw [h1]
    obtain ⟨k1, x1, y1, a1, b1⟩ := r1
    by_cases hs : h.syncMouse = true
    · obtain ⟨o, ho, hlen⟩ := hsync hs
      have hlen1 : h.outputDeviceForPoint s1.mouseX s1.mouseY < s1.zooms.length := by
        rw [x1, y1, PaintRel_length ⟨k1, x1, y1, a1, b1⟩]
        exact hlen
      have ho1 : h.outputDevs[h.outputDeviceForPoint s1.mouseX s1.mouseY]? = some o := by
        rw [x1, y1]
        exact ho
      obtain ⟨s2, h2, z2, g2⟩ := syncCenterToMouse_frame h s1 o ho1 hlen1
      refine ⟨s2, ?_, ?_, ?_, ?_⟩
      · show (if h.syncMouse = true then syncCenterToMouse h s1 else some s1) = some s2
        rw [if_pos hs, h2]
      · simp only [zoomKeys, z2]
        exact k1
      · intro j hj
        rw [g2] at hj
        exact a1 j hj
      · intro j hj hk
        rw [g2]
        exact b1 j hj hk
    · refine ⟨s1, ?_, k1, a1, b1⟩
      show (if h.syncMouse = true then syncCenterToMouse h s1 else some s1) = some s1
      rw [if_neg hs]
  · refine ⟨s, ?_, rfl, fun _ hj => hj, fun _ hj _ => hj⟩
    unfold preparePaint
    rw [if_neg hg]

/-- Ungrab on rest, one sub-step. An area that is integrated (it is in movement
and active) becomes `za.integrate`. Exactly when the integrated area has
`currentZoom = 1`, `newZoom = 1` and `zVelocity = 0`, its x and y velocities are
set to 0 and the bits of `outputMask` of its output id are cleared from the
grabbed mask, all other bits staying; for an output id below 31 that is the bit
of the output alone. Otherwise the mask is unchanged. No other area changes. -/
theorem paintArea_ungrab (h : Host) (s : ZoomScreen) (chunk : ℚ) (out : ℕ)
    (za : ZoomArea) (hza : s.zooms[out]? = some za)
    (hmv : isInMovement s out = some true) (hact : isActive s out = true) :
    ∃ s', paintArea h chunk s out = some s' ∧
      (∀ j : ℕ, j ≠ out → s'.zooms[j]? = s.zooms[j]?) ∧
      (((za.integrate h.redrawTime chunk).currentZoom = 1 ∧
          (za.integrate h.redrawTime chunk).newZoom = 1 ∧
          (za.integrate h.redrawTime chunk).zVelocity = 0) →
        (∃ a', s'.zooms[out]? = some a' ∧ a'.xVelocity = 0 ∧ a'.yVelocity = 0 ∧
          a'.currentZoom = 1 ∧ a'.newZoom = 1 ∧ a'.zVelocity = 0 ∧
          a'.output = za.output ∧
          a'.xTranslate = (za.integrate h.redrawTime chunk).xTranslate ∧
          a'.yTranslate = (za.integrate h.redrawTime chunk).yTranslate ∧
          a'.realXTranslate = (za.integrate h.redrawTime chunk).realXTranslate ∧
          a'.realYTranslate = (za.integrate h.redrawTime chunk).realYTranslate) ∧
        (∀ j : ℕ, s'.grabbed.testBit j =
          (s.grabbed.testBit j && !(outputMask za.output).testBit j)) ∧
        (za.output < 31 → s'.grabbed.testBit za.output = false ∧
          ∀ j : ℕ, j ≠ za.output → s'.grabbed.testBit j = s.grabbed.testBit j)) ∧
      (¬ ((za.integrate h.redrawTime chunk).currentZoom = 1 ∧
          (za.integrate h.redrawTime chunk).newZoom = 1 ∧
          (za.integrate h.redrawTime chunk).zVelocity = 0) →
        s'.zooms[out]? = some (za.integrate h.redrawTime chunk) ∧
        s'.grabbed = s.grabbed) := by
  refine ⟨_, paintArea_integrated h chunk s out za hza hmv hact, ?_, ?_, ?_⟩
  · intro j hj
    split_ifs
    · exact getElem?_set_other (Ne.symm hj)
    · exact getElem?_set_other (Ne.symm hj)
  · intro hrest
    rw [if_pos hrest]
    refine ⟨⟨(za.integrate h.redrawTime chunk).stopXY, getElem?_set_self_of hza, rfl, rfl,
      hrest.1, hrest.2.1, hrest.2.2, (integrate_frame h.redrawTime chunk za).2.1,
      rfl, rfl, rfl, rfl⟩, ?_, ?_⟩
    · intro j
      exact testBit_clearBit_mask s.grabbed za.output j
    · intro hk
      refine ⟨?_, ?_⟩
      · show (clearBit s.grabbed za.output).testBit za.output = false
        simp only [testBit_clearBit _ _ _ hk, decide_True, Bool.not_true, Bool.and_false]
      · intro j hj
        show (clearBit s.grabbed za.output).testBit j = s.grabbed.testBit j
        simp only [testBit_clearBit _ _ _ hk, hj, decide_False, Bool.not_false,
          Bool.and_true]
  · intro hrest
    rw [if_neg hrest]
    exact ⟨setArea_lookup s out za _ hza, rfl⟩

/-! ## `preparePaint` on areas at rest -/

theorem paintOutputsFrom_rest (h : Host) (chunk : ℚ) (s : ZoomScreen) (l : List ℕ)
    (hr : ∀ out ∈ l, isInMovement s out = some false) :
    paintOutputsFrom h chunk l s = some s := by
  induction l with
  | nil => rfl
  | cons out rest ih =>
    have h1 : paintArea h chunk s out = some s :=
      paintArea_skipped h chunk s out false (hr out (List.mem_cons_self _ _)) (Or.inl rfl)
    simp only [paintOutputsFrom, h1]
    exact ih (fun o ho => hr o (List.mem_cons_of_mem _ ho))

theorem paintSteps_rest (h : Host) (chunk : ℚ) (s : ZoomScreen) (n : ℕ)
    (hr : ∀ out : ℕ, out < s.zooms.length → isInMovement s out = some false) :
    paintSteps h chunk n s = some s := by
  induction n with
  | zero => rfl
  | succ n ih =>
    have h1 : paintOutputs h chunk s = some s :=
      paintOutputsFrom_rest h chunk s _ (fun o ho => hr o (List.mem_range.1 ho))
    simp only [paintSteps, h1]
    exact ih

theorem syncCenterToMouse_rest (h : Host) (s : ZoomScreen) (o : CompOutput)
    (ho : h.outputDevs[h.outputDeviceForPoint s.mouseX s.mouseY]? = some o)
    (hr : isInMovement s (h.outputDeviceForPoint s.mouseX s.mouseY) = some false) :
    syncCenterToMouse h s = some s := by
  cases hza : s.zooms[h.outputDeviceForPoint s.mouseX s.mouseY]? with
  | none =>
    simp only [isInMovement, hza] at hr
    exact absurd hr (by simp)
  | some za =>
    simp only [syncCenterToMouse, ho, hr, hza]
    rfl

/-- When no area is in movement, `preparePaint` changes nothing: the loop skips
every area, also one that rests unzoomed with its bit set. -/
theorem preparePaint_rest (h : Host) (s : ZoomScreen) (ms : ℤ) (hms : 0 ≤ ms)
    (hsp : 0 ≤ h.speed) (hts : 0 < h.timestep)
    (hr : ∀ out : ℕ, out < s.zooms.length → isInMovement s out = some false)
    (hsync : h.syncMouse = true →
      ∃ o, h.outputDevs[h.outputDeviceForPoint s.mouseX s.mouseY]? = some o ∧
        h.outputDeviceForPoint s.mouseX s.mouseY < s.zooms.length) :
    preparePaint h s ms = some s := by
  by_cases hg : s.grabbed ≠ 0
  · obtain ⟨-, hpos, -⟩ := paintStepCount_eq h ms hms hsp (le_of_lt hts)
    rw [preparePaint_eq h s ms hg (by omega), paintSteps_rest h _ s _ hr]
    by_cases hs : h.syncMouse = true
    · obtain ⟨o, ho, hlen⟩ := hsync hs
      show (if h.syncMouse = true then syncCenterToMouse h s else some s) = some s
      rw [if_pos hs, syncCenterToMouse_rest h s o ho (hr _ hlen)]
    · show (if h.syncMouse = true then syncCenterToMouse h s else some s) = some s
      rw [if_neg hs]
  · unfold preparePaint
    rw [if_neg hg]

theorem setScale_half_fresh :
    setScale host1080 screenFresh 0 (1 / 2) =
      some { screenFresh with zooms := [areaHalf], grabbed := 1, pollActive := true } := by
  rw [setScale_unlocked host1080 screenFresh 0 (1 / 2) (ZoomArea.init 0) rfl rfl]
  norm_num [setScaleResult, setScaleArea, host1080, screenFresh, areaHalf, ZoomArea.init,
    ZoomArea.updateActualTranslates, outputMask_zero]

theorem setScale_one_half :
    setScale host1080
      { screenFresh with zooms := [areaHalf], grabbed := 1, pollActive := true } 0 1 =
      some screenStale := by
  rw [setScale_unlocked host1080
    { screenFresh with zooms := [areaHalf], grabbed := 1, pollActive := true } 0 1 areaHalf
    rfl rfl]
  norm_num [setScaleResult, setScaleArea, host1080, screenFresh, areaHalf, ZoomArea.init,
    ZoomArea.updateActualTranslates, screenStale]

theorem isInMovement_stale (out : ℕ) (hout : out < screenStale.zooms.length) :
    isInMovement screenStale out = some false := by
  have h0 : out = 0 := by
    simp only [screenStale, List.length_singleton] at hout
    omega
  subst h0
  have hz : screenStale.zooms[0]? = some (ZoomArea.init 0) := rfl
  simp only [isInMovement, hz]
  norm_num [ZoomArea.init, ZoomArea.updateActualTranslates]

/-- C18 (failing input). From the freshly constructed engine on one 1920x1080
output (minimumZoom 1/8), `setScale (0, 0.5)`, `setScale (0, 1)`, then
`preparePaint (16)`: the call returns, the area of output 0 is at
`currentZoom = 1`, `newZoom = 1`, `zVelocity = 0` (`isZoomed` is false), and bit
0 of the grabbed mask is still set (`isActive` is true). The loop of
`preparePaint` leaves the area at `!isInMovement` before it reaches the test
`!isZoomed` that clears the bit. -/
theorem preparePaint_keeps_stale_grab :
    ∃ s za, runOps host1080 [Op.setScale 0 (1 / 2), Op.setScale 0 1, Op.preparePaint 16]
        (ZoomScreen.construct host1080) = some s ∧
      s.zooms[0]? = some za ∧ za.currentZoom = 1 ∧ za.newZoom = 1 ∧ za.zVelocity = 0 ∧
      isZoomed s 0 = false ∧ s.grabbed.testBit 0 = true ∧ isActive s 0 = true := by
  have hp : preparePaint host1080 screenStale 16 = some screenStale :=
    preparePaint_rest host1080 screenStale 16 (by norm_num) (by norm_num [host1080])
      (by norm_num [host1080]) isInMovement_stale (fun _ => ⟨output1080, rfl, by decide⟩)
  refine ⟨screenStale, ZoomArea.init 0, ?_, rfl, rfl, rfl, rfl, ?_, by decide, by decide⟩
  · rw [construct_host1080]
    simp only [runOps, Op.apply, setScale_half_fresh, setScale_one_half, hp]
  · have hz : screenStale.zooms[0]? = some (ZoomArea.init 0) := rfl
    simp only [isZoomed, hz]
    norm_num [ZoomArea.init, ZoomArea.updateActualTranslates]

/-! ## The at-rest predicate -/

/-- C21 (at-rest predicate). For every area, `isInMovement (out)` returns, and
it returns false if and only if `currentZoom = 1`, `newZoom = 1` and
`zVelocity = 0`, or `currentZoom = newZoom`, both real translations equal their
targets and the three velocities are 0. -/
theorem isInMovement_false_iff (s : ZoomScreen) (out : ℕ) (za : ZoomArea)
    (hza : s.zooms[out]? = some za) :
    (∃ b, isInMovement s out = some b) ∧
    (isInMovement s out = some false ↔
      (za.currentZoom = 1 ∧ za.newZoom = 1 ∧ za.zVelocity = 0) ∨
      (za.currentZoom = za.newZoom ∧ za.realXTranslate = za.xTranslate ∧
        za.realYTranslate = za.yTranslate ∧
        za.xVelocity = 0 ∧ za.yVelocity = 0 ∧ za.zVelocity = 0)) := by
  simp only [isInMovement, hza]
  split_ifs with a b c
  · exact ⟨⟨_, rfl⟩, fun _ => Or.inl a, fun _ => rfl⟩
  · refine ⟨⟨_, rfl⟩, fun hf => ?_, fun hr => ?_⟩
    · exact absurd hf (by simp)
    · exfalso
      rcases hr with hr | ⟨h1, -, -, h4, h5, h6⟩
      · exact a hr
      · rcases b with b | b | b | b
        · exact b h1
        · exact b h4
        · exact b h5
        · exact b h6
  · refine ⟨⟨_, rfl⟩, fun hf => ?_, fun hr => ?_⟩
    · exact absurd hf (by simp)
    · exfalso
      rcases hr with hr | ⟨-, h2, h3, -, -, -⟩
      · exact a hr
      · rcases c with c | c
        · exact c h2.symm
        · exact c h3.symm
  · refine ⟨⟨_, rfl⟩, fun _ => Or.inr ?_, fun _ => rfl⟩
    simp only [not_or, not_not] at b c
    exact ⟨b.1, c.1.symm, c.2.symm, b.2.1, b.2.2.1, b.2.2.2⟩

/-- Witness of C21: the area of the engine zooming to 0.5 is in movement. -/
theorem isInMovement_false_iff_witness :
    (∃ b, isInMovement screenHalf 0 = some b) ∧
    (isInMovement screenHalf 0 = some false ↔
      (areaHalf.currentZoom = 1 ∧ areaHalf.newZoom = 1 ∧ areaHalf.zVelocity = 0) ∨
      (areaHalf.currentZoom = areaHalf.newZoom ∧
        areaHalf.realXTranslate = areaHalf.xTranslate ∧
        areaHalf.realYTranslate = areaHalf.yTranslate ∧
        areaHalf.xVelocity = 0 ∧ areaHalf.yVelocity = 0 ∧ areaHalf.zVelocity = 0)) :=
  isInMovement_false_iff screenHalf 0 areaHalf rfl

/-! ## Sub-stepping of `preparePaint` -/

theorem iterate_bind_none {α : Type} (f : α → Option α) (n : ℕ) :
    (fun o : Option α => o.bind f)^[n] none = none := by
  induction n with
  | zero => rfl
  | succ n ih => rw [Function.iterate_succ_apply]; exact ih

/-- The loop `while (steps--)` runs the loop over the outputs `n` times. -/
theorem paintSteps_eq_iterate (h : Host) (c : ℚ) (n : ℕ) (s : ZoomScreen) :
    paintSteps h c n s = (fun o : Option ZoomScreen => o.bind (paintOutputs h c))^[n] (some s) := by
  induction n generalizing s with
  | zero => rfl
  | succ n ih =>
    rw [Function.iterate_succ_apply]
    show (match paintOutputs h c s with
      | none => none
      | some s' => paintSteps h c n s') = _
    cases hp : paintOutputs h c s with
    | none =>
      simp only [Option.some_bind, hp]
      exact (iterate_bind_none _ n).symm
    | some s1 =>
      simp only [Option.some_bind, hp]
      exact ih s1

/-! ## Single-precision values at concrete inputs -/

/-- The constant `0.05f`. -/
theorem f32_twentieth : f32 (5 / 100) = 13421773 / 268435456 := by
  rw [f32_eval (5 / 100) (-5) 13421773 (by norm_num) (by norm_num) (by norm_num)
    (by norm_num [abs_lt])]
  norm_num

/-- The timestep `1.2` read as a `float`. -/
theorem f32_six_fifths : f32 (6 / 5) = 5033165 / 4194304 := by
  rw [f32_eval (6 / 5) 0 10066330 (by norm_num) (by norm_num) (by norm_num)
    (by norm_num [abs_lt])]
  norm_num

/-- With speed 2 and timestep 2 a frame of 16 ms has `amount = 1.6000000238`,
one sub-step and a chunk equal to the amount. -/
theorem paint_hostSlow_16 :
    paintAmount hostSlow 16 = 13421773 / 8388608 ∧
    paintStepCount hostSlow 16 = 1 ∧ paintChunk hostSlow 16 = 13421773 / 8388608 := by
  have h16 : f32 ((16 : ℤ) : ℚ) = 16 := by
    have := f32_intCast 16 (by norm_num) (by norm_num)
    simpa using this
  have h2 : f32 hostSlow.speed = 2 := by
    have := f32_intCast 2 (by norm_num) (by norm_num)
    simpa [hostSlow] using this
  have h2' : f32 hostSlow.timestep = 2 := h2
  have h1 : f32 ((1 : ℤ) : ℚ) = 1 := by
    have := f32_intCast 1 (by norm_num) (by norm_num)
    simpa using this
  have ha1 : f32 (16 * (13421773 / 268435456)) = 13421773 / 16777216 :=
    (f32_exact _ (-1) 13421773 (by norm_num) (by norm_num) (by norm_num)
      (by norm_num)).trans (by norm_num)
  have ha2 : f32 (13421773 / 16777216 * 2) = 13421773 / 8388608 :=
    (f32_exact _ 0 13421773 (by norm_num) (by norm_num) (by norm_num)
      (by norm_num)).trans (by norm_num)
  have hA : paintAmount hostSlow 16 = 13421773 / 8388608 := by
    unfold paintAmount
    rw [h16, f32_twentieth, ha1, h2, ha2]
  have hd : f32 (1 / 2 * f32 hostSlow.timestep) = 1 := by
    rw [h2']
    have : (1 / 2 * 2 : ℚ) = ((1 : ℤ) : ℚ) := by norm_num
    rw [this, h1]
  have hq : f32 (13421773 / 8388608 / 1) = 13421773 / 8388608 :=
    (f32_exact _ 0 13421773 (by norm_num) (by norm_num) (by norm_num)
      (by norm_num)).trans (by norm_num)
  have hS : paintStepCount hostSlow 16 = 1 := by
    unfold paintStepCount
    rw [hA, hd, hq]
    have : truncQ (13421773 / 8388608 : ℚ) = 1 :=
      truncQ_eq_of_nonneg (by norm_num) (by norm_num) (by norm_num)
    rw [this]
    rfl
  refine ⟨hA, hS, ?_⟩
  unfold paintChunk
  rw [hA, hS, h1]
  exact hq

/-- With the default speed 25 and timestep 1.2 a frame of 60 ms has
`amount = 75`; the `float` quotient by `0.5f * 1.2f` is `124.99999`, so 124
sub-steps are run, each with the chunk `0.60483873`. -/
theorem paint_host1080_60 :
    paintAmount host1080 60 = 75 ∧
    f32 (paintAmount host1080 60 / f32 (1 / 2 * f32 host1080.timestep)) =
      16383999 / 131072 ∧
    paintStepCount host1080 60 = 124 ∧ paintChunk host1080 60 = 5073755 / 8388608 := by
  have h60 : f32 ((60 : ℤ) : ℚ) = 60 := by
    have := f32_intCast 60 (by norm_num) (by norm_num)
    simpa using this
  have h25 : f32 host1080.speed = 25 := by
    have := f32_intCast 25 (by norm_num) (by norm_num)
    simpa [host1080] using this
  have h124 : f32 ((124 : ℤ) : ℚ) = 124 := by
    have := f32_intCast 124 (by norm_num) (by norm_num)
    simpa using this
  have ha1 : f32 (60 * (13421773 / 268435456)) = 3 := by
    rw [f32_eval _ 1 12582912 (by norm_num) (by norm_num) (by norm_num)
      (by norm_num [abs_lt])]
    norm_num
  have ha2 : f32 (3 * 25) = 75 := by
    have := f32_intCast 75 (by norm_num) (by norm_num)
    have e : ((75 : ℤ) : ℚ) = 3 * 25 := by norm_num
    rw [e] at this
    rw [this]
    norm_num
  have hA : paintAmount host1080 60 = 75 := by
    unfold paintAmount
    rw [h60, f32_twentieth, ha1, h25, ha2]
  have ht : f32 host1080.timestep = 5033165 / 4194304 := f32_six_fifths
  have hd : f32 (1 / 2 * f32 host1080.timestep) = 5033165 / 8388608 := by
    rw [ht]
    exact (f32_exact _ (-1) 10066330 (by norm_num) (by norm_num) (by norm_num)
      (by norm_num)).trans (by norm_num)
  have hq : f32 (75 / (5033165 / 8388608)) = 16383999 / 131072 := by
    rw [f32_eval _ 6 16383999 (by norm_num) (by norm_num) (by norm_num)
      (by norm_num [abs_lt])]
    norm_num
  have hS : paintStepCount host1080 60 = 124 := by
    unfold paintStepCount
    rw [hA, hd, hq]
    have : truncQ (16383999 / 131072 : ℚ) = 124 :=
      truncQ_eq_of_nonneg (by norm_num) (by norm_num) (by norm_num)
    rw [this]
    rfl
  refine ⟨hA, ?_, hS, ?_⟩
  · rw [hA, hd, hq]
  · unfold paintChunk
    rw [hA, hS, h124]
    rw [f32_eval _ (-1) 10147510 (by norm_num) (by norm_num) (by norm_num)
      (by norm_num [abs_lt])]
    norm_num

/-- C22 at a counterexample. With speed 2 and timestep 2 a frame of 16 ms has
the `float` quotient `1.6000000238`: the conversion to `int` gives one sub-step,
where rounding gives 2. With the default speed 25 and timestep 1.2 a frame of
60 ms has the `float` quotient `124.99999`: 124 sub-steps are run, where the
formula of the specification gives 125. -/
theorem preparePaint_truncates_steps :
    paintStepCount hostSlow 16 = 1 ∧ specStepsCount hostSlow 16 = 2 ∧
    paintStepCount hostSlow 16 ≠ specStepsCount hostSlow 16 ∧
    paintStepCount host1080 60 = 124 ∧ specStepsCount host1080 60 = 125 ∧
    paintStepCount host1080 60 ≠ specStepsCount host1080 60 := by
  have hs : paintStepCount hostSlow 16 = 1 := paint_hostSlow_16.2.1
  have hr : specStepsCount hostSlow 16 = 2 := by
    have e : ((16 : ℤ) : ℚ) * (5 / 100) * hostSlow.speed / (1 / 2 * hostSlow.timestep) =
        8 / 5 := by
      norm_num [hostSlow, host1080]
    have r : round (8 / 5 : ℚ) = 2 := by
      rw [round_eq]
      exact Int.floor_eq_iff.2 ⟨by norm_num, by norm_num⟩
    unfold specStepsCount
    rw [e, r]
    rfl
  have hs2 : paintStepCount host1080 60 = 124 := paint_host1080_60.2.2.1
  have hr2 : specStepsCount host1080 60 = 125 := by
    have e : ((60 : ℤ) : ℚ) * (5 / 100) * host1080.speed / (1 / 2 * host1080.timestep) =
        125 := by
      norm_num [host1080]
    have r : round (125 : ℚ) = 125 := by
      rw [round_eq]
      exact Int.floor_eq_iff.2 ⟨by norm_num, by norm_num⟩
    unfold specStepsCount
    rw [e, r]
    rfl
  refine ⟨hs, hr, ?_, hs2, hr2, ?_⟩
  · rw [hs, hr]
    norm_num
  · rw [hs2, hr2]
    norm_num

/-- C22 as amended (sub-stepping of `preparePaint`). For
`msSinceLastPaint ≥ 0`, `speed > 0` and `timestep > 0`, with `amount` the
`float` value of `msSinceLastPaint * 0.05f * speed`: the step count is
`max (1, floor q)` with `q` the `float` quotient `amount / (0.5f * timestep)`,
which the conversion to `int` truncates; the chunk is the `float` quotient
`amount / stepsCount`; for a step count below `2^24`,
`stepsCount * chunk` differs from `amount` by at most
`2^-24 * amount + stepsCount * 2^-150`, the rounding of that division; with a
non-zero grabbed mask `preparePaint` runs the loop over the outputs `stepsCount`
times, each time with `chunk`, and with a zero mask it does nothing. -/
theorem preparePaint_substeps (h : Host) (s : ZoomScreen) (ms : ℤ) (hms : 0 ≤ ms)
    (hsp : 0 < h.speed) (hts : 0 < h.timestep) :
    paintStepCount h ms =
      max 1 ⌊f32 (paintAmount h ms / f32 (1 / 2 * f32 h.timestep))⌋ ∧
    paintChunk h ms = f32 (paintAmount h ms / f32 (paintStepCount h ms : ℚ)) ∧
    (paintStepCount h ms < 2 ^ 24 →
      |(paintStepCount h ms : ℚ) * paintChunk h ms - paintAmount h ms| ≤
        (2 : ℚ) ^ (-24 : ℤ) * paintAmount h ms +
          (paintStepCount h ms : ℚ) * (2 : ℚ) ^ (-150 : ℤ)) ∧
    (s.grabbed ≠ 0 →
      preparePaint h s ms =
        match (fun o : Option ZoomScreen => o.bind (paintOutputs h (paintChunk h ms)))^[
            (paintStepCount h ms).toNat] (some s) with
        | none => none
        | some s' => if h.syncMouse then syncCenterToMouse h s' else some s') ∧
    (s.grabbed = 0 → preparePaint h s ms = some s) := by
  obtain ⟨h1, h2, h3⟩ := paintStepCount_eq h ms hms (le_of_lt hsp) (le_of_lt hts)
  refine ⟨h1, rfl, ?_, ?_, ?_⟩
  · intro hlt
    have hsf : f32 (paintStepCount h ms : ℚ) = (paintStepCount h ms : ℚ) :=
      f32_intCast _ h2 hlt
    have hpos : (0 : ℚ) < (paintStepCount h ms : ℚ) := by
      exact_mod_cast (by omega : 0 < paintStepCount h ms)
    have herr := f32_error (paintAmount h ms / (paintStepCount h ms : ℚ))
    have hx : |paintAmount h ms / (paintStepCount h ms : ℚ)| =
        paintAmount h ms / (paintStepCount h ms : ℚ) :=
      abs_of_nonneg (div_nonneg h3 (le_of_lt hpos))
    rw [hx] at herr
    unfold paintChunk
    rw [hsf]
    have key : (paintStepCount h ms : ℚ) *
        f32 (paintAmount h ms / (paintStepCount h ms : ℚ)) - paintAmount h ms =
        (paintStepCount h ms : ℚ) * (f32 (paintAmount h ms / (paintStepCount h ms : ℚ)) -
          paintAmount h ms / (paintStepCount h ms : ℚ)) := by
      field_simp
      ring
    rw [key, abs_mul, abs_of_pos hpos]
    have := mul_le_mul_of_nonneg_left herr (le_of_lt hpos)
    refine le_trans this (le_of_eq ?_)
    field_simp
    ring
  · intro hg
    rw [preparePaint_eq h s ms hg (by omega), paintSteps_eq_iterate]
  · intro hg
    unfold preparePaint
    rw [if_neg (not_not.2 hg)]

/-- Witness of C22 as amended: a frame of 60 ms on the engine zooming to 0.5,
where 124 sub-steps are run. -/
theorem preparePaint_substeps_witness :
    paintStepCount host1080 60 =
      max 1 ⌊f32 (paintAmount host1080 60 / f32 (1 / 2 * f32 host1080.timestep))⌋ ∧
    paintChunk host1080 60 =
      f32 (paintAmount host1080 60 / f32 (paintStepCount host1080 60 : ℚ)) ∧
    (paintStepCount host1080 60 < 2 ^ 24 →
      |(paintStepCount host1080 60 : ℚ) * paintChunk host1080 60 -
          paintAmount host1080 60| ≤
        (2 : ℚ) ^ (-24 : ℤ) * paintAmount host1080 60 +
          (paintStepCount host1080 60 : ℚ) * (2 : ℚ) ^ (-150 : ℤ)) ∧
    (screenHalf.grabbed ≠ 0 →
      preparePaint host1080 screenHalf 60 =
        match (fun o : Option ZoomScreen => o.bind (paintOutputs host1080 (paintChunk host1080 60)))^[
            (paintStepCount host1080 60).toNat] (some screenHalf) with
        | none => none
        | some s' => if host1080.syncMouse then syncCenterToMouse host1080 s' else some s') ∧
    (screenHalf.grabbed = 0 → preparePaint host1080 screenHalf 60 = some screenHalf) :=
  preparePaint_substeps host1080 screenHalf 60 (by norm_num) (by norm_num [host1080])
    (by norm_num [host1080])

/-! ## The nudge of `ensureVisibility` -/

theorem nudgeY_other (o : CompOutput) (zoomY margin : ℤ) (za : ZoomArea) :
    (za.nudgeY o zoomY margin).xTranslate = za.xTranslate ∧
    (za.nudgeY o zoomY margin).newZoom = za.newZoom ∧
    (za.nudgeY o zoomY margin).currentZoom = za.currentZoom ∧
    (za.nudgeY o zoomY margin).zVelocity = za.zVelocity ∧
    (za.nudgeY o zoomY margin).output = za.output ∧
    (za.nudgeY o zoomY margin).locked = za.locked := by
  unfold ZoomArea.nudgeY
  split_ifs <;> exact ⟨rfl, rfl, rfl, rfl, rfl, rfl⟩

theorem nudgeX_other (o : CompOutput) (zoomX margin : ℤ) (za : ZoomArea) :
    (za.nudgeX o zoomX margin).yTranslate = za.yTranslate ∧
    (za.nudgeX o zoomX margin).newZoom = za.newZoom ∧
    (za.nudgeX o zoomX margin).currentZoom = za.currentZoom ∧
    (za.nudgeX o zoomX margin).zVelocity = za.zVelocity ∧
    (za.nudgeX o zoomX margin).output = za.output ∧
    (za.nudgeX o zoomX margin).locked = za.locked := by
  unfold ZoomArea.nudgeX
  split_ifs <;> exact ⟨rfl, rfl, rfl, rfl, rfl, rfl⟩

/-- The result of `ensureVisibility` past its two guards. -/
theorem ensureVisibility_unlocked (h : Host) (s : ZoomScreen) (x y margin : ℤ)
    (o : CompOutput) (za : ZoomArea) (zoomX zoomY : ℤ)
    (hact : isActive s (h.outputDeviceForPoint x y) = true)
    (ho : h.outputDevs[h.outputDeviceForPoint x y]? = some o)
    (hza : s.zooms[h.outputDeviceForPoint x y]? = some za) (hl : za.locked = false)
    (hp : convertToZoomedTarget h s (h.outputDeviceForPoint x y) x y = some (zoomX, zoomY)) :
    ∃ s', ensureVisibility h s x y margin = some (true, s') ∧
      s'.zooms = (s.zooms.set (h.outputDeviceForPoint x y)
        ((za.nudgeX o zoomX margin).nudgeY o zoomY margin)).map constrainArea ∧
      s'.zooms[h.outputDeviceForPoint x y]? =
        some (constrainArea ((za.nudgeX o zoomX margin).nudgeY o zoomY margin)) ∧
      s'.grabbed = s.grabbed := by
  have hl' : ¬ za.locked = true := by simp [hl]
  refine ⟨constrainZoomTranslate (s.setArea (h.outputDeviceForPoint x y)
    ((za.nudgeX o zoomX margin).nudgeY o zoomY margin)), ?_, rfl, ?_, rfl⟩
  · simp only [ensureVisibility, hact, Bool.not_true, ho, hza, hp]
    rw [if_neg (by simp), if_neg hl']
  · simp only [constrainZoomTranslate, ZoomScreen.setArea, List.getElem?_map,
      getElem?_set_self_of hza, Option.map_some']

/-- A change of the target translation by `FACTOR * d / W` moves the transformed
point by `d`. -/
theorem targetX_nudge (o : CompOutput) (za za' : ZoomArea) (x : ℤ) (d : ℚ)
    (hn : za'.newZoom = za.newZoom)
    (ht : za'.xTranslate =
      za.xTranslate + (za.newZoom / (1 - za.newZoom) * d) / (o.width : ℚ))
    (hz0 : 0 < za.newZoom) (hz1 : za.newZoom < 1) (hW : 0 < o.width) :
    za'.targetX o x = za.targetX o x - d := by
  have hW' : (o.width : ℚ) ≠ 0 := by
    have : (0 : ℚ) < (o.width : ℚ) := by exact_mod_cast hW
    exact ne_of_gt this
  have h0 : za.newZoom ≠ 0 := ne_of_gt hz0
  have h1 : 1 - za.newZoom ≠ 0 := by linarith
  unfold ZoomArea.targetX
  rw [hn, ht]
  field_simp
  ring

theorem targetY_nudge (o : CompOutput) (za za' : ZoomArea) (y : ℤ) (d : ℚ)
    (hn : za'.newZoom = za.newZoom)
    (ht : za'.yTranslate =
      za.yTranslate + (za.newZoom / (1 - za.newZoom) * d) / (o.height : ℚ))
    (hz0 : 0 < za.newZoom) (hz1 : za.newZoom < 1) (hH : 0 < o.height) :
    za'.targetY o y = za.targetY o y - d := by
  have hH' : (o.height : ℚ) ≠ 0 := by
    have : (0 : ℚ) < (o.height : ℚ) := by exact_mod_cast hH
    exact ne_of_gt this
  have h0 : za.newZoom ≠ 0 := ne_of_gt hz0
  have h1 : 1 - za.newZoom ≠ 0 := by linarith
  unfold ZoomArea.targetY
  rw [hn, ht]
  field_simp
  ring

/-- The target x translation after `ensureVisibility`, by branch. -/
theorem ensureVisibility_xTranslate (o : CompOutput) (zoomX zoomY margin : ℤ)
    (za : ZoomArea) :
    (constrainArea ((za.nudgeX o zoomX margin).nudgeY o zoomY margin)).xTranslate =
      clampQ (za.nudgeX o zoomX margin).xTranslate (-(1 / 2)) (1 / 2) ∧
    (constrainArea ((za.nudgeX o zoomX margin).nudgeY o zoomY margin)).newZoom =
      za.newZoom := by
  rw [constrainArea_xTranslate, (constrainArea_other _).1, (nudgeY_other _ _ _ _).1,
    (nudgeY_other _ _ _ _).2.1, (nudgeX_other _ _ _ _).2.1]
  exact ⟨rfl, rfl⟩

theorem ensureVisibility_yTranslate (o : CompOutput) (zoomX zoomY margin : ℤ)
    (za : ZoomArea) :
    (constrainArea ((za.nudgeX o zoomX margin).nudgeY o zoomY margin)).yTranslate =
      clampQ ((za.nudgeX o zoomX margin).nudgeY o zoomY margin).yTranslate
        (-(1 / 2)) (1 / 2) :=
  constrainArea_yTranslate _

theorem nudgeX_xTranslate (o : CompOutput) (zoomX margin : ℤ) (za : ZoomArea) :
    (zoomX + margin > o.x2 →
      (za.nudgeX o zoomX margin).xTranslate = za.xTranslate +
        (za.newZoom / (1 - za.newZoom) * ((zoomX + margin - o.x2 : ℤ) : ℚ)) /
          (o.width : ℚ)) ∧
    (¬ zoomX + margin > o.x2 → zoomX - margin < o.x1 →
      (za.nudgeX o zoomX margin).xTranslate = za.xTranslate +
        (za.newZoom / (1 - za.newZoom) * ((zoomX - margin - o.x1 : ℤ) : ℚ)) /
          (o.width : ℚ)) ∧
    (¬ zoomX + margin > o.x2 → ¬ zoomX - margin < o.x1 →
      (za.nudgeX o zoomX margin).xTranslate = za.xTranslate) := by
  refine ⟨fun a => ?_, fun a b => ?_, fun a b => ?_⟩
  · unfold ZoomArea.nudgeX
    rw [if_pos a]
  · unfold ZoomArea.nudgeX
    rw [if_neg a, if_pos b]
  · unfold ZoomArea.nudgeX
    rw [if_neg a, if_neg b]

theorem nudgeY_yTranslate (o : CompOutput) (zoomY margin : ℤ) (za : ZoomArea) :
    (zoomY + margin > o.y2 →
      (za.nudgeY o zoomY margin).yTranslate = za.yTranslate +
        (za.newZoom / (1 - za.newZoom) * ((zoomY + margin - o.y2 : ℤ) : ℚ)) /
          (o.height : ℚ)) ∧
    (¬ zoomY + margin > o.y2 → zoomY - margin < o.y1 →
      (za.nudgeY o zoomY margin).yTranslate = za.yTranslate +
        (za.newZoom / (1 - za.newZoom) * ((zoomY - margin - o.y1 : ℤ) : ℚ)) /
          (o.height : ℚ)) ∧
    (¬ zoomY + margin > o.y2 → ¬ zoomY - margin < o.y1 →
      (za.nudgeY o zoomY margin).yTranslate = za.yTranslate) := by
  refine ⟨fun a => ?_, fun a b => ?_, fun a b => ?_⟩
  · unfold ZoomArea.nudgeY
    rw [if_pos a]
  · unfold ZoomArea.nudgeY
    rw [if_neg a, if_pos b]
  · unfold ZoomArea.nudgeY
    rw [if_neg a, if_neg b]

/-- C23 as amended (minimal nudge of `ensureVisibility`). For an active,
unlocked area with `0 < newZoom < 1` on an output of positive width and height,
with `(zoomX, zoomY) = convertToZoomedTarget (out, x, y)`: `ensureVisibility`
returns true and keeps `newZoom`. If `zoomX + margin > x2` and the nudged
translation stays within `[-0.5, 0.5]`, the untruncated target transform of `x`
moves by exactly `zoomX + margin - x2`. If `zoomX + margin ≤ x2` (the second
test is only reached when the first fails) and `zoomX - margin < x1`, it moves
by exactly `zoomX - margin - x1`. Likewise for `y`. -/
theorem ensureVisibility_nudge (h : Host) (s : ZoomScreen) (x y margin : ℤ)
    (o : CompOutput) (za : ZoomArea) (zoomX zoomY : ℤ)
    (hact : isActive s (h.outputDeviceForPoint x y) = true)
    (ho : h.outputDevs[h.outputDeviceForPoint x y]? = some o)
    (hza : s.zooms[h.outputDeviceForPoint x y]? = some za) (hl : za.locked = false)
    (hz0 : 0 < za.newZoom) (hz1 : za.newZoom < 1)
    (hW : 0 < o.width) (hH : 0 < o.height)
    (hp : convertToZoomedTarget h s (h.outputDeviceForPoint x y) x y = some (zoomX, zoomY)) :
    ∃ s' za', ensureVisibility h s x y margin = some (true, s') ∧
      s'.zooms[h.outputDeviceForPoint x y]? = some za' ∧ za'.newZoom = za.newZoom ∧
      (zoomX + margin > o.x2 →
        -(1 / 2) ≤ za.xTranslate +
          (za.newZoom / (1 - za.newZoom) * ((zoomX + margin - o.x2 : ℤ) : ℚ)) /
            (o.width : ℚ) →
        za.xTranslate +
          (za.newZoom / (1 - za.newZoom) * ((zoomX + margin - o.x2 : ℤ) : ℚ)) /
            (o.width : ℚ) ≤ 1 / 2 →
        za'.targetX o x = za.targetX o x - ((zoomX + margin - o.x2 : ℤ) : ℚ)) ∧
      (¬ zoomX + margin > o.x2 → zoomX - margin < o.x1 →
        -(1 / 2) ≤ za.xTranslate +
          (za.newZoom / (1 - za.newZoom) * ((zoomX - margin - o.x1 : ℤ) : ℚ)) /
            (o.width : ℚ) →
        za.xTranslate +
          (za.newZoom / (1 - za.newZoom) * ((zoomX - margin - o.x1 : ℤ) : ℚ)) /
            (o.width : ℚ) ≤ 1 / 2 →
        za'.targetX o x = za.targetX o x - ((zoomX - margin - o.x1 : ℤ) : ℚ)) ∧
      (zoomY + margin > o.y2 →
        -(1 / 2) ≤ za.yTranslate +
          (za.newZoom / (1 - za.newZoom) * ((zoomY + margin - o.y2 : ℤ) : ℚ)) /
            (o.height : ℚ) →
        za.yTranslate +
          (za.newZoom / (1 - za.newZoom) * ((zoomY + margin - o.y2 : ℤ) : ℚ)) /
            (o.height : ℚ) ≤ 1 / 2 →
        za'.targetY o y = za.targetY o y - ((zoomY + margin - o.y2 : ℤ) : ℚ)) ∧
      (¬ zoomY + margin > o.y2 → zoomY - margin < o.y1 →
        -(1 / 2) ≤ za.yTranslate +
          (za.newZoom / (1 - za.newZoom) * ((zoomY - margin - o.y1 : ℤ) : ℚ)) /
            (o.height : ℚ) →
        za.yTranslate +
          (za.newZoom / (1 - za.newZoom) * ((zoomY - margin - o.y1 : ℤ) : ℚ)) /
            (o.height : ℚ) ≤ 1 / 2 →
        za'.targetY o y = za.targetY o y - ((zoomY - margin - o.y1 : ℤ) : ℚ)) := by
  obtain ⟨s', hs', -, hz, -⟩ :=
    ensureVisibility_unlocked h s x y margin o za zoomX zoomY hact ho hza hl hp
  obtain ⟨ex, en⟩ := ensureVisibility_xTranslate o zoomX zoomY margin za
  have ey := ensureVisibility_yTranslate o zoomX zoomY margin za
  obtain ⟨x1, x2, -⟩ := nudgeX_xTranslate o zoomX margin za
  obtain ⟨y1, y2, -⟩ := nudgeY_yTranslate o zoomY margin (za.nudgeX o zoomX margin)
  obtain ⟨oy, onz, -⟩ := nudgeX_other o zoomX margin za
  rw [oy, onz] at y1 y2
  refine ⟨s', _, hs', hz, en, ?_, ?_, ?_, ?_⟩
  · intro a b c
    apply targetX_nudge o za _ x _ en _ hz0 hz1 hW
    rw [ex, x1 a, clampQ_half_of_mem b c]
  · intro a a' b c
    apply targetX_nudge o za _ x _ en _ hz0 hz1 hW
    rw [ex, x2 a a', clampQ_half_of_mem b c]
  · intro a b c
    apply targetY_nudge o za _ y _ en _ hz0 hz1 hH
    rw [ey, y1 a, clampQ_half_of_mem b c]
  · intro a a' b c
    apply targetY_nudge o za _ y _ en _ hz0 hz1 hH
    rw [ey, y2 a a', clampQ_half_of_mem b c]

/-- Evaluation of `convertToZoomedTarget` where both conversions to `int` meet
integers. -/
theorem convertToZoomedTarget_eval (h : Host) (s : ZoomScreen) (out : ℕ)
    (o : CompOutput) (za : ZoomArea) (x y a b c d : ℤ)
    (ho : h.outputDevs[out]? = some o) (hza : s.zooms[out]? = some za)
    (h1 : ((x - o.x1 : ℤ) : ℚ) - (za.xTranslate * (1 - za.newZoom) * (o.width : ℚ)) -
      ((Int.tdiv o.width 2 : ℤ) : ℚ) = (a : ℚ))
    (h2 : (a : ℚ) / za.newZoom = (b : ℚ))
    (h3 : ((y - o.y1 : ℤ) : ℚ) - (za.yTranslate * (1 - za.newZoom) * (o.height : ℚ)) -
      ((Int.tdiv o.height 2 : ℤ) : ℚ) = (c : ℚ))
    (h4 : (c : ℚ) / za.newZoom = (d : ℚ)) :
    convertToZoomedTarget h s out x y =
      some (b + Int.tdiv o.width 2 + o.x1, d + Int.tdiv o.height 2 + o.y1) := by
  simp only [convertToZoomedTarget, ho, hza]
  rw [truncQ_eq_int a h1, truncQ_eq_int b h2, truncQ_eq_int c h3, truncQ_eq_int d h4]

theorem convertToZoomedTarget_half (x y : ℤ) :
    convertToZoomedTarget host1080 screenHalf 0 x y =
      some (2 * (x - 960) + 960, 2 * (y - 540) + 540) := by
  have e1 : Int.tdiv output1080.width 2 = 960 := rfl
  have e2 : Int.tdiv output1080.height 2 = 540 := rfl
  rw [convertToZoomedTarget_eval host1080 screenHalf 0 output1080 areaHalf x y
    (x - 960) (2 * (x - 960)) (y - 540) (2 * (y - 540)) rfl rfl
    (by rw [e1]
        norm_num [areaHalf, ZoomArea.init, ZoomArea.updateActualTranslates, output1080])
    (by norm_num [areaHalf, ZoomArea.init, ZoomArea.updateActualTranslates]
        ring)
    (by rw [e2]
        norm_num [areaHalf, ZoomArea.init, ZoomArea.updateActualTranslates, output1080])
    (by norm_num [areaHalf, ZoomArea.init, ZoomArea.updateActualTranslates]
        ring), e1, e2]
  simp only [output1080, add_zero]

/-- Witness of C23 as amended: on the engine zooming to 0.5 the point
`(1900, 540)` maps to `(2840, 540)`; with margin 10 it hangs over the right edge
by 930 and the view is moved by exactly that. -/
theorem ensureVisibility_nudge_witness :
    ∃ s' za', ensureVisibility host1080 screenHalf 1900 540 10 = some (true, s') ∧
      s'.zooms[0]? = some za' ∧ za'.newZoom = areaHalf.newZoom ∧
      za'.targetX output1080 1900 =
        areaHalf.targetX output1080 1900 - (((2840 : ℤ) + 10 - output1080.x2 : ℤ) : ℚ) := by
  obtain ⟨s', za', a, b, c, d, -⟩ :=
    ensureVisibility_nudge host1080 screenHalf 1900 540 10 output1080 areaHalf 2840 540
      (by decide) rfl rfl rfl
      (by norm_num [areaHalf, ZoomArea.init, ZoomArea.updateActualTranslates])
      (by norm_num [areaHalf, ZoomArea.init, ZoomArea.updateActualTranslates])
      (by decide) (by decide) (convertToZoomedTarget_half 1900 540)
  exact ⟨s', za', a, b, c, d (by decide)
    (by norm_num [areaHalf, ZoomArea.init, ZoomArea.updateActualTranslates, output1080,
      CompOutput.x2])
    (by norm_num [areaHalf, ZoomArea.init, ZoomArea.updateActualTranslates, output1080,
      CompOutput.x2])⟩

/-- C23 at a counterexample. On the engine zooming to 0.5 the centre
`(960, 540)` maps to itself; with margin 1000 it hangs over the right edge by 40
and over the left edge by -40. `ensureVisibility` takes the first branch: the
transform of `x` moves by 40 (from 960 to 920), not by `zoomX - margin - x1`,
although `zoomX - margin < x1` and the translation nudged by that amount would
stay in range. -/
theorem ensureVisibility_first_branch_wins :
    convertToZoomedTarget host1080 screenHalf 0 960 540 = some (960, 540) ∧
    (960 : ℤ) - 1000 < output1080.x1 ∧
    -(1 / 2) ≤ areaHalf.xTranslate +
      (areaHalf.newZoom / (1 - areaHalf.newZoom) *
        (((960 : ℤ) - 1000 - output1080.x1 : ℤ) : ℚ)) / (output1080.width : ℚ) ∧
    areaHalf.xTranslate +
      (areaHalf.newZoom / (1 - areaHalf.newZoom) *
        (((960 : ℤ) - 1000 - output1080.x1 : ℤ) : ℚ)) / (output1080.width : ℚ) ≤ 1 / 2 ∧
    areaHalf.targetX output1080 960 = 960 ∧
    ∃ s' za', ensureVisibility host1080 screenHalf 960 540 1000 = some (true, s') ∧
      s'.zooms[0]? = some za' ∧ za'.targetX output1080 960 = 920 ∧
      za'.targetX output1080 960 ≠
        areaHalf.targetX output1080 960 - (((960 : ℤ) - 1000 - output1080.x1 : ℤ) : ℚ) := by
  have e1 : Int.tdiv output1080.width 2 = 960 := rfl
  have hT : areaHalf.targetX output1080 960 = 960 := by
    unfold ZoomArea.targetX
    rw [e1]
    norm_num [areaHalf, ZoomArea.init, ZoomArea.updateActualTranslates, output1080]
  obtain ⟨s', a, -, b, -⟩ :=
    ensureVisibility_unlocked host1080 screenHalf 960 540 1000 output1080 areaHalf 960 540
      (by decide) rfl rfl rfl (convertToZoomedTarget_half 960 540)
  obtain ⟨ex, en⟩ := ensureVisibility_xTranslate output1080 960 540 1000 areaHalf
  have hx := (nudgeX_xTranslate output1080 960 1000 areaHalf).1 (by decide)
  generalize constrainArea ((areaHalf.nudgeX output1080 960 1000).nudgeY output1080 540 1000) =
    za' at b ex en
  have hd : za'.targetX output1080 960 = areaHalf.targetX output1080 960 -
      (((960 : ℤ) + 1000 - output1080.x2 : ℤ) : ℚ) := by
    apply targetX_nudge output1080 areaHalf za' 960 _ en _
      (by norm_num [areaHalf, ZoomArea.init, ZoomArea.updateActualTranslates])
      (by norm_num [areaHalf, ZoomArea.init, ZoomArea.updateActualTranslates])
      (by decide)
    rw [ex, hx, clampQ_half_of_mem
      (by norm_num [areaHalf, ZoomArea.init, ZoomArea.updateActualTranslates, output1080,
        CompOutput.x2])
      (by norm_num [areaHalf, ZoomArea.init, ZoomArea.updateActualTranslates, output1080,
        CompOutput.x2])]
  have hv : za'.targetX output1080 960 = 920 := by
    rw [hd, hT]
    norm_num [output1080, CompOutput.x2]
  refine ⟨convertToZoomedTarget_half 960 540, by decide, ?_, ?_, hT, s', za', a, b, hv, ?_⟩
  · norm_num [areaHalf, ZoomArea.init, ZoomArea.updateActualTranslates, output1080]
  · norm_num [areaHalf, ZoomArea.init, ZoomArea.updateActualTranslates, output1080]
  · rw [hv, hT]
    norm_num [output1080]

/-! ## `ensureVisibilityArea` -/

/-- When the rectangle does not fit, `ensureVisibilityArea` calls `setZoomArea`
on the values of its `switch`, or `setCenter` for `CENTER`. -/
theorem ensureVisibilityArea_unfit (h : Host) (s : ZoomScreen)
    (x1 y1 x2 y2 margin : ℤ) (g : ZoomGravity) (o : CompOutput) (za : ZoomArea)
    (ho : h.outputDevs[h.outputDeviceForPoint (x1 + (x2 - Int.tdiv x1 2))
      (y1 + (y2 - Int.tdiv y1 2))]? = some o)
    (hza : s.zooms[h.outputDeviceForPoint (x1 + (x2 - Int.tdiv x1 2))
      (y1 + (y2 - Int.tdiv y1 2))]? = some za)
    (hfit : (widthOK o za x1 x2 && heightOK o za y1 y2) = false) :
    ensureVisibilityArea h s x1 y1 x2 y2 margin g =
      match areaTarget o za x1 y1 x2 y2 g with
      | some (targetX, targetY, targetW, targetH) =>
        setZoomArea h s targetX targetY targetW targetH false
      | none =>
        setCenter h s (x1 + (x2 - Int.tdiv x1 2)) (y1 + (y2 - Int.tdiv y1 2)) false := by
  unfold ensureVisibilityArea
  simp only [ho, hza, hfit]
  rfl

/-- The values of the `switch` for a rectangle that fits neither in width nor in
height, when `W * newZoom = w` and `H * newZoom = hh` are integers: the three
gravities `NORTHWEST`, `NORTHEAST`, `SOUTHEAST` give the rectangle of width `w`
and height `hh` at the named corner; `SOUTHWEST` gives height `w`. -/
theorem areaTarget_corner (o : CompOutput) (za : ZoomArea) (x1 y1 x2 y2 w hh : ℤ)
    (hw : (o.width : ℚ) * za.newZoom = (w : ℚ))
    (hhh : (o.height : ℚ) * za.newZoom = (hh : ℚ))
    (hnw : widthOK o za x1 x2 = false) (hnh : heightOK o za y1 y2 = false) :
    areaTarget o za x1 y1 x2 y2 .NORTHWEST = some (x1, y1, w, hh) ∧
    areaTarget o za x1 y1 x2 y2 .NORTHEAST = some (x2 - w, y1, w, hh) ∧
    areaTarget o za x1 y1 x2 y2 .SOUTHEAST = some (x2 - w, y2 - hh, w, hh) ∧
    areaTarget o za x1 y1 x2 y2 .SOUTHWEST = some (x1, y2 - w, w, w) := by
  have t1 : truncQ ((o.width : ℚ) * za.newZoom) = w := truncQ_eq_int w hw
  have t2 : truncQ ((o.height : ℚ) * za.newZoom) = hh := truncQ_eq_int hh hhh
  have t3 : truncQ ((x2 : ℚ) - (o.width : ℚ) * za.newZoom) = x2 - w :=
    truncQ_eq_int (x2 - w) (by rw [hw]; push_cast; ring)
  have t4 : truncQ ((y2 : ℚ) - (o.width : ℚ) * za.newZoom) = y2 - w :=
    truncQ_eq_int (y2 - w) (by rw [hw]; push_cast; ring)
  refine ⟨?_, ?_, ?_, ?_⟩ <;>
    simp only [areaTarget, hnw, hnh, t1, t2, t3, t4, Bool.false_eq_true, if_false]

theorem fit_half_full :
    widthOK output1080 areaHalf 0 1920 = false ∧
    heightOK output1080 areaHalf 0 1080 = false := by
  constructor
  · simp only [widthOK, decide_eq_false_iff_not]
    norm_num [output1080, areaHalf, ZoomArea.init, ZoomArea.updateActualTranslates]
  · simp only [heightOK, decide_eq_false_iff_not]
    norm_num [output1080, areaHalf, ZoomArea.init, ZoomArea.updateActualTranslates]

/-- C24 at its failing input. On the engine zooming to 0.5 on one 1920x1080
output, the rectangle `(0, 0)-(1920, 1080)` fits neither in width nor in height
and `W * newZoom = 960`, `H * newZoom = 540` are integers. With gravity
`SOUTHWEST`, `ensureVisibilityArea` calls `setZoomArea (0, 120, 960, 960)`: the
height handed over is `W * newZoom = 960`, not `H * newZoom = 540`, and the top
is `y2 - 960 = 120`, not `y2 - 540`. The case reads `o->width ()` where the
other three gravities read `o->height ()`. -/
theorem ensureVisibilityArea_southwest_uses_width :
    widthOK output1080 areaHalf 0 1920 = false ∧
    heightOK output1080 areaHalf 0 1080 = false ∧
    (output1080.width : ℚ) * areaHalf.newZoom = 960 ∧
    (output1080.height : ℚ) * areaHalf.newZoom = 540 ∧
    areaTarget output1080 areaHalf 0 0 1920 1080 .SOUTHWEST = some (0, 120, 960, 960) ∧
    areaTarget output1080 areaHalf 0 0 1920 1080 .SOUTHWEST ≠ some (0, 1080 - 540, 960, 540) ∧
    ensureVisibilityArea host1080 screenHalf 0 0 1920 1080 0 .SOUTHWEST =
      setZoomArea host1080 screenHalf 0 120 960 960 false ∧
    areaTarget output1080 areaHalf 0 0 1920 1080 .SOUTHEAST =
      some (1920 - 960, 1080 - 540, 960, 540) := by
  have hw : (output1080.width : ℚ) * areaHalf.newZoom = ((960 : ℤ) : ℚ) := by
    norm_num [output1080, areaHalf, ZoomArea.init, ZoomArea.updateActualTranslates]
  have hh : (output1080.height : ℚ) * areaHalf.newZoom = ((540 : ℤ) : ℚ) := by
    norm_num [output1080, areaHalf, ZoomArea.init, ZoomArea.updateActualTranslates]
  obtain ⟨f1, f2⟩ := fit_half_full
  obtain ⟨-, -, c3, c4⟩ := areaTarget_corner output1080 areaHalf 0 0 1920 1080 960 540
    hw hh f1 f2
  have c4' : areaTarget output1080 areaHalf 0 0 1920 1080 .SOUTHWEST =
      some (0, 120, 960, 960) := c4
  refine ⟨f1, f2, by exact_mod_cast hw, by exact_mod_cast hh, c4', ?_, ?_, c3⟩
  · rw [c4']
    decide
  · rw [ensureVisibilityArea_unfit host1080 screenHalf 0 0 1920 1080 0 .SOUTHWEST
      output1080 areaHalf rfl rfl (by rw [f1]; rfl), c4']

/-- C25 at its failing input. On the engine zooming to 0.5 on one 1920x1080
output, the rectangle `(100, 100)-(1500, 900)` does not fit the zoom viewport.
With gravity `CENTER`, `ensureVisibilityArea` calls
`setCenter (1550, 950, false)`, since `x1 + (x2 - x1 / 2)` divides `x1` alone;
the centroid is `(800, 500)`. The target x translation becomes `59/192`, where
`setCenter (800, 500, false)` gives `-1/12`. -/
theorem ensureVisibilityArea_center_off_centroid :
    (widthOK output1080 areaHalf 100 1500 && heightOK output1080 areaHalf 100 900) = false ∧
    ensureVisibilityArea host1080 screenHalf 100 100 1500 900 0 .CENTER =
      setCenter host1080 screenHalf 1550 950 false ∧
    Int.tdiv (100 + 1500) 2 = 800 ∧ Int.tdiv (100 + 900) 2 = 500 ∧
    (∃ (s' : ZoomScreen) (za' : ZoomArea),
      ensureVisibilityArea host1080 screenHalf 100 100 1500 900 0 .CENTER = some s' ∧
      s'.zooms[0]? = some za' ∧ za'.xTranslate = (59 / 192 : ℚ)) ∧
    (∃ (s' : ZoomScreen) (za' : ZoomArea),
      setCenter host1080 screenHalf 800 500 false = some s' ∧
      s'.zooms[0]? = some za' ∧ za'.xTranslate = (-(1 / 12) : ℚ)) := by
  have e1 : Int.tdiv output1080.width 2 = 960 := rfl
  have hfit : (widthOK output1080 areaHalf 100 1500 &&
      heightOK output1080 areaHalf 100 900) = false := by
    have : widthOK output1080 areaHalf 100 1500 = false := by
      simp only [widthOK, decide_eq_false_iff_not]
      norm_num [output1080, areaHalf, ZoomArea.init, ZoomArea.updateActualTranslates]
    rw [this]
    rfl
  have hcall : ensureVisibilityArea host1080 screenHalf 100 100 1500 900 0 .CENTER =
      setCenter host1080 screenHalf 1550 950 false :=
    ensureVisibilityArea_unfit host1080 screenHalf 100 100 1500 900 0 .CENTER
      output1080 areaHalf rfl rfl hfit
  obtain ⟨s1, hs1, hz1, -⟩ := setCenter_unlocked host1080 screenHalf 1550 950 false
    output1080 areaHalf rfl rfl rfl
  obtain ⟨s2, hs2, hz2, -⟩ := setCenter_unlocked host1080 screenHalf 800 500 false
    output1080 areaHalf rfl rfl rfl
  refine ⟨hfit, hcall, rfl, rfl,
    ⟨s1, setCenterArea output1080 areaHalf 1550 950 false, hcall.trans hs1, ?_, ?_⟩,
    ⟨s2, setCenterArea output1080 areaHalf 800 500 false, hs2, ?_, ?_⟩⟩
  · rw [hz1]
    exact getElem?_set_self_of (a := areaHalf) rfl
  · rw [(setCenterArea_fields output1080 areaHalf 1550 950 false).1, e1]
    norm_num [output1080]
  · rw [hz2]
    exact getElem?_set_self_of (a := areaHalf) rfl
  · rw [(setCenterArea_fields output1080 areaHalf 800 500 false).1, e1]
    norm_num [output1080]

/-! ## `distanceToEdge` -/

theorem truncQ_ge_of_nonpos {q q0 : ℚ} (h0 : q0 ≤ 0) (h : q0 ≤ q) : q0 ≤ (truncQ q : ℚ) := by
  unfold truncQ
  split_ifs with hq
  · have : (0 : ℚ) ≤ (⌊q⌋ : ℚ) := by exact_mod_cast Int.floor_nonneg.2 hq
    linarith
  · exact le_trans h (Int.le_ceil q)

theorem truncQ_le_of_nonneg {q q0 : ℚ} (h0 : 0 ≤ q0) (h : q ≤ q0) : (truncQ q : ℚ) ≤ q0 := by
  unfold truncQ
  split_ifs with hq
  · exact le_trans (Int.floor_le q) h
  · have : (⌈q⌉ : ℚ) ≤ 0 := by
      exact_mod_cast Int.ceil_le.2 (by exact_mod_cast le_of_lt (not_le.1 hq))
    linarith

theorem truncQ_ge_int {q : ℚ} (z : ℤ) (h : (z : ℚ) ≤ q) : z ≤ truncQ q := by
  unfold truncQ
  split_ifs with hq
  · exact Int.le_floor.2 h
  · exact_mod_cast le_trans h (Int.le_ceil q)

theorem truncQ_le_int {q : ℚ} (z : ℤ) (h : q ≤ (z : ℚ)) : truncQ q ≤ z := by
  unfold truncQ
  split_ifs with hq
  · exact_mod_cast le_trans (Int.floor_le q) h
  · exact Int.ceil_le.2 h

/-- With the target translation at or below `-0.5`, a point at or right of the
left edge is mapped at or right of the left edge. -/
theorem axis_low (W W2 X : ℤ) (t nz : ℚ) (hW : 0 < W) (h2 : (W2 : ℚ) = (W : ℚ) / 2)
    (hz0 : 0 < nz) (hz1 : nz ≤ 1) (hX : 0 ≤ X) (ht : t ≤ -(1 / 2)) :
    -W2 ≤ truncQ ((truncQ ((X : ℚ) - t * (1 - nz) * (W : ℚ) - (W2 : ℚ)) : ℚ) / nz) := by
  have hWq : (0 : ℚ) < (W : ℚ) := by exact_mod_cast hW
  have hXq : (0 : ℚ) ≤ (X : ℚ) := by exact_mod_cast hX
  have hb : -(nz * (W2 : ℚ)) ≤ (X : ℚ) - t * (1 - nz) * (W : ℚ) - (W2 : ℚ) := by
    rw [h2]
    have : 0 ≤ (-(1 / 2) - t) * ((1 - nz) * (W : ℚ)) :=
      mul_nonneg (by linarith) (mul_nonneg (by linarith) (le_of_lt hWq))
    nlinarith
  have hneg : -(nz * (W2 : ℚ)) ≤ 0 := by
    rw [h2]
    have : 0 ≤ nz * ((W : ℚ) / 2) := mul_nonneg (le_of_lt hz0) (by linarith)
    linarith
  have h1 := truncQ_ge_of_nonpos hneg hb
  apply truncQ_ge_int
  rw [le_div_iff₀ hz0]
  push_cast
  linarith

/-- With the target translation at or above `0.5`, a point at or left of the
right edge is mapped at or left of the right edge. -/
theorem axis_high (W W2 X : ℤ) (t nz : ℚ) (hW : 0 < W) (h2 : (W2 : ℚ) = (W : ℚ) / 2)
    (hz0 : 0 < nz) (hz1 : nz ≤ 1) (hX : X ≤ W) (ht : 1 / 2 ≤ t) :
    truncQ ((truncQ ((X : ℚ) - t * (1 - nz) * (W : ℚ) - (W2 : ℚ)) : ℚ) / nz) ≤ W2 := by
  have hWq : (0 : ℚ) < (W : ℚ) := by exact_mod_cast hW
  have hXq : (X : ℚ) ≤ (W : ℚ) := by exact_mod_cast hX
  have hb : (X : ℚ) - t * (1 - nz) * (W : ℚ) - (W2 : ℚ) ≤ nz * (W2 : ℚ) := by
    rw [h2]
    have : 0 ≤ (t - 1 / 2) * ((1 - nz) * (W : ℚ)) :=
      mul_nonneg (by linarith) (mul_nonneg (by linarith) (le_of_lt hWq))
    nlinarith
  have hpos : 0 ≤ nz * (W2 : ℚ) := by
    rw [h2]
    exact mul_nonneg (le_of_lt hz0) (by linarith)
  have h1 := truncQ_le_of_nonneg hpos hb
  apply truncQ_le_int
  rw [div_le_iff₀ hz0]
  linarith

/-- The four results of `distanceToEdge` on an active output, written out. -/
theorem distanceToEdge_active (h : Host) (s : ZoomScreen) (out : ℕ) (o : CompOutput)
    (za : ZoomArea) (ho : h.outputDevs[out]? = some o) (hza : s.zooms[out]? = some za)
    (hact : isActive s out = true) :
    distanceToEdge h s out .WEST = some (o.x1 -
      (truncQ ((truncQ (((o.x1 - o.x1 : ℤ) : ℚ) -
        za.xTranslate * (1 - za.newZoom) * (o.width : ℚ) -
        ((Int.tdiv o.width 2 : ℤ) : ℚ)) : ℚ) / za.newZoom) + Int.tdiv o.width 2 + o.x1)) ∧
    distanceToEdge h s out .EAST = some
      ((truncQ ((truncQ (((o.x2 - o.x1 : ℤ) : ℚ) -
        za.xTranslate * (1 - za.newZoom) * (o.width : ℚ) -
        ((Int.tdiv o.width 2 : ℤ) : ℚ)) : ℚ) / za.newZoom) + Int.tdiv o.width 2 + o.x1) -
        o.x2) ∧
    distanceToEdge h s out .NORTH = some (o.y1 -
      (truncQ ((truncQ (((o.y1 - o.y1 : ℤ) : ℚ) -
        za.yTranslate * (1 - za.newZoom) * (o.height : ℚ) -
        ((Int.tdiv o.height 2 : ℤ) : ℚ)) : ℚ) / za.newZoom) + Int.tdiv o.height 2 + o.y1)) ∧
    distanceToEdge h s out .SOUTH = some
      ((truncQ ((truncQ (((o.y2 - o.y1 : ℤ) : ℚ) -
        za.yTranslate * (1 - za.newZoom) * (o.height : ℚ) -
        ((Int.tdiv o.height 2 : ℤ) : ℚ)) : ℚ) / za.newZoom) + Int.tdiv o.height 2 + o.y1) -
        o.y2) := by
  refine ⟨?_, ?_, ?_, ?_⟩ <;>
    simp only [distanceToEdge, ho, hact, Bool.not_true, Bool.false_eq_true, if_false,
      convertToZoomedTarget, hza]

/-- C26 (`distanceToEdge` reports room to pan). On an output that is not active
it returns 0 for every edge. On an active output of positive even width and
height, with `0 < newZoom ≤ 1`, it returns a value for every edge, and a
positive value implies that the target translation is strictly inside its bound
in that direction: WEST gives `xTranslate > -0.5`, EAST gives
`xTranslate < 0.5`, NORTH gives `yTranslate > -0.5`, SOUTH gives
`yTranslate < 0.5`. -/
theorem distanceToEdge_room (h : Host) (s : ZoomScreen) (out : ℕ) (o : CompOutput)
    (ho : h.outputDevs[out]? = some o) :
    (isActive s out = false → ∀ edge, distanceToEdge h s out edge = some 0) ∧
    (∀ za : ZoomArea, s.zooms[out]? = some za → isActive s out = true →
      Even o.width → Even o.height → 0 < o.width → 0 < o.height →
      0 < za.newZoom → za.newZoom ≤ 1 →
      ∃ west east north south : ℤ,
        distanceToEdge h s out .WEST = some west ∧
        distanceToEdge h s out .EAST = some east ∧
        distanceToEdge h s out .NORTH = some north ∧
        distanceToEdge h s out .SOUTH = some south ∧
        (0 < west → -(1 / 2) < za.xTranslate) ∧
        (0 < east → za.xTranslate < 1 / 2) ∧
        (0 < north → -(1 / 2) < za.yTranslate) ∧
        (0 < south → za.yTranslate < 1 / 2)) := by
  constructor
  · intro hact edge
    simp only [distanceToEdge, ho, hact, Bool.not_false, if_true]
  · intro za hza hact hWe hHe hW hH hz0 hz1
    obtain ⟨dw, de, dn, ds⟩ := distanceToEdge_active h s out o za ho hza hact
    have w2 : ((Int.tdiv o.width 2 : ℤ) : ℚ) = (o.width : ℚ) / 2 := tdiv_two_of_even hWe
    have h2 : ((Int.tdiv o.height 2 : ℤ) : ℚ) = (o.height : ℚ) / 2 := tdiv_two_of_even hHe
    have w2' : 2 * Int.tdiv o.width 2 = o.width := by
      have : (2 : ℚ) * ((Int.tdiv o.width 2 : ℤ) : ℚ) = (o.width : ℚ) := by rw [w2]; ring
      exact_mod_cast this
    have h2' : 2 * Int.tdiv o.height 2 = o.height := by
      have : (2 : ℚ) * ((Int.tdiv o.height 2 : ℤ) : ℚ) = (o.height : ℚ) := by rw [h2]; ring
      exact_mod_cast this
    refine ⟨_, _, _, _, dw, de, dn, ds, ?_, ?_, ?_, ?_⟩
    · intro hpos
      by_contra hc
      have := axis_low o.width (Int.tdiv o.width 2) (o.x1 - o.x1) za.xTranslate za.newZoom
        hW w2 hz0 hz1 (by omega) (not_lt.1 hc)
      omega
    · intro hpos
      by_contra hc
      have := axis_high o.width (Int.tdiv o.width 2) (o.x2 - o.x1) za.xTranslate za.newZoom
        hW w2 hz0 hz1 (by unfold CompOutput.x2; omega) (not_lt.1 hc)
      unfold CompOutput.x2 at hpos this
      omega
    · intro hpos
      by_contra hc
      have := axis_low o.height (Int.tdiv o.height 2) (o.y1 - o.y1) za.yTranslate za.newZoom
        hH h2 hz0 hz1 (by omega) (not_lt.1 hc)
      omega
    · intro hpos
      by_contra hc
      have := axis_high o.height (Int.tdiv o.height 2) (o.y2 - o.y1) za.yTranslate za.newZoom
        hH h2 hz0 hz1 (by unfold CompOutput.y2; omega) (not_lt.1 hc)
      unfold CompOutput.y2 at hpos this
      omega

/-- Witness of C26: the fresh engine is not active; on the engine zooming to
0.5 every edge has a value. -/
theorem distanceToEdge_room_witness :
    distanceToEdge host1080 screenFresh 0 .WEST = some 0 ∧
    ∃ west east north south : ℤ,
      distanceToEdge host1080 screenHalf 0 .WEST = some west ∧
      distanceToEdge host1080 screenHalf 0 .EAST = some east ∧
      distanceToEdge host1080 screenHalf 0 .NORTH = some north ∧
      distanceToEdge host1080 screenHalf 0 .SOUTH = some south ∧
      (0 < west → -(1 / 2) < areaHalf.xTranslate) ∧
      (0 < east → areaHalf.xTranslate < 1 / 2) ∧
      (0 < north → -(1 / 2) < areaHalf.yTranslate) ∧
      (0 < south → areaHalf.yTranslate < 1 / 2) :=
  ⟨(distanceToEdge_room host1080 screenFresh 0 output1080 rfl).1 rfl .WEST,
   (distanceToEdge_room host1080 screenHalf 0 output1080 rfl).2 areaHalf rfl (by decide)
     ⟨960, rfl⟩ ⟨540, rfl⟩ (by decide) (by decide)
     (by norm_num [areaHalf, ZoomArea.init, ZoomArea.updateActualTranslates])
     (by norm_num [areaHalf, ZoomArea.init, ZoomArea.updateActualTranslates])⟩

/-- On the engine zooming to 0.5 the four distances are 960, 960, 540, 540. -/
theorem distanceToEdge_half :
    distanceToEdge host1080 screenHalf 0 .WEST = some 960 ∧
    distanceToEdge host1080 screenHalf 0 .EAST = some 960 ∧
    distanceToEdge host1080 screenHalf 0 .NORTH = some 540 ∧
    distanceToEdge host1080 screenHalf 0 .SOUTH = some 540 := by
  have ho : host1080.outputDevs[0]? = some output1080 := rfl
  have hact : isActive screenHalf 0 = true := by decide
  refine ⟨?_, ?_, ?_, ?_⟩ <;>
    simp only [distanceToEdge, ho, hact, Bool.not_true, Bool.false_eq_true, if_false,
      convertToZoomedTarget_half] <;> rfl

/-! ## `syncCenterToMouse` and `setCenter` -/

/-- The result of `setCenter` on an unlocked area when mouse panning is off. -/
theorem setCenter_nopan (h : Host) (s : ZoomScreen) (x y : ℤ) (instant : Bool)
    (o : CompOutput) (za : ZoomArea)
    (ho : h.outputDevs[h.outputDeviceForPoint x y]? = some o)
    (hza : s.zooms[h.outputDeviceForPoint x y]? = some za)
    (hl : za.locked = false) (hp : h.mousePan = false) :
    setCenter h s x y instant =
      some (s.setArea (h.outputDeviceForPoint x y) (setCenterArea o za x y instant)) := by
  generalize hout : h.outputDeviceForPoint x y = out at ho hza ⊢
  have hl' : ¬ za.locked = true := by simp [hl]
  simp only [setCenter, hout, ho, hza, hp]
  rw [if_neg hl']
  cases instant <;> rfl

/-- The result of `syncCenterToMouse` on an area in movement: the pointer is
warped to `syncPoint` and that point is stored, when it differs from the stored
mouse position, the mask is non-zero and `newZoom ≠ 1`. -/
theorem syncCenterToMouse_moving (h : Host) (s : ZoomScreen) (o : CompOutput)
    (za : ZoomArea)
    (ho : h.outputDevs[h.outputDeviceForPoint s.mouseX s.mouseY]? = some o)
    (hza : s.zooms[h.outputDeviceForPoint s.mouseX s.mouseY]? = some za)
    (hmv : isInMovement s (h.outputDeviceForPoint s.mouseX s.mouseY) = some true) :
    syncCenterToMouse h s = some
      (if ((syncPoint h o za).1 ≠ s.mouseX ∨ (syncPoint h o za).2 ≠ s.mouseY) ∧
          s.grabbed ≠ 0 ∧ za.newZoom ≠ 1 then
        { s with
          warps := s.warps ++
            [((syncPoint h o za).1 - h.pointerX, (syncPoint h o za).2 - h.pointerY)]
          mouseX := (syncPoint h o za).1
          mouseY := (syncPoint h o za).2 }
      else s) := by
  simp only [syncCenterToMouse, ho, hmv, hza, syncPoint, Bool.not_true, Bool.false_eq_true,
    if_false]
  split_ifs <;> rfl

/-- Where the screen is the output (one output), `syncCenterToMouse` computes
the point that `setCenter (x, y, true)` was given. -/
theorem syncPoint_setCenter (h : Host) (o : CompOutput) (za : ZoomArea) (x y : ℤ)
    (hW : 0 < o.width) (hH : 0 < o.height)
    (hsw : h.screenWidth = o.width) (hsh : h.screenHeight = o.height) :
    syncPoint h o (setCenterArea o za x y true) = (x, y) := by
  have hW' : (o.width : ℚ) ≠ 0 := by
    have : (0 : ℚ) < (o.width : ℚ) := by exact_mod_cast hW
    exact ne_of_gt this
  have hH' : (o.height : ℚ) ≠ 0 := by
    have : (0 : ℚ) < (o.height : ℚ) := by exact_mod_cast hH
    exact ne_of_gt this
  have rx : (setCenterArea o za x y true).realXTranslate =
      (((x - o.x1) - Int.tdiv o.width 2 : ℤ) : ℚ) / (o.width : ℚ) := rfl
  have ry : (setCenterArea o za x y true).realYTranslate =
      (((y - o.y1) - Int.tdiv o.height 2 : ℤ) : ℚ) / (o.height : ℚ) := rfl
  unfold syncPoint
  rw [rx, ry, hsw, hsh, truncQ_eq_int x (by field_simp),
    truncQ_eq_int y (by field_simp)]

theorem construct_hostDual :
    ZoomScreen.construct hostDual =
      { zooms := [ZoomArea.init 0, ZoomArea.init 1], grabbed := 0, mouseX := 0,
        mouseY := 0, pollActive := false, warps := [] } := rfl

theorem setScale_half_dual :
    setScale hostDual
      { zooms := [ZoomArea.init 0, ZoomArea.init 1], grabbed := 0, mouseX := 0,
        mouseY := 0, pollActive := false, warps := [] } 0 (1 / 2) = some screenDualHalf := by
  rw [setScale_unlocked hostDual
    { zooms := [ZoomArea.init 0, ZoomArea.init 1], grabbed := 0, mouseX := 0,
      mouseY := 0, pollActive := false, warps := [] } 0 (1 / 2) (ZoomArea.init 0) rfl rfl]
  norm_num [setScaleResult, setScaleArea, hostDual, host1080, screenDualHalf, areaHalf,
    ZoomArea.init, ZoomArea.updateActualTranslates, outputMask_zero]

/-- C27 at its failing input. On a screen of 3840x1080 made of two 1920x1080
outputs side by side, from the freshly constructed engine: `setScale (0, 0.5)`,
then `setCenter (480, 540, true)` on output 0. The real translation of the area
is `(-1/4, 0)`; `syncCenterToMouse` multiplies it by the width of the screen,
3840, where `setCenter` divided by the width of the output, 1920, so the pointer
position it computes, warps to and stores is `(0, 540)`, not `(480, 540)`. -/
theorem syncCenterToMouse_not_inverse :
    ∃ (s : ZoomScreen) (za : ZoomArea),
      runOps hostDual [Op.setScale 0 (1 / 2), Op.setCenter 480 540 true]
        (ZoomScreen.construct hostDual) = some s ∧
      s.zooms[0]? = some za ∧ za = setCenterArea output1080 areaHalf 480 540 true ∧
      za.realXTranslate = -(1 / 4) ∧ za.realYTranslate = 0 ∧
      syncPoint hostDual output1080 za = (0, 540) ∧
      syncPoint hostDual output1080 za ≠ (480, 540) ∧
      ∃ s', syncCenterToMouse hostDual s = some s' ∧ s'.mouseX = 0 ∧ s'.mouseY = 540 ∧
        s'.warps = [(0, 540)] := by
  have e1 : Int.tdiv output1080.width 2 = 960 := rfl
  have e2 : Int.tdiv output1080.height 2 = 540 := rfl
  have hc : setCenter hostDual screenDualHalf 480 540 true =
      some (screenDualHalf.setArea 0 (setCenterArea output1080 areaHalf 480 540 true)) :=
    setCenter_nopan hostDual screenDualHalf 480 540 true output1080 areaHalf rfl rfl rfl rfl
  have rx : (setCenterArea output1080 areaHalf 480 540 true).realXTranslate = -(1 / 4) := by
    have : (setCenterArea output1080 areaHalf 480 540 true).realXTranslate =
        (((480 - output1080.x1) - Int.tdiv output1080.width 2 : ℤ) : ℚ) /
          (output1080.width : ℚ) := rfl
    rw [this, e1]
    norm_num [output1080]
  have ry : (setCenterArea output1080 areaHalf 480 540 true).realYTranslate = 0 := by
    have : (setCenterArea output1080 areaHalf 480 540 true).realYTranslate =
        (((540 - output1080.y1) - Int.tdiv output1080.height 2 : ℤ) : ℚ) /
          (output1080.height : ℚ) := rfl
    rw [this, e2]
    norm_num [output1080]
  have hsp : syncPoint hostDual output1080
      (setCenterArea output1080 areaHalf 480 540 true) = (0, 540) := by
    unfold syncPoint
    rw [rx, ry, e1, e2, truncQ_eq_int 0 (by norm_num [hostDual, host1080, output1080]),
      truncQ_eq_int 540 (by norm_num [hostDual, host1080, output1080])]
  have hnz : (setCenterArea output1080 areaHalf 480 540 true).newZoom = 1 / 2 := rfl
  have hcz : (setCenterArea output1080 areaHalf 480 540 true).currentZoom = 1 := rfl
  have hz : (screenDualHalf.setArea 0
      (setCenterArea output1080 areaHalf 480 540 true)).zooms[0]? =
      some (setCenterArea output1080 areaHalf 480 540 true) := rfl
  have hmv : isInMovement (screenDualHalf.setArea 0
      (setCenterArea output1080 areaHalf 480 540 true)) 0 = some true := by
    simp only [isInMovement, hz, hnz, hcz]
    norm_num
  have hsync := syncCenterToMouse_moving hostDual
    (screenDualHalf.setArea 0 (setCenterArea output1080 areaHalf 480 540 true))
    output1080 (setCenterArea output1080 areaHalf 480 540 true) rfl hz hmv
  rw [hsp, if_pos ⟨Or.inr (by decide), by decide, by rw [hnz]; norm_num⟩] at hsync
  refine ⟨_, setCenterArea output1080 areaHalf 480 540 true, ?_, hz, rfl, rx, ry, hsp, ?_,
    _, hsync, rfl, rfl, rfl⟩
  · rw [construct_hostDual]
    simp only [runOps, Op.apply, setScale_half_dual, hc]
  · rw [hsp]
    decide

/-! ## The constructor -/

theorem takeWhile_append_all {α : Type} (p : α → Bool) (l1 l2 : List α)
    (h : ∀ a ∈ l1, p a = true) : (l1 ++ l2).takeWhile p = l1 ++ l2.takeWhile p := by
  induction l1 with
  | nil => rfl
  | cons a l ih =>
    have ha : p a = true := h a (List.mem_cons_self _ _)
    simp only [List.cons_append, List.takeWhile_cons, ha, if_true]
    rw [ih (fun b hb => h b (List.mem_cons_of_mem _ hb))]

/-- The loop of the constructor stops at the first `i > 64`: it keeps the
indices below `min n 65`. -/
theorem takeWhile_range (n : ℕ) :
    (List.range n).takeWhile (fun i => !decide (i > 64)) = List.range (min n 65) := by
  by_cases hn : n ≤ 65
  · rw [min_eq_left hn]
    have := takeWhile_append_all (fun i => !decide (i > 64)) (List.range n) []
      (fun a ha => by
        have : a < n := List.mem_range.1 ha
        simp only [gt_iff_lt, Bool.not_eq_true', decide_eq_false_iff_not, not_lt]
        omega)
    simpa using this
  · obtain ⟨k, rfl⟩ : ∃ k, n = 65 + (k + 1) := ⟨n - 66, by omega⟩
    have hr : List.range (k + 1) = 0 :: (List.range k).map Nat.succ :=
      List.range_succ_eq_map k
    rw [min_eq_right (by omega), List.range_add, hr, List.map_cons,
      takeWhile_append_all _ _ _ (fun a ha => by
        have : a < 65 := List.mem_range.1 ha
        simp only [gt_iff_lt, Bool.not_eq_true', decide_eq_false_iff_not, not_lt]
        omega)]
    simp

/-- The areas set up by the constructor. -/
theorem construct_zooms (h : Host) :
    (ZoomScreen.construct h).zooms =
      (List.range (min h.outputDevs.length 65)).map ZoomArea.init := by
  unfold ZoomScreen.construct
  simp only [takeWhile_range]

theorem construct_lookup (h : Host) (i : ℕ) (za : ZoomArea)
    (hza : (ZoomScreen.construct h).zooms[i]? = some za) :
    za = ZoomArea.init i ∧ i < min h.outputDevs.length 65 := by
  rw [construct_zooms, List.getElem?_map] at hza
  have hi : i < min h.outputDevs.length 65 := by
    by_contra hc
    rw [List.getElem?_eq_none (by simpa using not_lt.1 hc)] at hza
    simp at hza
  rw [List.getElem?_range hi] at hza
  simp only [Option.map_some', Option.some.injEq] at hza
  exact ⟨hza.symm, hi⟩

/-- With at most 64 outputs the constructor creates one area per output, with
output ids `0 .. n - 1`, each in its initial state. -/
theorem construct_small (h : Host) (hn : h.outputDevs.length ≤ 64) :
    (ZoomScreen.construct h).zooms = (List.range h.outputDevs.length).map ZoomArea.init ∧
    (ZoomScreen.construct h).zooms.length = min h.outputDevs.length 64 ∧
    ∀ (i : ℕ) (za : ZoomArea), (ZoomScreen.construct h).zooms[i]? = some za →
      za.output = i ∧ i < 64 ∧ za.currentZoom = 1 ∧ za.newZoom = 1 ∧
      za.xTranslate = 0 ∧ za.yTranslate = 0 ∧ za.realXTranslate = 0 ∧
      za.realYTranslate = 0 ∧ za.xVelocity = 0 ∧ za.yVelocity = 0 ∧ za.zVelocity = 0 ∧
      za.locked = false := by
  refine ⟨?_, ?_, ?_⟩
  · rw [construct_zooms, min_eq_left (by omega)]
  · rw [construct_zooms, List.length_map, List.length_range, min_eq_left (by omega),
      min_eq_left hn]
  · intro i za hza
    obtain ⟨rfl, hi⟩ := construct_lookup h i za hza
    have : i < 64 := by
      have := min_le_left h.outputDevs.length 65
      omega
    exact ⟨rfl, this, rfl, rfl, rfl, rfl, rfl, rfl, rfl, rfl, rfl, rfl⟩

/-- C28 at its failing input. With 65 outputs the constructor creates 65 areas,
not 64: the test `i > sizeof (long int) * 8` lets `i = 64` pass, so the last
area has output id 64, which is not a bit position below 64. -/
theorem construct_creates_area_64 :
    hostWide.outputDevs.length = 65 ∧
    (ZoomScreen.construct hostWide).zooms.length = 65 ∧
    (ZoomScreen.construct hostWide).zooms.length ≠ min hostWide.outputDevs.length 64 ∧
    (ZoomScreen.construct hostWide).zooms[64]? = some (ZoomArea.init 64) ∧
    (ZoomArea.init 64).output = 64 ∧ ¬ (ZoomArea.init 64).output < 64 := by
  have hl : hostWide.outputDevs.length = 65 := rfl
  have hz : (ZoomScreen.construct hostWide).zooms = (List.range 65).map ZoomArea.init := by
    rw [construct_zooms, hl]
    rfl
  refine ⟨hl, ?_, ?_, ?_, rfl, by decide⟩
  · rw [hz, List.length_map, List.length_range]
  · rw [hz, List.length_map, List.length_range, hl]
    decide
  · rw [hz, List.getElem?_map, List.getElem?_range (by norm_num)]
    rfl

/-! ## The divisor of `FACTOR` -/

theorem terminate_after_half :
    terminate host1080
      { screenFresh with zooms := [areaHalf], grabbed := 1, pollActive := true } =
      some (false, screenStale) := rfl

/-- C29 at its failing input. From the freshly constructed engine on one
1920x1080 output: `setScale (0, 0.5)`, then `terminate`. The state reached has
bit 0 of the grabbed mask set (`isActive` is true), the area unlocked and
`newZoom = 1`. `ensureVisibility (1919, 0, 10)` passes both checks, maps the
point to `(1919, 0)`, finds `1919 + 10 > x2 = 1920` and expands `FACTOR` with
the divisor `1 - newZoom = 0`. -/
theorem ensureVisibility_divides_by_zero :
    ∃ (s : ZoomScreen) (za : ZoomArea),
      runOps host1080 [Op.setScale 0 (1 / 2), Op.terminate]
        (ZoomScreen.construct host1080) = some s ∧
      s.zooms[host1080.outputDeviceForPoint 1919 0]? = some za ∧
      isActive s (host1080.outputDeviceForPoint 1919 0) = true ∧
      za.locked = false ∧ za.newZoom = 1 ∧
      convertToZoomedTarget host1080 s (host1080.outputDeviceForPoint 1919 0) 1919 0 =
        some (1919, 0) ∧
      (1919 : ℤ) + 10 > output1080.x2 ∧
      ensureVisibilityDivisor host1080 s 1919 0 10 = some (some 0) := by
  have e1 : Int.tdiv output1080.width 2 = 960 := rfl
  have e2 : Int.tdiv output1080.height 2 = 540 := rfl
  have ho : host1080.outputDevs[host1080.outputDeviceForPoint 1919 0]? = some output1080 :=
    rfl
  have hz : screenStale.zooms[host1080.outputDeviceForPoint 1919 0]? =
      some (ZoomArea.init 0) := rfl
  have hact : isActive screenStale (host1080.outputDeviceForPoint 1919 0) = true := by
    decide
  have hconv : convertToZoomedTarget host1080 screenStale
      (host1080.outputDeviceForPoint 1919 0) 1919 0 = some (1919, 0) := by
    rw [convertToZoomedTarget_eval host1080 screenStale _ output1080 (ZoomArea.init 0)
      1919 0 959 959 (-540) (-540) ho hz
      (by rw [e1]
          norm_num [ZoomArea.init, ZoomArea.updateActualTranslates, output1080])
      (by norm_num [ZoomArea.init, ZoomArea.updateActualTranslates])
      (by rw [e2]
          norm_num [ZoomArea.init, ZoomArea.updateActualTranslates, output1080])
      (by norm_num [ZoomArea.init, ZoomArea.updateActualTranslates])]
    rfl
  refine ⟨screenStale, ZoomArea.init 0, ?_, hz, hact, rfl, rfl, hconv, by decide, ?_⟩
  · rw [construct_host1080]
    simp only [runOps, Op.apply, setScale_half_fresh, terminate_after_half, Option.map_some']
  · have hl : ¬ (ZoomArea.init 0).locked = true := by decide
    have hx : (1919 : ℤ) + 10 > output1080.x2 := by decide
    unfold ensureVisibilityDivisor
    simp only [hact, Bool.not_true, Bool.false_eq_true, if_false, ho, hconv, hz]
    rw [if_neg hl, if_pos (Or.inl hx)]
    norm_num [ZoomArea.init, ZoomArea.updateActualTranslates]

/-! ## A zoomed output is grabbed: engines of at most 31 outputs -/

theorem AreaKeep_refl (za : ZoomArea) : AreaKeep za za := ⟨rfl, rfl, rfl, rfl⟩

theorem AreaKeep_trans {a b c : ZoomArea} (h1 : AreaKeep a b) (h2 : AreaKeep b c) :
    AreaKeep a c :=
  ⟨h2.1.trans h1.1, h2.2.1.trans h1.2.1, h2.2.2.1.trans h1.2.2.1,
    h2.2.2.2.trans h1.2.2.2⟩

theorem constrainArea_keep (za : ZoomArea) : AreaKeep za (constrainArea za) := by
  obtain ⟨a1, a2, -, -, -, a6⟩ := constrainArea_other za
  refine ⟨a6, a2, a1, ?_⟩
  unfold constrainArea ZoomArea.constrainY ZoomArea.constrainX
  split_ifs <;> rfl

theorem pan_keep (f : ℚ) (xv yv : ℤ) (za : ZoomArea) : AreaKeep za (za.pan f xv yv) :=
  ⟨rfl, rfl, rfl, rfl⟩

theorem nudge_keep (o : CompOutput) (zx zy m : ℤ) (za : ZoomArea) :
    AreaKeep za ((za.nudgeX o zx m).nudgeY o zy m) := by
  obtain ⟨-, a2, a3, a4, a5, -⟩ := nudgeY_other o zy m (za.nudgeX o zx m)
  obtain ⟨-, b2, b3, b4, b5, -⟩ := nudgeX_other o zx m za
  exact ⟨a5.trans b5, a3.trans b3, a2.trans b2, a4.trans b4⟩

theorem setCenterArea_keep (o : CompOutput) (za : ZoomArea) (x y : ℤ) (instant : Bool) :
    AreaKeep za (setCenterArea o za x y instant) := by
  obtain ⟨-, -, a3, a4, a5, -, a7⟩ := setCenterArea_fields o za x y instant
  exact ⟨a7, a4, a3, a5⟩

theorem setZoomAreaArea_keep (o : CompOutput) (za : ZoomArea) (x y w hh : ℤ)
    (instant : Bool) : AreaKeep za (setZoomAreaArea o za x y w hh instant) := by
  have h1 : AreaKeep za (za.assignAreaTarget o x y w hh) := ⟨rfl, rfl, rfl, rfl⟩
  have h2 := AreaKeep_trans h1 (constrainArea_keep (za.assignAreaTarget o x y w hh))
  cases instant
  · exact h2
  · exact AreaKeep_trans h2 ⟨rfl, rfl, rfl, rfl⟩

/-- The invariant survives a step that keeps the mask and, index by index, the
output id and the zoom values. -/
theorem GrabInv_of_keep {s s' : ZoomScreen} (hinv : GrabInv s)
    (hg : s'.grabbed = s.grabbed)
    (hk : ∀ (i : ℕ) (za' : ZoomArea), s'.zooms[i]? = some za' →
      ∃ za, s.zooms[i]? = some za ∧ AreaKeep za za') : GrabInv s' := by
  intro i za' hza'
  obtain ⟨za, hza, k1, k2, k3, k4⟩ := hk i za' hza'
  obtain ⟨i1, i3, i2⟩ := hinv i za hza
  refine ⟨k1.trans i1, i3, fun hz => ?_⟩
  rw [hg]
  apply i2
  rw [k2, k3, k4] at hz
  exact hz

theorem keep_set {l : List ZoomArea} {out : ℕ} {za A : ZoomArea}
    (hza : l[out]? = some za) (hA : AreaKeep za A) (i : ℕ) (za' : ZoomArea)
    (h : (l.set out A)[i]? = some za') : ∃ a, l[i]? = some a ∧ AreaKeep a za' := by
  by_cases hi : out = i
  · subst hi
    rw [getElem?_set_self_of hza] at h
    simp only [Option.some.injEq] at h
    subst h
    exact ⟨za, hza, hA⟩
  · rw [getElem?_set_other hi] at h
    exact ⟨za', h, AreaKeep_refl za'⟩

theorem keep_map {l : List ZoomArea} {f : ZoomArea → ZoomArea}
    (hf : ∀ a, AreaKeep a (f a)) (i : ℕ) (za' : ZoomArea)
    (h : (l.map f)[i]? = some za') : ∃ a, l[i]? = some a ∧ AreaKeep a za' := by
  rw [List.getElem?_map] at h
  cases hl : l[i]? with
  | none => rw [hl] at h; simp at h
  | some a =>
    rw [hl] at h
    simp only [Option.map_some', Option.some.injEq] at h
    subst h
    exact ⟨a, rfl, hf a⟩

theorem GrabInv_setArea {s : ZoomScreen} (hinv : GrabInv s) {out : ℕ} {za A : ZoomArea}
    (hza : s.zooms[out]? = some za) (hA : AreaKeep za A) : GrabInv (s.setArea out A) :=
  GrabInv_of_keep hinv rfl (fun i za' h => keep_set hza hA i za' h)

/-- The invariant survives a step that only adds bits and, index by index,
keeps the output id and leaves an area zoomed only if it was zoomed before or
its bit is now set. -/
theorem GrabInv_of_le {s s' : ZoomScreen} (hinv : GrabInv s)
    (hg : ∀ j : ℕ, s.grabbed.testBit j = true → s'.grabbed.testBit j = true)
    (hk : ∀ (i : ℕ) (za' : ZoomArea), s'.zooms[i]? = some za' →
      ∃ za, s.zooms[i]? = some za ∧ za'.output = za.output ∧
        (za'.currentZoom ≠ 1 ∨ za'.newZoom ≠ 1 ∨ za'.zVelocity ≠ 0 →
          (za.currentZoom ≠ 1 ∨ za.newZoom ≠ 1 ∨ za.zVelocity ≠ 0) ∨
            s'.grabbed.testBit i = true)) : GrabInv s' := by
  intro i za' hza'
  obtain ⟨za, hza, k1, k2⟩ := hk i za' hza'
  obtain ⟨i1, i3, i2⟩ := hinv i za hza
  refine ⟨k1.trans i1, i3, fun hz => ?_⟩
  rcases k2 hz with h1 | h1
  · exact hg i (i2 h1)
  · exact h1

theorem setCenter_inv (h : Host) (s s' : ZoomScreen) (x y : ℤ) (instant : Bool)
    (hinv : GrabInv s) (hop : setCenter h s x y instant = some s') : GrabInv s' := by
  cases ho : h.outputDevs[h.outputDeviceForPoint x y]? with
  | none => simp [setCenter, ho] at hop
  | some o =>
    cases hza : s.zooms[h.outputDeviceForPoint x y]? with
    | none => simp [setCenter, ho, hza] at hop
    | some za =>
      cases hl : za.locked with
      | true =>
        simp only [setCenter, ho, hza, hl, if_true, Option.some.injEq] at hop
        rw [← hop]
        exact hinv
      | false =>
        obtain ⟨s1, hs1, hz, hg⟩ := setCenter_unlocked h s x y instant o za ho hza hl
        rw [hs1, Option.some.injEq] at hop
        subst hop
        refine GrabInv_of_keep hinv hg (fun i za' hi => ?_)
        rw [hz] at hi
        exact keep_set hza (setCenterArea_keep o za x y instant) i za' hi

theorem setZoomArea_inv (h : Host) (s s' : ZoomScreen) (x y w hh : ℤ) (instant : Bool)
    (hinv : GrabInv s) (hop : setZoomArea h s x y w hh instant = some s') :
    GrabInv s' := by
  cases ho : h.outputDevs[h.outputDeviceForGeometry x y w hh]? with
  | none => simp [setZoomArea, ho] at hop
  | some o =>
    cases hza : s.zooms[h.outputDeviceForGeometry x y w hh]? with
    | none => simp [setZoomArea, ho, hza] at hop
    | some za =>
      by_cases hnz : za.newZoom = 1
      · simp only [setZoomArea, ho, hza, hnz, if_true, Option.some.injEq] at hop
        rw [← hop]
        exact hinv
      · cases hl : za.locked with
        | true =>
          simp only [setZoomArea, ho, hza, hnz, hl, if_true, if_false,
            Option.some.injEq] at hop
          rw [← hop]
          exact hinv
        | false =>
          obtain ⟨s1, hs1, hz, hg, hoth⟩ :=
            setZoomArea_unlocked h s x y w hh instant o za ho hza hnz hl
          rw [hs1, Option.some.injEq] at hop
          subst hop
          refine GrabInv_of_keep hinv hg (fun i za' hi => ?_)
          by_cases hio : i = h.outputDeviceForGeometry x y w hh
          · subst hio
            rw [hz, Option.some.injEq] at hi
            subst hi
            exact ⟨za, hza, setZoomAreaArea_keep o za x y w hh instant⟩
          · rw [hoth i hio] at hi
            cases hl : s.zooms[i]? with
            | none => rw [hl] at hi; simp at hi
            | some a =>
              rw [hl] at hi
              simp only [Option.map_some', Option.some.injEq] at hi
              subst hi
              exact ⟨a, rfl, constrainArea_keep a⟩

theorem panZoom_inv (h : Host) (s : ZoomScreen) (xv yv : ℤ) (hinv : GrabInv s) :
    GrabInv (panZoom h s xv yv) := by
  refine GrabInv_of_keep hinv rfl (fun i za' hi => ?_)
  rw [panZoom_zooms] at hi
  cases hl : s.zooms[i]? with
  | none => rw [hl] at hi; simp at hi
  | some a =>
    rw [hl] at hi
    simp only [Option.map_some', Option.some.injEq] at hi
    subst hi
    exact ⟨a, rfl, AreaKeep_trans (pan_keep _ _ _ a) (constrainArea_keep _)⟩

theorem ensureVisibility_inv (h : Host) (s s' : ZoomScreen) (x y m : ℤ) (b : Bool)
    (hinv : GrabInv s) (hop : ensureVisibility h s x y m = some (b, s')) :
    GrabInv s' := by
  cases hact : isActive s (h.outputDeviceForPoint x y) with
  | false =>
    simp only [ensureVisibility, hact, Bool.not_false, if_true, Option.some.injEq,
      Prod.mk.injEq] at hop
    rw [← hop.2]
    exact hinv
  | true =>
    cases ho : h.outputDevs[h.outputDeviceForPoint x y]? with
    | none => simp [ensureVisibility, hact, ho] at hop
    | some o =>
      cases hza : s.zooms[h.outputDeviceForPoint x y]? with
      | none =>
        simp only [isActive, hza] at hact
        exact absurd hact (by simp)
      | some za =>
        obtain ⟨⟨zx, zy⟩, hp⟩ := convertToZoomedTarget_isSome h s _ o za ho hza x y
        cases hl : za.locked with
        | true =>
          simp only [ensureVisibility, hact, ho, hza, hp, hl, if_true, Bool.not_true,
            Bool.false_eq_true, if_false, Option.some.injEq, Prod.mk.injEq] at hop
          rw [← hop.2]
          exact hinv
        | false =>
          obtain ⟨s1, hs1, hz, -, hg⟩ :=
            ensureVisibility_unlocked h s x y m o za zx zy hact ho hza hl hp
          rw [hs1, Option.some.injEq, Prod.mk.injEq] at hop
          obtain ⟨-, rfl⟩ := hop
          refine GrabInv_of_keep hinv hg (fun i za' hi => ?_)
          rw [hz] at hi
          obtain ⟨a1, ha1, k1⟩ := keep_map constrainArea_keep i za' hi
          obtain ⟨a0, ha0, k0⟩ := keep_set hza (nudge_keep o zx zy m za) i a1 ha1
          exact ⟨a0, ha0, AreaKeep_trans k0 k1⟩

theorem lockZoomAction_inv (h : Host) (s s' : ZoomScreen) (b : Bool)
    (hinv : GrabInv s) (hop : lockZoomAction h s = some (b, s')) : GrabInv s' := by
  cases hza : s.zooms[h.outputDeviceForPoint h.pointerX h.pointerY]? with
  | none => simp [lockZoomAction, hza] at hop
  | some za =>
    simp only [lockZoomAction, hza, Option.some.injEq, Prod.mk.injEq] at hop
    rw [← hop.2]
    exact GrabInv_setArea hinv hza ⟨rfl, rfl, rfl, rfl⟩

theorem terminate_inv (h : Host) (s s' : ZoomScreen) (b : Bool)
    (hinv : GrabInv s) (hop : terminate h s = some (b, s')) : GrabInv s' := by
  by_cases hg : s.grabbed ≠ 0
  · cases hza : s.zooms[h.outputDeviceForPoint h.pointerX h.pointerY]? with
    | none => simp [terminate, hg, hza] at hop
    | some za =>
      simp only [terminate, hg, hza, ne_eq, not_false_eq_true, if_true,
        Option.some.injEq, Prod.mk.injEq] at hop
      rw [← hop.2]
      refine GrabInv_of_le hinv (fun j hj => hj) (fun i za' hi => ?_)
      by_cases hio : h.outputDeviceForPoint h.pointerX h.pointerY = i
      · subst hio
        rw [setArea_lookup s _ za _ hza, Option.some.injEq] at hi
        subst hi
        refine ⟨za, hza, rfl, fun hz => Or.inl ?_⟩
        rcases hz with h1 | h1 | h1
        · exact Or.inl h1
        · exact absurd rfl h1
        · exact Or.inr (Or.inr h1)
      · simp only [ZoomScreen.setArea] at hi
        rw [getElem?_set_other hio] at hi
        exact ⟨za', hi, rfl, fun hz => Or.inl hz⟩
  · simp only [terminate, hg, if_false, Option.some.injEq, Prod.mk.injEq] at hop
    rw [← hop.2]
    exact hinv

/-- For an output id below 31, `isActive` reads the bit of the area's output
id. -/
theorem isActive_testBit (s : ZoomScreen) (out : ℕ) (za : ZoomArea)
    (hza : s.zooms[out]? = some za) (hk : za.output < 31) :
    isActive s out = s.grabbed.testBit za.output := by
  simp only [isActive, hza]
  cases hb : s.grabbed.testBit za.output with
  | false =>
    have := (and_mask_eq_zero_iff s.grabbed za.output hk).2 hb
    simp [this]
  | true =>
    have : s.grabbed &&& outputMask za.output ≠ 0 := by
      intro h0
      have := (and_mask_eq_zero_iff s.grabbed za.output hk).1 h0
      rw [hb] at this
      exact absurd this (by simp)
    simp [this]

theorem setScale_inv (h : Host) (s s' : ZoomScreen) (out : ℕ) (value : ℚ)
    (hmin : h.minimumZoom ≤ 1) (hinv : GrabInv s)
    (hop : setScale h s out value = some s') : GrabInv s' := by
  cases hza : s.zooms[out]? with
  | none => simp [setScale, hza] at hop
  | some za =>
    cases hl : za.locked with
    | true =>
      simp only [setScale, hza, hl, if_true, Option.some.injEq] at hop
      rw [← hop]
      exact hinv
    | false =>
      rw [setScale_unlocked h s out value za hza hl, Option.some.injEq] at hop
      subst hop
      have hout : za.output = out := (hinv out za hza).1
      have hk : za.output < 31 := by
        rw [hout]
        exact (hinv out za hza).2.1
      refine GrabInv_of_le hinv (fun j hj => ?_) (fun i za' hi => ?_)
      · show (if 1 ≤ value then s.grabbed
          else s.grabbed ||| outputMask za.output).testBit j = true
        split_ifs
        · exact hj
        · simp only [Nat.testBit_or, hj, Bool.true_or]
      · have hi' : (s.zooms.set out (setScaleArea h value za))[i]? = some za' := hi
        by_cases hio : out = i
        · subst hio
          rw [getElem?_set_self_of hza, Option.some.injEq] at hi'
          subst hi'
          refine ⟨za, hza, rfl, fun hz => ?_⟩
          by_cases hv : 1 ≤ value
          · left
            have hn : (setScaleArea h value za).newZoom = 1 := by
              show (if 1 ≤ value then (if 1 < h.minimumZoom then h.minimumZoom else 1)
                else if value < h.minimumZoom then h.minimumZoom else value) = 1
              rw [if_pos hv, if_neg (not_lt.2 hmin)]
            rcases hz with h1 | h1 | h1
            · exact Or.inl h1
            · exact absurd hn h1
            · exact Or.inr (Or.inr h1)
          · right
            show (if 1 ≤ value then s.grabbed
              else s.grabbed ||| outputMask za.output).testBit out = true
            rw [if_neg hv, Nat.testBit_or, testBit_outputMask_low _ _ hk, hout]
            simp only [decide_True, Bool.or_true]
        · rw [getElem?_set_other hio] at hi'
          exact ⟨za', hi', rfl, fun hz => Or.inl hz⟩

theorem isInMovement_isSome (s : ZoomScreen) (out : ℕ) (za : ZoomArea)
    (hza : s.zooms[out]? = some za) : ∃ b, isInMovement s out = some b := by
  simp only [isInMovement, hza]
  split_ifs <;> exact ⟨_, rfl⟩

theorem paintArea_inv (h : Host) (chunk : ℚ) (s s' : ZoomScreen) (out : ℕ)
    (hinv : GrabInv s) (hop : paintArea h chunk s out = some s') : GrabInv s' := by
  cases hza : s.zooms[out]? with
  | none => simp [paintArea, isInMovement, hza] at hop
  | some za =>
    obtain ⟨b, hb⟩ := isInMovement_isSome s out za hza
    have hout : za.output = out := (hinv out za hza).1
    have hlow : out < 31 := (hinv out za hza).2.1
    have hk : za.output < 31 := by
      rw [hout]
      exact hlow
    by_cases hskip : b = false ∨ isActive s out = false
    · rw [paintArea_skipped h chunk s out b hb hskip, Option.some.injEq] at hop
      rw [← hop]
      exact hinv
    · have hb' : b = true := by
        cases b
        · exact absurd (Or.inl rfl) hskip
        · rfl
      have hact : isActive s out = true := by
        cases ha : isActive s out
        · exact absurd (Or.inr ha) hskip
        · rfl
      subst hb'
      rw [paintArea_integrated h chunk s out za hza hb hact, Option.some.injEq] at hop
      have hzo : (za.integrate h.redrawTime chunk).output = za.output :=
        (integrate_frame h.redrawTime chunk za).2.1
      have hbit : s.grabbed.testBit out = true := by
        rw [isActive_testBit s out za hza hk, hout] at hact
        exact hact
      by_cases hrest : (za.integrate h.redrawTime chunk).currentZoom = 1 ∧
          (za.integrate h.redrawTime chunk).newZoom = 1 ∧
          (za.integrate h.redrawTime chunk).zVelocity = 0
      · rw [if_pos hrest] at hop
        subst hop
        intro i za' hi
        have hi' : (s.zooms.set out (za.integrate h.redrawTime chunk).stopXY)[i]? =
            some za' := hi
        by_cases hio : out = i
        · subst hio
          rw [getElem?_set_self_of hza, Option.some.injEq] at hi'
          subst hi'
          refine ⟨hzo.trans hout, hlow, fun hz => ?_⟩
          exfalso
          rcases hz with h1 | h1 | h1
          · exact h1 hrest.1
          · exact h1 hrest.2.1
          · exact h1 hrest.2.2
        · rw [getElem?_set_other hio] at hi'
          obtain ⟨i1, i3, i2⟩ := hinv i za' hi'
          refine ⟨i1, i3, fun hz => ?_⟩
          show (clearBit s.grabbed za.output).testBit i = true
          rw [testBit_clearBit _ _ _ hk, i2 hz, hout]
          have : ¬ i = out := fun e => hio e.symm
          simp [this]
      · rw [if_neg hrest] at hop
        subst hop
        refine GrabInv_of_le hinv (fun j hj => hj) (fun i za' hi => ?_)
        have hi' : (s.zooms.set out (za.integrate h.redrawTime chunk))[i]? = some za' := hi
        by_cases hio : out = i
        · subst hio
          rw [getElem?_set_self_of hza, Option.some.injEq] at hi'
          subst hi'
          exact ⟨za, hza, hzo, fun _ => Or.inr hbit⟩
        · rw [getElem?_set_other hio] at hi'
          exact ⟨za', hi', rfl, fun hz => Or.inl hz⟩

theorem paintOutputsFrom_inv (h : Host) (chunk : ℚ) (l : List ℕ) (s s' : ZoomScreen)
    (hinv : GrabInv s) (hop : paintOutputsFrom h chunk l s = some s') : GrabInv s' := by
  induction l generalizing s with
  | nil =>
    simp only [paintOutputsFrom, Option.some.injEq] at hop
    rw [← hop]
    exact hinv
  | cons out rest ih =>
    cases h1 : paintArea h chunk s out with
    | none => simp [paintOutputsFrom, h1] at hop
    | some s1 =>
      simp only [paintOutputsFrom, h1] at hop
      exact ih s1 (paintArea_inv h chunk s s1 out hinv h1) hop

theorem paintSteps_inv (h : Host) (chunk : ℚ) (n : ℕ) (s s' : ZoomScreen)
    (hinv : GrabInv s) (hop : paintSteps h chunk n s = some s') : GrabInv s' := by
  induction n generalizing s with
  | zero =>
    simp only [paintSteps, Option.some.injEq] at hop
    rw [← hop]
    exact hinv
  | succ n ih =>
    cases h1 : paintOutputs h chunk s with
    | none => simp [paintSteps, h1] at hop
    | some s1 =>
      simp only [paintSteps, h1] at hop
      exact ih s1 (paintOutputsFrom_inv h chunk _ s s1 hinv h1) hop

theorem syncCenterToMouse_keeps (h : Host) (s s' : ZoomScreen)
    (hop : syncCenterToMouse h s = some s') :
    s'.zooms = s.zooms ∧ s'.grabbed = s.grabbed := by
  cases ho : h.outputDevs[h.outputDeviceForPoint s.mouseX s.mouseY]? with
  | none => simp [syncCenterToMouse, ho] at hop
  | some o =>
    cases hza : s.zooms[h.outputDeviceForPoint s.mouseX s.mouseY]? with
    | none => simp [syncCenterToMouse, ho, isInMovement, hza] at hop
    | some za =>
      obtain ⟨s1, hs1, hz, hg⟩ := syncCenterToMouse_frame h s o ho (getElem?_lt hza)
      rw [hs1, Option.some.injEq] at hop
      subst hop
      exact ⟨hz, hg⟩

theorem preparePaint_inv (h : Host) (s s' : ZoomScreen) (ms : ℤ)
    (hinv : GrabInv s) (hop : preparePaint h s ms = some s') : GrabInv s' := by
  by_cases hg : s.grabbed ≠ 0
  · by_cases hst : paintStepCount h ms < 0
    · exfalso
      unfold preparePaint at hop
      simp only [] at hop
      rw [if_pos hg, if_pos hst] at hop
      exact absurd hop (by simp)
    · rw [preparePaint_eq h s ms hg hst] at hop
      cases h1 : paintSteps h (paintChunk h ms) (paintStepCount h ms).toNat s with
      | none => rw [h1] at hop; simp at hop
      | some s1 =>
        rw [h1] at hop
        have i1 := paintSteps_inv h _ _ s s1 hinv h1
        by_cases hs : h.syncMouse = true
        · simp only [hs, if_true] at hop
          obtain ⟨hz, hg2⟩ := syncCenterToMouse_keeps h s1 s' hop
          exact GrabInv_of_keep i1 hg2 (fun i za' hi => ⟨za', by rw [← hz]; exact hi,
            AreaKeep_refl za'⟩)
        · simp only [hs, Bool.false_eq_true, if_false, Option.some.injEq] at hop
          rw [← hop]
          exact i1
  · unfold preparePaint at hop
    rw [if_neg hg, Option.some.injEq] at hop
    rw [← hop]
    exact hinv

theorem construct_inv (h : Host) (hlen : h.outputDevs.length ≤ 31) :
    GrabInv (ZoomScreen.construct h) := by
  intro i za hza
  obtain ⟨rfl, hi⟩ := construct_lookup h i za hza
  have hi31 : i < 31 := lt_of_lt_of_le (lt_of_lt_of_le hi (min_le_left _ _)) hlen
  refine ⟨rfl, hi31, fun hz => ?_⟩
  exfalso
  rcases hz with h1 | h1 | h1
  · exact h1 rfl
  · exact h1 rfl
  · exact h1 rfl

theorem apply_inv (h : Host) (hmin : h.minimumZoom ≤ 1) (op : Op) (s s' : ZoomScreen)
    (hinv : GrabInv s) (hop : op.apply h s = some s') : GrabInv s' := by
  cases op with
  | setCenter x y instant => exact setCenter_inv h s s' x y instant hinv hop
  | setZoomArea x y w hh instant => exact setZoomArea_inv h s s' x y w hh instant hinv hop
  | panZoom xv yv =>
    simp only [Op.apply, Option.some.injEq] at hop
    rw [← hop]
    exact panZoom_inv h s xv yv hinv
  | setScale out value => exact setScale_inv h s s' out value hmin hinv hop
  | ensureVisibility x y m =>
    simp only [Op.apply] at hop
    cases he : Ezoom.ensureVisibility h s x y m with
    | none => rw [he] at hop; simp at hop
    | some p =>
      obtain ⟨b, s1⟩ := p
      rw [he] at hop
      simp only [Option.map_some', Option.some.injEq] at hop
      subst hop
      exact ensureVisibility_inv h s s1 x y m b hinv he
  | lockZoomAction =>
    simp only [Op.apply] at hop
    cases he : Ezoom.lockZoomAction h s with
    | none => rw [he] at hop; simp at hop
    | some p =>
      obtain ⟨b, s1⟩ := p
      rw [he] at hop
      simp only [Option.map_some', Option.some.injEq] at hop
      subst hop
      exact lockZoomAction_inv h s s1 b hinv he
  | terminate =>
    simp only [Op.apply] at hop
    cases he : Ezoom.terminate h s with
    | none => rw [he] at hop; simp at hop
    | some p =>
      obtain ⟨b, s1⟩ := p
      rw [he] at hop
      simp only [Option.map_some', Option.some.injEq] at hop
      subst hop
      exact terminate_inv h s s1 b hinv he
  | preparePaint ms => exact preparePaint_inv h s s' ms hinv hop

theorem runOps_inv (h : Host) (hmin : h.minimumZoom ≤ 1) (ops : List Op)
    (s s' : ZoomScreen) (hinv : GrabInv s) (hrun : runOps h ops s = some s') :
    GrabInv s' := by
  induction ops generalizing s with
  | nil =>
    simp only [runOps, Option.some.injEq] at hrun
    rw [← hrun]
    exact hinv
  | cons op rest ih =>
    cases h1 : op.apply h s with
    | none => simp [runOps, h1] at hrun
    | some s1 =>
      simp only [runOps, h1] at hrun
      exact ih s1 (apply_inv h hmin op s s1 hinv h1) hrun

/-- With `minimumZoom ≤ 1` and at most 31 outputs, in every state reached from
the freshly constructed engine by a sequence of `setScale`, `setCenter`,
`setZoomArea`, `panZoom`, `ensureVisibility`, `lockZoomAction`, `terminate` and
`preparePaint` calls, every area with `currentZoom ≠ 1` or `newZoom ≠ 1` or
`zVelocity ≠ 0` carries its index as output id and has its bit set in the
grabbed mask, so `isActive` is true for it. -/
theorem grabbed_of_zoomed_low (h : Host) (hmin : h.minimumZoom ≤ 1)
    (hlen : h.outputDevs.length ≤ 31) (ops : List Op)
    (s : ZoomScreen) (hrun : runOps h ops (ZoomScreen.construct h) = some s)
    (i : ℕ) (za : ZoomArea) (hza : s.zooms[i]? = some za)
    (hz : za.currentZoom ≠ 1 ∨ za.newZoom ≠ 1 ∨ za.zVelocity ≠ 0) :
    za.output = i ∧ s.grabbed.testBit za.output = true ∧ isActive s i = true := by
  obtain ⟨i1, i3, i2⟩ := runOps_inv h hmin ops _ s (construct_inv h hlen) hrun i za hza
  have hb : s.grabbed.testBit za.output = true := by
    rw [i1]
    exact i2 hz
  refine ⟨i1, hb, ?_⟩
  rw [isActive_testBit s i za hza (by rw [i1]; exact i3)]
  exact hb

/-! ## The zoom axis in single precision -/

/-- An upper bound of a rounded value, from its relative error. -/
theorem f32_le_of_le (q b : ℚ) (h0 : 0 ≤ q) (hb : q ≤ b) :
    f32 q ≤ b * (1001 / 1000) + 1 / 10 ^ 12 := by
  have he := f32_error q
  rw [abs_of_nonneg h0, abs_le] at he
  have e1 : (2 : ℚ) ^ (-24 : ℤ) ≤ 1 / 1000 := by norm_num
  have e2 : (2 : ℚ) ^ (-150 : ℤ) ≤ 1 / 10 ^ 12 := by
    rw [show (-150 : ℤ) = -((150 : ℕ) : ℤ) from rfl, zpow_neg, zpow_natCast]
    rw [inv_eq_one_div]
    apply one_div_le_one_div_of_le (by norm_num)
    norm_num
  have h1 : (2 : ℚ) ^ (-24 : ℤ) * q ≤ 1 / 1000 * b :=
    mul_le_mul e1 hb h0 (by norm_num)
  have h2 := he.2
  generalize (2 : ℚ) ^ (-24 : ℤ) * q = X at h1 h2
  generalize (2 : ℚ) ^ (-150 : ℤ) = D at e2 h2
  have e3 : (1 : ℚ) / 10 ^ 12 = 1 / 1000000000000 := by norm_num
  rw [e3] at e2 ⊢
  linarith

/-- A value less than `2^-25` above `0.5` rounds to `0.5`. -/
theorem f32_half_add (t : ℚ) (h0 : 0 ≤ t) (h1 : t < 1 / 2 ^ 25) :
    f32 (1 / 2 + t) = 1 / 2 := by
  have h25 : (1 : ℚ) / 2 ^ 25 < 1 / 2 := by norm_num
  rw [f32_eval (1 / 2 + t) (-1) (2 ^ 23) (by norm_num; linarith) (by norm_num; linarith)
    (by norm_num) ?_]
  · norm_num
  · have e : (1 / 2 + t) / (2 : ℚ) ^ ((-1 : ℤ) - 23) - ((2 ^ 23 : ℤ) : ℚ) = t * 2 ^ 24 := by
      rw [show ((-1 : ℤ) - 23) = -((24 : ℕ) : ℤ) from rfl, zpow_neg, zpow_natCast]
      push_cast
      field_simp
      ring
    rw [e, abs_of_nonneg (by positivity)]
    have : t * 2 ^ 24 < 1 / 2 ^ 25 * 2 ^ 24 := by
      apply mul_lt_mul_of_pos_right h1 (by norm_num)
    linarith [show (1 : ℚ) / 2 ^ 25 * 2 ^ 24 = 1 / 2 by norm_num]

theorem f32_half : f32 (1 / 2) = 1 / 2 := by
  have := f32_half_add 0 (le_refl _) (by norm_num)
  rwa [add_zero] at this

theorem f32_75_half : f32 (1 / 2 * 75) = 75 / 2 := by
  rw [f32_eval (1 / 2 * 75) 5 9830400 (by norm_num) (by norm_num) (by norm_num)
    (by norm_num [abs_lt])]
  norm_num

/-- One call of `adjustZoomVelocity` in `float` with `chunk = 2^-20` and a redraw
time of `16` on an area at `currentZoom = 0.5`, `newZoom = 1` and a velocity
between 0 and 0.1: `d = 37.5`, no snap, the new velocity is again between 0 and
0.1, and the increment `zVelocity * chunk / redrawTime` is below `2^-25`, half
the distance of `0.5` to the next `float`, so `currentZoom` stays `0.5`. -/
theorem adjustZoomVelocityF32_stall (za : ZoomArea) (hc : za.currentZoom = 1 / 2)
    (hn : za.newZoom = 1) (hv0 : 0 ≤ za.zVelocity) (hv1 : za.zVelocity ≤ 1 / 10) :
    (za.adjustZoomVelocityF32 16 (1 / 2 ^ 20)).currentZoom = 1 / 2 ∧
    (za.adjustZoomVelocityF32 16 (1 / 2 ^ 20)).newZoom = 1 ∧
    0 ≤ (za.adjustZoomVelocityF32 16 (1 / 2 ^ 20)).zVelocity ∧
    (za.adjustZoomVelocityF32 16 (1 / 2 ^ 20)).zVelocity ≤ 1 / 10 := by
  have hd : f32 (f32 (za.newZoom - za.currentZoom) * 75) = 75 / 2 := by
    rw [hn, hc, show (1 : ℚ) - 1 / 2 = 1 / 2 by norm_num, f32_half, f32_75_half]
  have hk0 : (0 : ℚ) ≤ f32 (2 / 1000) := f32_nonneg _ (by norm_num)
  have hk1 : f32 (2 / 1000) ≤ 2 / 1000 * (1001 / 1000) + 1 / 10 ^ 12 :=
    f32_le_of_le _ _ (by norm_num) (le_refl _)
  have ha0 : (0 : ℚ) ≤ f32 (75 / 2 * f32 (2 / 1000)) :=
    f32_nonneg _ (mul_nonneg (by norm_num) hk0)
  have ha1 : f32 (75 / 2 * f32 (2 / 1000)) ≤ 76 / 1000 := by
    have := f32_le_of_le (75 / 2 * f32 (2 / 1000))
      (75 / 2 * (2 / 1000 * (1001 / 1000) + 1 / 10 ^ 12))
      (mul_nonneg (by norm_num) hk0) (mul_le_mul_of_nonneg_left hk1 (by norm_num))
    refine le_trans this ?_
    norm_num
  have h6 : f32 ((5 : ℚ) + 1) = 6 := by
    have := f32_intCast 6 (by norm_num) (by norm_num)
    norm_num at this ⊢
    exact this
  have hp0 : (0 : ℚ) ≤ f32 (5 * za.zVelocity) := f32_nonneg _ (by linarith)
  have hp1 : f32 (5 * za.zVelocity) ≤ 501 / 1000 := by
    have := f32_le_of_le (5 * za.zVelocity) (1 / 2) (by linarith) (by linarith)
    refine le_trans this ?_
    norm_num
  have hs0 : (0 : ℚ) ≤ f32 (f32 (5 * za.zVelocity) + f32 (75 / 2 * f32 (2 / 1000))) :=
    f32_nonneg _ (by linarith)
  have hs1 : f32 (f32 (5 * za.zVelocity) + f32 (75 / 2 * f32 (2 / 1000))) ≤ 578 / 1000 := by
    have := f32_le_of_le (f32 (5 * za.zVelocity) + f32 (75 / 2 * f32 (2 / 1000)))
      (577 / 1000) (by linarith) (by linarith)
    refine le_trans this ?_
    norm_num
  have hz0 : (0 : ℚ) ≤
      f32 (f32 (f32 (5 * za.zVelocity) + f32 (75 / 2 * f32 (2 / 1000))) / 6) :=
    f32_nonneg _ (div_nonneg hs0 (by norm_num))
  have hz1 : f32 (f32 (f32 (5 * za.zVelocity) + f32 (75 / 2 * f32 (2 / 1000))) / 6) ≤
      1 / 10 := by
    have := f32_le_of_le
      (f32 (f32 (5 * za.zVelocity) + f32 (75 / 2 * f32 (2 / 1000))) / 6) (578 / 6000)
      (div_nonneg hs0 (by norm_num)) (by linarith)
    refine le_trans this ?_
    norm_num
  have htenth : f32 (1 / 10) ≤ 1 := by
    have := f32_le_of_le (1 / 10) (1 / 10) (by norm_num) (le_refl _)
    refine le_trans this ?_
    norm_num
  have h16 : f32 (16 : ℚ) = 16 := by
    have := f32_intCast 16 (by norm_num) (by norm_num)
    norm_num at this ⊢
    exact this
  generalize hZ : f32 (f32 (f32 (5 * za.zVelocity) + f32 (75 / 2 * f32 (2 / 1000))) / 6) = Z
    at hz0 hz1
  have hm0 : (0 : ℚ) ≤ f32 (Z * (1 / 2 ^ 20)) := f32_nonneg _ (by positivity)
  have hm1 : f32 (Z * (1 / 2 ^ 20)) ≤ 1 / 10 ^ 7 := by
    have := f32_le_of_le (Z * (1 / 2 ^ 20)) (1 / 10 * (1 / 2 ^ 20)) (by positivity)
      (mul_le_mul_of_nonneg_right hz1 (by norm_num))
    refine le_trans this ?_
    norm_num
  have ht0 : (0 : ℚ) ≤ f32 (f32 (Z * (1 / 2 ^ 20)) / 16) :=
    f32_nonneg _ (div_nonneg hm0 (by norm_num))
  have ht1 : f32 (f32 (Z * (1 / 2 ^ 20)) / 16) < 1 / 2 ^ 25 := by
    have := f32_le_of_le (f32 (Z * (1 / 2 ^ 20)) / 16) (1 / 10 ^ 7 / 16)
      (div_nonneg hm0 (by norm_num)) (by linarith)
    refine lt_of_le_of_lt this ?_
    norm_num
  have hcond : ¬ ((75 / 2 : ℚ) < f32 (1 / 10) ∧ |Z| < f32 (5 / 1000)) := by
    intro hcon
    linarith [hcon.1]
  have habs : |(75 / 2 : ℚ)| = 75 / 2 := abs_of_nonneg (by norm_num)
  have hamt : (if (75 / 2 : ℚ) < 1 then (1 : ℚ)
      else if (75 / 2 : ℚ) > 5 then 5 else 75 / 2) = 5 := by norm_num
  unfold ZoomArea.adjustZoomVelocityF32
  simp only [hd, habs, hamt, h6, hZ]
  rw [if_neg hcond]
  simp only [hc, hn, h16]
  exact ⟨f32_half_add _ ht0 ht1, trivial, hz0, hz1⟩

/-- Repeated calls in `float` from a stalled state stay stalled. -/
theorem adjustZoomVelocityF32N_stall (n : ℕ) (s : ZoomScreen) (za : ZoomArea)
    (hza : s.zooms[0]? = some za) (hc : za.currentZoom = 1 / 2) (hn : za.newZoom = 1)
    (hv0 : 0 ≤ za.zVelocity) (hv1 : za.zVelocity ≤ 1 / 10) :
    ∃ s' za', adjustZoomVelocityF32N host1080 0 (1 / 2 ^ 20) n s = some s' ∧
      s'.zooms[0]? = some za' ∧ za'.currentZoom = 1 / 2 ∧ za'.newZoom = 1 ∧
      0 ≤ za'.zVelocity ∧ za'.zVelocity ≤ 1 / 10 := by
  induction n generalizing s za with
  | zero => exact ⟨s, za, rfl, hza, hc, hn, hv0, hv1⟩
  | succ n ih =>
    have h1 : adjustZoomVelocityF32 host1080 s 0 (1 / 2 ^ 20) =
        some (s.setArea 0 (za.adjustZoomVelocityF32 16 (1 / 2 ^ 20))) := by
      simp only [adjustZoomVelocityF32, hza]
      rfl
    obtain ⟨a1, a2, a3, a4⟩ := adjustZoomVelocityF32_stall za hc hn hv0 hv1
    obtain ⟨s', za', e1, e2⟩ := ih (s.setArea 0 (za.adjustZoomVelocityF32 16 (1 / 2 ^ 20)))
      (za.adjustZoomVelocityF32 16 (1 / 2 ^ 20)) (setArea_lookup s 0 za _ hza) a1 a2 a3 a4
    refine ⟨s', za', ?_, e2⟩
    simp only [adjustZoomVelocityF32N, h1]
    exact e1

/-- C4 at its failing input. The area of output 0 is at `currentZoom = 0.5` with
`newZoom = 1` and `zVelocity = 0` (the state after `setScale (0, 1)` on an area
resting at `0.5`), the redraw time is 16 and `chunk = 2^-20`, a `float`. In the
`float` arithmetic of the source every call of `adjustZoomVelocity` finds
`d = 37.5`, so the snap test fails, and adds
`zVelocity * chunk / redrawTime < 2^-25` to `currentZoom = 0.5`, which rounds
back to `0.5`: after any number of calls `currentZoom` is `0.5` and differs from
`newZoom`. -/
theorem zoom_axis_stalls_in_float :
    0 < areaHalfway.currentZoom ∧ areaHalfway.currentZoom ≤ 1 ∧
    0 < areaHalfway.newZoom ∧ areaHalfway.newZoom ≤ 1 ∧
    (0 : ℚ) < 1 / 2 ^ 20 ∧ f32 (1 / 2 ^ 20) = 1 / 2 ^ 20 ∧ 0 < host1080.redrawTime ∧
    screenHalfway.zooms[0]? = some areaHalfway ∧
    ∀ n : ℕ, ∃ s' za,
      adjustZoomVelocityF32N host1080 0 (1 / 2 ^ 20) n screenHalfway = some s' ∧
      s'.zooms[0]? = some za ∧ za.currentZoom = 1 / 2 ∧ za.newZoom = 1 ∧
      za.currentZoom ≠ za.newZoom := by
  have hchunk : f32 (1 / 2 ^ 20) = 1 / 2 ^ 20 :=
    f32_exact (1 / 2 ^ 20) (-20) (2 ^ 23) (by norm_num) (by norm_num) (by norm_num)
      (by norm_num)
  refine ⟨by norm_num [areaHalfway], by norm_num [areaHalfway],
    by norm_num [areaHalfway, ZoomArea.init, ZoomArea.updateActualTranslates],
    by norm_num [areaHalfway, ZoomArea.init, ZoomArea.updateActualTranslates],
    by norm_num, hchunk, by norm_num [host1080], rfl, fun n => ?_⟩
  obtain ⟨s', za, e1, e2, e3, e4, -, -⟩ :=
    adjustZoomVelocityF32N_stall n screenHalfway areaHalfway rfl
      (by norm_num [areaHalfway])
      (by norm_num [areaHalfway, ZoomArea.init, ZoomArea.updateActualTranslates])
      (by norm_num [areaHalfway, ZoomArea.init, ZoomArea.updateActualTranslates])
      (by norm_num [areaHalfway, ZoomArea.init, ZoomArea.updateActualTranslates])
  refine ⟨s', za, e1, e2, e3, e4, ?_⟩
  rw [e3, e4]
  norm_num

/-! ## An engine of 33 outputs: the outputs 0 and 32 share a bit -/

theorem construct_host33 :
    ZoomScreen.construct host33 =
      { zooms := zooms33 (ZoomArea.init 0) (ZoomArea.init 32), grabbed := 0, mouseX := 0,
        mouseY := 0, pollActive := false, warps := [] } := rfl

theorem zooms33_length (a0 a32 : ZoomArea) : (zooms33 a0 a32).length = 33 := rfl

theorem zooms33_zero (a0 a32 : ZoomArea) : (zooms33 a0 a32)[0]? = some a0 := rfl

theorem zooms33_last (a0 a32 : ZoomArea) : (zooms33 a0 a32)[32]? = some a32 := rfl

theorem zooms33_mid (a0 a32 : ZoomArea) (i : ℕ) (h1 : 1 ≤ i) (h2 : i < 32) :
    (zooms33 a0 a32)[i]? = some (ZoomArea.init i) := by
  interval_cases i <;> rfl

theorem zooms33_set_zero (a0 a32 b : ZoomArea) :
    (zooms33 a0 a32).set 0 b = zooms33 b a32 := rfl

theorem zooms33_set_last (a0 a32 b : ZoomArea) :
    (zooms33 a0 a32).set 32 b = zooms33 a0 b := rfl

/-- An area in its initial state is not in movement. -/
theorem isInMovement_init (s : ZoomScreen) (out k : ℕ)
    (hz : s.zooms[out]? = some (ZoomArea.init k)) : isInMovement s out = some false := by
  simp only [isInMovement, hz]
  norm_num [ZoomArea.init, ZoomArea.updateActualTranslates]

/-- The loop over the outputs changes nothing when every listed area is not in
movement or not active. -/
theorem paintOutputsFrom_skip (h : Host) (chunk : ℚ) (s : ZoomScreen) (l : List ℕ)
    (hr : ∀ out ∈ l, ∃ b, isInMovement s out = some b ∧
      (b = false ∨ isActive s out = false)) :
    paintOutputsFrom h chunk l s = some s := by
  induction l with
  | nil => rfl
  | cons out rest ih =>
    obtain ⟨b, hb, hskip⟩ := hr out (List.mem_cons_self _ _)
    have h1 : paintArea h chunk s out = some s := paintArea_skipped h chunk s out b hb hskip
    simp only [paintOutputsFrom, h1]
    exact ih (fun o ho => hr o (List.mem_cons_of_mem _ ho))

theorem paintSteps_skip (h : Host) (chunk : ℚ) (s : ZoomScreen) (n : ℕ)
    (hr : ∀ out : ℕ, out < s.zooms.length → ∃ b, isInMovement s out = some b ∧
      (b = false ∨ isActive s out = false)) :
    paintSteps h chunk n s = some s := by
  induction n with
  | zero => rfl
  | succ n ih =>
    have h1 : paintOutputs h chunk s = some s :=
      paintOutputsFrom_skip h chunk s _ (fun o ho => hr o (List.mem_range.1 ho))
    simp only [paintSteps, h1]
    exact ih

/-- A call of `preparePaint` on an engine of 33 areas in which the first
sub-step changes the area of output 0 only, after which every area is skipped. -/
theorem preparePaint_first (h : Host) (s s1 : ZoomScreen) (ms : ℤ) (hms : 0 ≤ ms)
    (hsp : 0 ≤ h.speed) (hts : 0 ≤ h.timestep) (hg : s.grabbed ≠ 0)
    (hlen : s.zooms.length = 33)
    (h0 : ∀ chunk : ℚ, paintArea h chunk s 0 = some s1)
    (hskip : ∀ out : ℕ, out < s1.zooms.length → ∃ b, isInMovement s1 out = some b ∧
      (b = false ∨ isActive s1 out = false))
    (hlen1 : s1.zooms.length = 33)
    (hsync : h.syncMouse = true → syncCenterToMouse h s1 = some s1) :
    preparePaint h s ms = some s1 := by
  obtain ⟨-, hpos, -⟩ := paintStepCount_eq h ms hms hsp hts
  obtain ⟨n, hn⟩ : ∃ n : ℕ, (paintStepCount h ms).toNat = n + 1 :=
    ⟨(paintStepCount h ms).toNat - 1, by omega⟩
  have hr : List.range 33 = 0 :: List.range' 1 32 := rfl
  have hout : paintOutputs h (paintChunk h ms) s = some s1 := by
    unfold paintOutputs
    rw [hlen, hr]
    show (match paintArea h (paintChunk h ms) s 0 with
      | none => none
      | some s' => paintOutputsFrom h (paintChunk h ms) (List.range' 1 32) s') = some s1
    rw [h0]
    refine paintOutputsFrom_skip h _ s1 _ (fun o ho => hskip o ?_)
    rw [hlen1]
    have := List.mem_range'_1.1 ho
    omega
  rw [preparePaint_eq h s ms hg (by omega), hn]
  simp only [paintSteps, hout, paintSteps_skip h _ s1 n hskip]
  by_cases hs : h.syncMouse = true
  · rw [if_pos hs, hsync hs]
  · rw [if_neg hs]

theorem setScaleArea_near :
    setScaleArea host33 (999 / 1000) (ZoomArea.init 0) = areaNear := by
  norm_num [setScaleArea, host33, host1080, areaNear, ZoomArea.init,
    ZoomArea.updateActualTranslates]

theorem setScaleArea_far :
    setScaleArea host33 (1 / 2) (ZoomArea.init 32) = areaFar := by
  norm_num [setScaleArea, host33, host1080, areaFar, ZoomArea.init,
    ZoomArea.updateActualTranslates]

theorem setScaleArea_leaving :
    setScaleArea host33 1 areaNearRest = areaLeaving := by
  norm_num [setScaleArea, host33, host1080, areaNearRest, areaLeaving, ZoomArea.init,
    ZoomArea.updateActualTranslates]

/-- Step 1: `setScale (0, 0.999)` on the fresh engine sets bit 0. -/
theorem setScale_near_33 :
    setScale host33 (ZoomScreen.construct host33) 0 (999 / 1000) =
      some (screen33 areaNear (ZoomArea.init 32) 1) := by
  rw [construct_host33, setScale_unlocked host33
    { zooms := zooms33 (ZoomArea.init 0) (ZoomArea.init 32), grabbed := 0, mouseX := 0,
      mouseY := 0, pollActive := false, warps := [] } 0 (999 / 1000) (ZoomArea.init 0) rfl rfl]
  unfold setScaleResult
  simp only [zooms33_set_zero, setScaleArea_near]
  norm_num [screen33, host33, host1080, outputMask_zero, ZoomArea.init,
    ZoomArea.updateActualTranslates]

/-- Step 3: `setScale (32, 0.5)` ors `1 << 32` into the mask, which is bit 0
again: the mask stays `1`. -/
theorem setScale_far_33 :
    setScale host33 (screen33 areaNearRest (ZoomArea.init 32) 1) 32 (1 / 2) =
      some (screen33 areaNearRest areaFar 1) := by
  rw [setScale_unlocked host33 (screen33 areaNearRest (ZoomArea.init 32) 1) 32 (1 / 2)
    (ZoomArea.init 32) rfl rfl]
  unfold setScaleResult
  simp only [screen33, zooms33_set_last, setScaleArea_far]
  norm_num [outputMask_32, ZoomArea.init, ZoomArea.updateActualTranslates]

/-- Step 4: `setScale (0, 1)` sends the area of output 0 back to zoom 1. -/
theorem setScale_leaving_33 :
    setScale host33 (screen33 areaNearRest areaFar 1) 0 1 =
      some (screen33 areaLeaving areaFar 1) := by
  rw [setScale_unlocked host33 (screen33 areaNearRest areaFar 1) 0 1 areaNearRest rfl rfl]
  unfold setScaleResult
  simp only [screen33, zooms33_set_zero, setScaleArea_leaving]
  norm_num
/-- One sub-step on the area `areaNear`: `|d| = 0.075 < 0.1` and the new
velocity is `-0.000075`, so the zoom axis snaps to `0.999` whatever the chunk. -/
theorem integrate_near (r chunk : ℚ) : areaNear.integrate r chunk = areaNearRest := by
  have e1 : areaNear.adjustXYVelocity r chunk = areaNear := by
    unfold ZoomArea.adjustXYVelocity
    norm_num [areaNear, ZoomArea.init, ZoomArea.updateActualTranslates]
  have e2 : areaNear.adjustZoomVelocity r chunk =
      { areaNear with currentZoom := 999 / 1000 } := by
    unfold ZoomArea.adjustZoomVelocity
    norm_num [areaNear, ZoomArea.init, ZoomArea.updateActualTranslates, abs_lt]
  unfold ZoomArea.integrate
  rw [e1, e2]
  norm_num [areaNear, areaNearRest, ZoomArea.init, ZoomArea.updateActualTranslates]

/-- One sub-step on the area `areaLeaving`: the zoom axis snaps to `1`, the
area is back in its initial state. -/
theorem integrate_leaving (r chunk : ℚ) :
    areaLeaving.integrate r chunk = ZoomArea.init 0 := by
  have e1 : areaLeaving.adjustXYVelocity r chunk = areaLeaving := by
    unfold ZoomArea.adjustXYVelocity
    norm_num [areaLeaving, ZoomArea.init, ZoomArea.updateActualTranslates]
  have e2 : areaLeaving.adjustZoomVelocity r chunk =
      { areaLeaving with currentZoom := 1 } := by
    unfold ZoomArea.adjustZoomVelocity
    norm_num [areaLeaving, ZoomArea.init, ZoomArea.updateActualTranslates, abs_lt]
  unfold ZoomArea.integrate
  rw [e1, e2]
  norm_num [areaLeaving, ZoomArea.init, ZoomArea.updateActualTranslates]

theorem isInMovement_nearRest (a32 : ZoomArea) (g : ℕ) :
    isInMovement (screen33 areaNearRest a32 g) 0 = some false := by
  have hz : (screen33 areaNearRest a32 g).zooms[0]? = some areaNearRest := rfl
  simp only [isInMovement, hz]
  norm_num [areaNearRest, ZoomArea.init, ZoomArea.updateActualTranslates]

theorem isInMovement_near (a32 : ZoomArea) (g : ℕ) :
    isInMovement (screen33 areaNear a32 g) 0 = some true := by
  have hz : (screen33 areaNear a32 g).zooms[0]? = some areaNear := rfl
  simp only [isInMovement, hz]
  norm_num [areaNear, ZoomArea.init, ZoomArea.updateActualTranslates]

theorem isInMovement_leaving (a32 : ZoomArea) (g : ℕ) :
    isInMovement (screen33 areaLeaving a32 g) 0 = some true := by
  have hz : (screen33 areaLeaving a32 g).zooms[0]? = some areaLeaving := rfl
  simp only [isInMovement, hz]
  norm_num [areaLeaving, ZoomArea.init, ZoomArea.updateActualTranslates]

theorem isInMovement_far (a0 : ZoomArea) (g : ℕ) :
    isInMovement (screen33 a0 areaFar g) 32 = some true := by
  have hz : (screen33 a0 areaFar g).zooms[32]? = some areaFar := rfl
  simp only [isInMovement, hz]
  norm_num [areaFar, ZoomArea.init, ZoomArea.updateActualTranslates]

/-- Step 2: the frame after `setScale (0, 0.999)` brings the area of output 0
to rest at zoom `0.999`; the mask stays `1`. -/
theorem preparePaint_near_33 :
    preparePaint host33 (screen33 areaNear (ZoomArea.init 32) 1) 16 =
      some (screen33 areaNearRest (ZoomArea.init 32) 1) := by
  refine preparePaint_first host33 _ _ 16 (by norm_num) (by norm_num [host33, host1080])
    (by norm_num [host33, host1080]) (by decide) rfl ?_ ?_ rfl ?_
  · intro chunk
    rw [paintArea_integrated host33 chunk (screen33 areaNear (ZoomArea.init 32) 1) 0
      areaNear rfl (isInMovement_near _ _) (by decide), integrate_near]
    rw [if_neg (by norm_num [areaNearRest, ZoomArea.init, ZoomArea.updateActualTranslates])]
    rfl
  · intro out hout
    refine ⟨false, ?_, Or.inl rfl⟩
    have hlt : out < 33 := hout
    by_cases h0 : out = 0
    · subst h0
      exact isInMovement_nearRest _ _
    · by_cases h32 : out = 32
      · subst h32
        exact isInMovement_init _ 32 32 rfl
      · exact isInMovement_init _ out out
          (zooms33_mid _ _ out (by omega) (by omega))
  · intro _
    exact syncCenterToMouse_rest host33 _ output1080 rfl (isInMovement_nearRest _ _)

/-- Step 5: the frame after `setScale (0, 1)`. The area of output 0 reaches
`currentZoom = 1` in the first sub-step and `grabbed &= ~(1 << 0)` empties the
mask; the area of output 32, which is in movement towards `0.5`, is skipped at
`!isActive (out)` in this and every later sub-step. -/
theorem preparePaint_leaving_33 :
    preparePaint host33 (screen33 areaLeaving areaFar 1) 16 =
      some (screen33 (ZoomArea.init 0) areaFar 0) := by
  refine preparePaint_first host33 _ _ 16 (by norm_num) (by norm_num [host33, host1080])
    (by norm_num [host33, host1080]) (by decide) rfl ?_ ?_ rfl ?_
  · intro chunk
    rw [paintArea_integrated host33 chunk (screen33 areaLeaving areaFar 1) 0
      areaLeaving rfl (isInMovement_leaving _ _) (by decide), integrate_leaving]
    rw [if_pos (by norm_num [ZoomArea.init, ZoomArea.updateActualTranslates])]
    rfl
  · intro out hout
    have hlt : out < 33 := hout
    by_cases h0 : out = 0
    · subst h0
      exact ⟨false, isInMovement_init _ 0 0 rfl, Or.inl rfl⟩
    · by_cases h32 : out = 32
      · subst h32
        exact ⟨true, isInMovement_far _ _, Or.inr (by decide)⟩
      · exact ⟨false, isInMovement_init _ out out
          (zooms33_mid _ _ out (by omega) (by omega)), Or.inl rfl⟩
  · intro _
    exact syncCenterToMouse_rest host33 _ output1080 rfl (isInMovement_init _ 0 0 rfl)

/-- The first four calls of the trace on 33 outputs: `setScale (0, 0.999)`, a
frame, `setScale (32, 0.5)`, `setScale (0, 1)`. -/
theorem runOps_leaving_33 :
    runOps host33 [Op.setScale 0 (999 / 1000), Op.preparePaint 16, Op.setScale 32 (1 / 2),
        Op.setScale 0 1] (ZoomScreen.construct host33) =
      some (screen33 areaLeaving areaFar 1) := by
  simp only [runOps, Op.apply, setScale_near_33, preparePaint_near_33, setScale_far_33,
    setScale_leaving_33]

/-- C19 at its failing input. On 33 outputs, from the freshly constructed engine:
`setScale (0, 0.999)`, `preparePaint (16)`, `setScale (32, 0.5)`,
`setScale (0, 1)`. The area of output 32 now has `newZoom = 0.5` and is active:
its test `grabbed & (1 << 32)` reads bit 0, where `1 << 32` is `1 << 0`. The next
`preparePaint (16)` returns; the area of output 0 reaches `currentZoom = 1`,
`newZoom = 1`, `zVelocity = 0`, and `grabbed &= ~(1 << 0)` leaves the mask empty.
The area of output 32 was not integrated, its `newZoom` is still `0.5`, and the
bit its test reads has been cleared: it is no longer active. -/
theorem preparePaint_clears_shared_bit :
    runOps host33 [Op.setScale 0 (999 / 1000), Op.preparePaint 16, Op.setScale 32 (1 / 2),
        Op.setScale 0 1] (ZoomScreen.construct host33) =
      some (screen33 areaLeaving areaFar 1) ∧
    (screen33 areaLeaving areaFar 1).zooms[32]? = some areaFar ∧
    areaFar.output = 32 ∧ areaFar.newZoom = 1 / 2 ∧
    (screen33 areaLeaving areaFar 1).grabbed &&& outputMask areaFar.output = 1 ∧
    isActive (screen33 areaLeaving areaFar 1) 32 = true ∧
    ∃ s' za0,
      preparePaint host33 (screen33 areaLeaving areaFar 1) 16 = some s' ∧
      s'.zooms[0]? = some za0 ∧ za0.currentZoom = 1 ∧ za0.newZoom = 1 ∧
      za0.zVelocity = 0 ∧
      s'.zooms[32]? = some areaFar ∧ areaFar.newZoom ≠ 1 ∧
      s'.grabbed = 0 ∧ s'.grabbed &&& outputMask areaFar.output = 0 ∧
      isActive s' 32 = false := by
  refine ⟨runOps_leaving_33, rfl, rfl, ?_, by decide, by decide,
    screen33 (ZoomArea.init 0) areaFar 0, ZoomArea.init 0, preparePaint_leaving_33, rfl,
    rfl, rfl, rfl, rfl, ?_, rfl, by decide, by decide⟩
  · norm_num [areaFar]
  · norm_num [areaFar]

/-- C30 at its failing input. On 33 outputs with the default `minimumZoom`, from
the freshly constructed engine: `setScale (0, 0.999)`, `preparePaint (16)`,
`setScale (32, 0.5)`, `setScale (0, 1)`, `preparePaint (16)`. Every call returns.
In the final state the area of output 32 has `currentZoom = 1` and
`newZoom = 0.5`, it is in movement, and the grabbed mask is 0: no bit is set,
`isActive (32)` is false, and every later `preparePaint` leaves the state as it
is, so the area is never animated. -/
theorem zoomed_output_not_grabbed :
    host33.minimumZoom ≤ 1 ∧
    ∃ s za,
      runOps host33 [Op.setScale 0 (999 / 1000), Op.preparePaint 16,
        Op.setScale 32 (1 / 2), Op.setScale 0 1, Op.preparePaint 16]
        (ZoomScreen.construct host33) = some s ∧
      s.zooms[32]? = some za ∧ za.output = 32 ∧ za.currentZoom = 1 ∧
      za.newZoom = 1 / 2 ∧ za.newZoom ≠ 1 ∧ isInMovement s 32 = some true ∧
      s.grabbed = 0 ∧ (∀ j : ℕ, s.grabbed.testBit j = false) ∧
      isActive s 32 = false ∧
      ∀ ms : ℤ, preparePaint host33 s ms = some s := by
  refine ⟨by norm_num [host33, host1080], screen33 (ZoomArea.init 0) areaFar 0, areaFar,
    ?_, rfl, rfl, rfl, ?_, ?_, isInMovement_far _ _, rfl, ?_, by decide, ?_⟩
  · simp only [runOps, Op.apply, setScale_near_33, preparePaint_near_33, setScale_far_33,
      setScale_leaving_33, preparePaint_leaving_33]
  · norm_num [areaFar]
  · norm_num [areaFar]
  · intro j
    exact Nat.zero_testBit j
  · intro ms
    unfold preparePaint
    rw [if_neg (by decide)]

end Ezoom
